import Mathlib

/-!
# go-edge: tenant-scoped transactions and error translation

A shallow embedding of the transaction manager of `core/fx/rlsfx`, the error
translator of `core/fx/psqlfx` and the pieces of `core/domain` they rely on,
followed by theorems about them.

Conventions of the embedding

* A Go `error` interface value is `Option GoError`; `none` is `nil`.
* Go's pointer identity of error values is structural equality of `GoError`:
  a value of the embedding stands for one allocated error. An error variable
  declared once with `errors.New` is told from the others by its text, a value
  that `errors.New` makes while the program runs by a number of its own.
* A call ends by returning or by panicking: `Outcome`.
* Stateful code is written in state-passing style: a call takes the state
  before it and returns its result together with the state after it.
-/

namespace GoEdge

/-! ## Error values -/

/-- Contents of a `*pgconn.PgError` that the repository inspects. -/
structure PgError where
  Code : String
  Message : String
  deriving DecidableEq, Repr

/-- `domain.Code`, declared as `type Code string`. -/
abbrev Code := String

/-- The error values of the embedding.

* `errorString`: a value of `errors.New(text)`, or of `fmt.Errorf` without `%w`,
  that its text identifies: an error variable that is declared once, such as
  `pgx.ErrNoRows` (no two of the variables modelled have the same text), or a
  value of which only the text is looked at. It has no methods besides `Error`.
* `errorsNew`: a value that a call `errors.New(text)` makes while the program
  runs, as a pointer of its own: `id` tells such values apart, and none of
  them is a value of the first kind, whatever its text. So
  `errors.New("no rows in result set")` is not `pgx.ErrNoRows`.
* `pgError`: a non-nil `*pgconn.PgError`; it has neither `Unwrap` nor `Is` nor
  `As`.
* `nilPgError`: the nil pointer of type `*pgconn.PgError` stored in an `error`,
  `error((*pgconn.PgError)(nil))`; as an `error` it is not nil.
* `domainError`: a non-nil `*domain.Error` with its `Code`, `Message` and
  `Err`; it has `Unwrap() error` (returning `Err`) and `Is(error) bool`.
* `wrapError`: the result of `fmt.Errorf("...: %w", err)`; `Unwrap() error`.
* `joinError`: the result of `errors.Join(errs...)`; `Unwrap() []error`.

A nil pointer of type `*domain.Error` stored in an `error` is not among them. -/
inductive GoError where
  | errorString (text : String)
  | errorsNew (id : Nat) (text : String)
  | pgError (e : PgError)
  | nilPgError
  | domainError (code : Code) (message : String) (err : Option GoError)
  | wrapError (text : String) (err : GoError)
  | joinError (errs : List GoError)
  deriving Repr

mutual
/-- Decidable equality of error values. -/
def GoError.decEq : (a b : GoError) → Decidable (a = b)
  | .errorString a, .errorString b =>
    if h : a = b then isTrue (by rw [h]) else isFalse (by intro h2; cases h2; exact h rfl)
  | .errorsNew i a, .errorsNew j b =>
    if h : i = j ∧ a = b then isTrue (by rw [h.1, h.2])
    else isFalse (by intro h2; cases h2; exact h ⟨rfl, rfl⟩)
  | .pgError a, .pgError b =>
    if h : a = b then isTrue (by rw [h]) else isFalse (by intro h2; cases h2; exact h rfl)
  | .nilPgError, .nilPgError => isTrue rfl
  | .domainError c m e, .domainError c2 m2 e2 =>
    match GoError.decEqOpt e e2 with
    | isTrue he =>
      if h : c = c2 ∧ m = m2 then isTrue (by rw [h.1, h.2, he])
      else isFalse (by intro h2; cases h2; exact h ⟨rfl, rfl⟩)
    | isFalse he => isFalse (by intro h2; cases h2; exact he rfl)
  | .wrapError t e, .wrapError t2 e2 =>
    match GoError.decEq e e2 with
    | isTrue he =>
      if h : t = t2 then isTrue (by rw [h, he]) else isFalse (by intro h2; cases h2; exact h rfl)
    | isFalse he => isFalse (by intro h2; cases h2; exact he rfl)
  | .joinError es, .joinError es2 =>
    match GoError.decEqList es es2 with
    | isTrue he => isTrue (by rw [he])
    | isFalse he => isFalse (by intro h2; cases h2; exact he rfl)
  | .errorString _, .errorsNew _ _ => isFalse (by intro h; cases h)
  | .errorString _, .pgError _ => isFalse (by intro h; cases h)
  | .errorString _, .nilPgError => isFalse (by intro h; cases h)
  | .errorString _, .domainError _ _ _ => isFalse (by intro h; cases h)
  | .errorString _, .wrapError _ _ => isFalse (by intro h; cases h)
  | .errorString _, .joinError _ => isFalse (by intro h; cases h)
  | .errorsNew _ _, .errorString _ => isFalse (by intro h; cases h)
  | .errorsNew _ _, .pgError _ => isFalse (by intro h; cases h)
  | .errorsNew _ _, .nilPgError => isFalse (by intro h; cases h)
  | .errorsNew _ _, .domainError _ _ _ => isFalse (by intro h; cases h)
  | .errorsNew _ _, .wrapError _ _ => isFalse (by intro h; cases h)
  | .errorsNew _ _, .joinError _ => isFalse (by intro h; cases h)
  | .pgError _, .errorString _ => isFalse (by intro h; cases h)
  | .pgError _, .errorsNew _ _ => isFalse (by intro h; cases h)
  | .pgError _, .nilPgError => isFalse (by intro h; cases h)
  | .pgError _, .domainError _ _ _ => isFalse (by intro h; cases h)
  | .pgError _, .wrapError _ _ => isFalse (by intro h; cases h)
  | .pgError _, .joinError _ => isFalse (by intro h; cases h)
  | .nilPgError, .errorString _ => isFalse (by intro h; cases h)
  | .nilPgError, .errorsNew _ _ => isFalse (by intro h; cases h)
  | .nilPgError, .pgError _ => isFalse (by intro h; cases h)
  | .nilPgError, .domainError _ _ _ => isFalse (by intro h; cases h)
  | .nilPgError, .wrapError _ _ => isFalse (by intro h; cases h)
  | .nilPgError, .joinError _ => isFalse (by intro h; cases h)
  | .domainError _ _ _, .errorString _ => isFalse (by intro h; cases h)
  | .domainError _ _ _, .errorsNew _ _ => isFalse (by intro h; cases h)
  | .domainError _ _ _, .pgError _ => isFalse (by intro h; cases h)
  | .domainError _ _ _, .nilPgError => isFalse (by intro h; cases h)
  | .domainError _ _ _, .wrapError _ _ => isFalse (by intro h; cases h)
  | .domainError _ _ _, .joinError _ => isFalse (by intro h; cases h)
  | .wrapError _ _, .errorString _ => isFalse (by intro h; cases h)
  | .wrapError _ _, .errorsNew _ _ => isFalse (by intro h; cases h)
  | .wrapError _ _, .pgError _ => isFalse (by intro h; cases h)
  | .wrapError _ _, .nilPgError => isFalse (by intro h; cases h)
  | .wrapError _ _, .domainError _ _ _ => isFalse (by intro h; cases h)
  | .wrapError _ _, .joinError _ => isFalse (by intro h; cases h)
  | .joinError _, .errorString _ => isFalse (by intro h; cases h)
  | .joinError _, .errorsNew _ _ => isFalse (by intro h; cases h)
  | .joinError _, .pgError _ => isFalse (by intro h; cases h)
  | .joinError _, .nilPgError => isFalse (by intro h; cases h)
  | .joinError _, .domainError _ _ _ => isFalse (by intro h; cases h)
  | .joinError _, .wrapError _ _ => isFalse (by intro h; cases h)
/-- Decidable equality of optional error values. -/
def GoError.decEqOpt : (a b : Option GoError) → Decidable (a = b)
  | none, none => isTrue rfl
  | some a, some b =>
    match GoError.decEq a b with
    | isTrue h => isTrue (by rw [h])
    | isFalse h => isFalse (by intro h2; cases h2; exact h rfl)
  | none, some _ => isFalse (by intro h; cases h)
  | some _, none => isFalse (by intro h; cases h)
/-- Decidable equality of lists of error values. -/
def GoError.decEqList : (a b : List GoError) → Decidable (a = b)
  | [], [] => isTrue rfl
  | a :: as, b :: bs =>
    match GoError.decEq a b with
    | isTrue h =>
      match GoError.decEqList as bs with
      | isTrue h2 => isTrue (by rw [h, h2])
      | isFalse h2 => isFalse (by intro h3; cases h3; exact h2 rfl)
    | isFalse h => isFalse (by intro h2; cases h2; exact h rfl)
  | [], _ :: _ => isFalse (by intro h; cases h)
  | _ :: _, [] => isFalse (by intro h; cases h)
end

instance : DecidableEq GoError := GoError.decEq

/-! ## How a call ends -/

/-- How a Go call ends: it returns a value or it panics. -/
inductive Outcome (α : Type) where
  | ret (v : α)
  | panicked (msg : String)
  deriving DecidableEq, Repr

/-- The value of an outcome after a function was applied to what it returns. -/
def Outcome.map {α β : Type} (f : α → β) : Outcome α → Outcome β
  | .ret v => .ret (f v)
  | .panicked msg => .panicked msg

/-- The outcome of a call followed by a second call on what the first returned;
a panic of the first ends both. -/
def Outcome.bind {α β : Type} (o : Outcome α) (f : α → Outcome β) : Outcome β :=
  match o with
  | .ret v => f v
  | .panicked msg => .panicked msg

/-- The message of the run-time panic of a nil pointer dereference. -/
def nilDereference : String := "invalid memory address or nil pointer dereference"

/-! ## core/domain/errors.go -/

namespace domain

def CodeNotFound : Code := "NOT_FOUND"
def CodeConflict : Code := "CONFLICT"
def CodeValidation : Code := "VALIDATION"
def CodeForbidden : Code := "FORBIDDEN"
def CodeInvariant : Code := "INVARIANT_VIOLATED"

/-- The method `(*Error).Is` of a domain error with code `code`:
`t, ok := target.(*Error); if !ok { return false }; return e.Code == t.Code`. -/
def Error.Is (code : Code) (target : GoError) : Bool :=
  match target with
  | .domainError tcode _ _ => code == tcode
  | _ => false

/-- `NewError(code, message)` is `&Error{Code: code, Message: message}`. -/
def NewError (code : Code) (message : String) : GoError :=
  .domainError code message none

/-- `WrapError(code, message, err)`. -/
def WrapError (code : Code) (message : String) (err : Option GoError) : GoError :=
  .domainError code message err

def ErrNotFound : GoError := .domainError CodeNotFound "" none
def ErrConflict : GoError := .domainError CodeConflict "" none
def ErrValidation : GoError := .domainError CodeValidation "" none
def ErrForbidden : GoError := .domainError CodeForbidden "" none
def ErrInvariant : GoError := .domainError CodeInvariant "" none

/-- `ErrMissingOrganization` of core/domain/organization.go. -/
def ErrMissingOrganization : GoError :=
  .errorString "domain: missing organization in context"

end domain

/-! ## The standard library's `errors.Is` and `errors.As` -/

namespace errors

mutual
/-- The loop `is(err, target, true)` of the standard library: at each error
compare it with the target, then ask its `Is` method when it has one, then
descend through `Unwrap() error` or, depth first, through `Unwrap() []error`. -/
def isLoop (target : GoError) : GoError → Bool
  | .errorString t => decide (GoError.errorString t = target)
  | .errorsNew i t => decide (GoError.errorsNew i t = target)
  | .pgError p => decide (GoError.pgError p = target)
  | .nilPgError => decide (GoError.nilPgError = target)
  | .domainError c m none =>
    decide (GoError.domainError c m none = target) || domain.Error.Is c target
  | .domainError c m (some e) =>
    decide (GoError.domainError c m (some e) = target) || domain.Error.Is c target
      || isLoop target e
  | .wrapError t e => decide (GoError.wrapError t e = target) || isLoop target e
  | .joinError es => decide (GoError.joinError es = target) || isLoopList target es
/-- The `for _, err := range x.Unwrap()` part of `is`. -/
def isLoopList (target : GoError) : List GoError → Bool
  | [] => false
  | e :: es => isLoop target e || isLoopList target es
end

/-- `errors.Is(err, target)`. -/
def Is (err target : Option GoError) : Bool :=
  match err, target with
  | some e, some t => isLoop t e
  | none, none => true
  | _, _ => false

mutual
/-- `errors.As(err, &pgErr)` for `var pgErr *pgconn.PgError`: the first error of
the traversal whose type is `*pgconn.PgError`, if there is one; that is what
`pgErr` is set to, `some none` being the nil pointer. -/
def asPgError : GoError → Option (Option PgError)
  | .errorString _ => none
  | .errorsNew _ _ => none
  | .pgError p => some (some p)
  | .nilPgError => some none
  | .domainError _ _ none => none
  | .domainError _ _ (some e) => asPgError e
  | .wrapError _ e => asPgError e
  | .joinError es => asPgErrorList es
/-- The `for _, err := range x.Unwrap()` part of `as`. -/
def asPgErrorList : List GoError → Option (Option PgError)
  | [] => none
  | e :: es =>
    match asPgError e with
    | some p => some p
    | none => asPgErrorList es
end

mutual
/-- The errors that `errors.Is` and `errors.As` visit, in the order of the
visit: the error itself, then what it wraps, depth first. -/
def chain : GoError → List GoError
  | .errorString t => [.errorString t]
  | .errorsNew i t => [.errorsNew i t]
  | .pgError p => [.pgError p]
  | .nilPgError => [.nilPgError]
  | .domainError c m none => [.domainError c m none]
  | .domainError c m (some e) => .domainError c m (some e) :: chain e
  | .wrapError t e => .wrapError t e :: chain e
  | .joinError es => .joinError es :: chainList es
/-- The chains of a list of errors, one after the other. -/
def chainList : List GoError → List GoError
  | [] => []
  | e :: es => chain e ++ chainList es
end

/-- The first error of type `*pgconn.PgError` of a list of errors; `some none`
is the nil pointer. -/
def firstPgError (l : List GoError) : Option (Option PgError) :=
  l.findSome? (fun x => match x with
    | .pgError p => some (some p)
    | .nilPgError => some none
    | _ => none)

end errors

/-! ## core/fx/psqlfx/errors.go -/

namespace pgx

/-- `pgx.ErrNoRows`, a sentinel error value of the driver. -/
def ErrNoRows : GoError := .errorString "no rows in result set"

/-- `pgx.ErrTxClosed`, returned by a handle that was already committed or rolled back. -/
def ErrTxClosed : GoError := .errorString "tx is closed"

end pgx

namespace psqlfx

def pgUniqueViolation : String := "23505"

/-- `TranslateError` of core/fx/psqlfx/errors.go. When `errors.As` has set
`pgErr` to the nil pointer, reading `pgErr.Code` panics. -/
def TranslateError (err : Option GoError) : Outcome (Option GoError) :=
  match err with
  | none => .ret none
  | some e =>
    if errors.Is (some e) (some pgx.ErrNoRows) then
      .ret (some (domain.NewError domain.CodeNotFound "not found"))
    else
      match errors.asPgError e with
      | some (some pgErr) =>
        if pgErr.Code == pgUniqueViolation then
          .ret (some (domain.NewError domain.CodeConflict "already exists"))
        else .ret (some e)
      | some none => .panicked nilDereference
      | none => .ret (some e)

end psqlfx


/-! ## Strings

A Go string is modelled by a Lean `String`, read as its list of characters.
The two characters the quoting code looks for are ASCII, so replacing them
character by character agrees with Go's byte-wise `strings.ReplaceAll`. -/

/-- The single quote character. -/
def quoteChar : Char := Char.ofNat 39

/-- The backslash character. -/
def backslashChar : Char := Char.ofNat 92

/-- `strings.ReplaceAll(s, old, new)` for a one-character `old`. -/
def replaceAllChar (old : Char) (new : List Char) (s : List Char) : List Char :=
  s.flatMap (fun c => if c = old then new else [c])

/-! ## core/fx/psqlfx/quote.go -/

namespace psqlfx

/-- `QuoteLiteral` of core/fx/psqlfx/quote.go. -/
def QuoteLiteral (value : String) : String :=
  let value := replaceAllChar quoteChar [quoteChar, quoteChar] value.data
  if backslashChar ∈ value then
    let value := replaceAllChar backslashChar [backslashChar, backslashChar] value
    String.mk ([' ', 'E', quoteChar] ++ value ++ [quoteChar])
  else
    String.mk ([quoteChar] ++ value ++ [quoteChar])

end psqlfx

/-! ## github.com/google/uuid -/

namespace uuid

/-- A `uuid.UUID`, an array of 16 bytes. -/
structure UUID where
  bytes : List (Fin 256)
  size : bytes.length = 16
  deriving DecidableEq

/-- One digit of the table "0123456789abcdef". -/
def hexDigit (n : Nat) : Char :=
  if n < 10 then Char.ofNat (48 + n) else Char.ofNat (87 + n)

/-- `hex.Encode`: two lower-case hexadecimal digits for each byte. -/
def hexEncode (bs : List (Fin 256)) : List Char :=
  bs.flatMap (fun b => [hexDigit (b.val / 16), hexDigit (b.val % 16)])

/-- `UUID.String`: the form xxxxxxxx-xxxx-xxxx-xxxx-xxxxxxxxxxxx. -/
def UUID.String (u : UUID) : String :=
  String.mk (hexEncode (u.bytes.take 4) ++ '-' :: hexEncode ((u.bytes.drop 4).take 2)
    ++ '-' :: hexEncode ((u.bytes.drop 6).take 2)
    ++ '-' :: hexEncode ((u.bytes.drop 8).take 2)
    ++ '-' :: hexEncode (u.bytes.drop 10))

end uuid

/-! ## core/domain/organization.go and core/fx/psqlfx/tx.go -/

/-- A non-nil `pgx.Tx`: the identity of one transaction or savepoint handle. -/
abbrev Handle := Nat

namespace domain

/-- `domain.Organization`. -/
structure Organization where
  ID : uuid.UUID
  Slug : String
  deriving DecidableEq

end domain

namespace context

/-- Keys under which values are stored in a `context.Context`. The first two are
the unexported key types of core/domain and core/fx/psqlfx. -/
inductive Key where
  | organizationContextKey
  | txContextKey
  | other (name : String)
  deriving DecidableEq, Repr

/-- Values stored in a context, by dynamic type: a `*domain.Organization` (which
may be a nil pointer), a `pgx.Tx` (which may be the nil interface) or a value
of another type. -/
inductive Val where
  | organization (org : Option domain.Organization)
  | tx (tx : Option Handle)
  | other (v : String)
  deriving DecidableEq

/-- A `context.Context` as far as values are concerned: `context.Background()`
or `context.WithValue(parent, key, val)`. -/
inductive Context where
  | Background
  | WithValue (parent : Context) (key : Key) (val : Val)
  deriving DecidableEq

/-- The method `ctx.Value(key)`: the innermost binding of the key. -/
def Context.Value : Context → Key → Option Val
  | .Background, _ => none
  | .WithValue parent k v, key => if k = key then some v else parent.Value key

end context

open context (Context)

namespace domain

/-- `ContextWithOrganization` of core/domain/organization.go. -/
def ContextWithOrganization (ctx : Context) (org : Option Organization) : Context :=
  .WithValue ctx .organizationContextKey (.organization org)

/-- `OrganizationFromContext` of core/domain/organization.go; the result is the
pair `(*Organization, error)`. -/
def OrganizationFromContext (ctx : Context) : Option Organization × Option GoError :=
  match ctx.Value .organizationContextKey with
  | some (.organization (some org)) => (some org, none)
  | _ => (none, some ErrMissingOrganization)

end domain

namespace psqlfx

/-- `TxFromContext` of core/fx/psqlfx/tx.go. -/
def TxFromContext (ctx : Context) : Option Handle :=
  match ctx.Value .txContextKey with
  | some (.tx tx) => tx
  | _ => none

/-- `ContextWithTx` of core/fx/psqlfx/tx.go. -/
def ContextWithTx (ctx : Context) (tx : Option Handle) : Context :=
  .WithValue ctx .txContextKey (.tx tx)

end psqlfx

/-! ## Collaborators: the connection pool, its handles and the logger -/

namespace pgx

/-- The methods of `*pgxpool.Pool` and of `pgx.Tx` that the repository calls,
over a state `S` of the database session. Each takes the state before the call
and returns its result with the state after it.

* `PoolBegin`: `pool.Begin(ctx)`.
* `Begin`: `tx.Begin(ctx)`, a savepoint below the handle `tx`.
* `QueryRowScan`: `tx.QueryRow(ctx, sql, args...).Scan(&dst)` for a string `dst`;
  `.ok v` stores `v` in `dst`, `.error err` leaves `dst` as it was.
* `Exec`: `tx.Exec(ctx, sql)`; only the error of the result is used.
* `Commit`, `Rollback`: `tx.Commit(ctx)`, `tx.Rollback(ctx)`. -/
structure Driver (S : Type) where
  PoolBegin : S → Except GoError Handle × S
  Begin : Handle → S → Except GoError Handle × S
  QueryRowScan : Handle → String → List String → S → Except GoError String × S
  Exec : Handle → String → S → Option GoError × S
  Commit : Handle → S → Option GoError × S
  Rollback : Handle → S → Option GoError × S

/-- One call on the pool or on a handle. -/
inductive Call where
  | PoolBegin
  | Begin (tx : Handle)
  | QueryRowScan (tx : Handle) (sql : String) (args : List String)
  | Exec (tx : Handle) (sql : String)
  | Commit (tx : Handle)
  | Rollback (tx : Handle)
  deriving DecidableEq, Repr

/-- A session state together with the calls made so far, oldest first. -/
structure Recorded (S : Type) where
  state : S
  calls : List Call
  deriving DecidableEq

/-- The call-recording double of a driver: every call is noted, whatever its
result, and then passed to the driver. -/
def Driver.recording {S : Type} (d : Driver S) : Driver (Recorded S) where
  PoolBegin w :=
    let r := d.PoolBegin w.state
    (r.1, ⟨r.2, w.calls ++ [Call.PoolBegin]⟩)
  Begin tx w :=
    let r := d.Begin tx w.state
    (r.1, ⟨r.2, w.calls ++ [Call.Begin tx]⟩)
  QueryRowScan tx sql args w :=
    let r := d.QueryRowScan tx sql args w.state
    (r.1, ⟨r.2, w.calls ++ [Call.QueryRowScan tx sql args]⟩)
  Exec tx sql w :=
    let r := d.Exec tx sql w.state
    (r.1, ⟨r.2, w.calls ++ [Call.Exec tx sql]⟩)
  Commit tx w :=
    let r := d.Commit tx w.state
    (r.1, ⟨r.2, w.calls ++ [Call.Commit tx]⟩)
  Rollback tx w :=
    let r := d.Rollback tx w.state
    (r.1, ⟨r.2, w.calls ++ [Call.Rollback tx]⟩)

/-- A driver over a state extended with a local variable of the caller, which
no call touches. -/
def Driver.withLocal {S : Type} (d : Driver S) (T : Type) : Driver (S × T) where
  PoolBegin st :=
    let r := d.PoolBegin st.1
    (r.1, (r.2, st.2))
  Begin tx st :=
    let r := d.Begin tx st.1
    (r.1, (r.2, st.2))
  QueryRowScan tx sql args st :=
    let r := d.QueryRowScan tx sql args st.1
    (r.1, (r.2, st.2))
  Exec tx sql st :=
    let r := d.Exec tx sql st.1
    (r.1, (r.2, st.2))
  Commit tx st :=
    let r := d.Commit tx st.1
    (r.1, (r.2, st.2))
  Rollback tx st :=
    let r := d.Rollback tx st.1
    (r.1, (r.2, st.2))

end pgx

namespace slog

/-- A key and value passed to a logging call. -/
inductive Attr where
  | string (key : String) (value : String)
  | error (key : String) (err : GoError)

/-- One logging call: level, message and attributes. -/
structure Record where
  level : String
  msg : String
  attrs : List Attr

/-- A non-nil `*slog.Logger`: what a logging call does to the state. -/
abbrev Logger (S : Type) := Record → S → S

end slog

/-! ## core/fx/rlsfx/rls.go -/

namespace rlsfx

open pgx (Driver Call Recorded)

def ErrMissingSchema : GoError := .errorString "rlsfx: schema is required"

/-- The struct `DB`: `pool` stands for the pool and the handles it hands out,
`logger` is `none` for a nil logger. -/
structure DB (S : Type) where
  pool : Driver S
  schema : String
  field : String
  logger : Option (slog.Logger S)

/-- A unit of work `func(ctx context.Context, tx pgx.Tx) error`. -/
abbrev Work (S : Type) := Context → Handle → S → Outcome (Option GoError) × S

/-- Line 38 of rls.go: `variable := db.schema + "." + db.field`. -/
def DB.variable {S : Type} (db : DB S) : String :=
  db.schema ++ "." ++ db.field

/-- Lines 42-47: a savepoint on the parent when there is one, else a
transaction from the pool. -/
def DB.begin {S : Type} (db : DB S) (parent : Option Handle) (s : S) :
    Except GoError Handle × S :=
  match parent with
  | some p => db.pool.Begin p s
  | none => db.pool.PoolBegin s

/-- Lines 56-63: for a nested call, read the current value of the variable on
the new handle into `savedValue`; when the read fails `savedValue` stays empty
and a warning is logged if there is a logger. -/
def DB.readSavedValue {S : Type} (db : DB S) (parent : Option Handle) (tx : Handle) (s : S) :
    String × S :=
  match parent with
  | some _ =>
    match db.pool.QueryRowScan tx "SELECT current_setting($1, true)" [db.variable] s with
    | (.ok v, s) => (v, s)
    | (.error err, s) =>
      match db.logger with
      | some logger =>
        ("", logger ⟨"WARN", "failed to read current RLS value",
          [.string "variable" db.variable, .error "error" err]⟩ s)
      | none => ("", s)
  | none => ("", s)

/-- Lines 65-67: the debug message before the variable is set. -/
def DB.logApplying {S : Type} (db : DB S) (s : S) : S :=
  match db.logger with
  | some logger => logger ⟨"DEBUG", "applying RLS", [.string "variable" db.variable]⟩ s
  | none => s

/-- The statement text of lines 69 and 83:
`"SET LOCAL "+variable+" = "+psqlfx.QuoteLiteral(value)`. -/
def DB.setLocal {S : Type} (db : DB S) (value : String) : String :=
  "SET LOCAL " ++ db.variable ++ " = " ++ psqlfx.QuoteLiteral value

/-- Lines 77-88: commit the handle, then for a nested call with a non-empty saved
value restore that value on the parent. -/
def DB.commitAndRestore {S : Type} (db : DB S) (parent : Option Handle) (tx : Handle)
    (savedValue : String) (s : S) : Outcome (Option GoError) × S :=
  match db.pool.Commit tx s with
  | (some err, s) => (.ret (some err), s)
  | (none, s) =>
    match parent with
    | some p =>
      if savedValue ≠ "" then
        match db.pool.Exec p (db.setLocal savedValue) s with
        | (some err, s) => (.ret (some err), s)
        | (none, s) => (.ret none, s)
      else (.ret none, s)
    | none => (.ret none, s)

/-- Lines 53-88, the part of `Tx` that runs after `defer tx.Rollback(ctx)` was
registered. Dereferencing a nil `org` at line 69 is a panic. -/
def DB.scoped {S : Type} (db : DB S) (ctx : Context) (fn : Work S)
    (org : Option domain.Organization) (parent : Option Handle) (tx : Handle) (s : S) :
    Outcome (Option GoError) × S :=
  match db.readSavedValue parent tx s with
  | (savedValue, s) =>
    match org with
    | none => (.panicked nilDereference, db.logApplying s)
    | some org =>
      match db.pool.Exec tx (db.setLocal org.ID.String) (db.logApplying s) with
      | (some err, s) => (.ret (some err), s)
      | (none, s) =>
        match fn (psqlfx.ContextWithTx ctx (some tx)) tx s with
        | (.panicked msg, s) => (.panicked msg, s)
        | (.ret (some err), s) => (.ret (some err), s)
        | (.ret none, s) => db.commitAndRestore parent tx savedValue s

/-- The method `(*DB).Tx` of core/fx/rlsfx/rls.go. The deferred
`tx.Rollback(ctx)` runs after the result is fixed, whether the body returned or
panicked, and its own result is dropped. -/
def DB.Tx {S : Type} (db : DB S) (ctx : Context) (fn : Work S) (s : S) :
    Outcome (Option GoError) × S :=
  match domain.OrganizationFromContext ctx with
  | (_, some err) => (.ret (some err), s)
  | (org, none) =>
    match db.begin (psqlfx.TxFromContext ctx) s with
    | (.error err, s) => (.ret (some err), s)
    | (.ok tx, s) =>
      match db.scoped ctx fn org (psqlfx.TxFromContext ctx) tx s with
      | (result, s) => (result, (db.pool.Rollback tx s).2)

/-- What `Tx` does once `fn` has come back with `r`: lines 73-88 and then the
deferred `tx.Rollback(ctx)`. -/
def DB.complete {S : Type} (db : DB S) (parent : Option Handle) (tx : Handle)
    (savedValue : String) (r : Outcome (Option GoError) × S) : Outcome (Option GoError) × S :=
  match
    (match r with
      | (.panicked msg, s) => (.panicked msg, s)
      | (.ret (some err), s) => (.ret (some err), s)
      | (.ret none, s) => db.commitAndRestore parent tx savedValue s) with
  | (result, s) => (result, (db.pool.Rollback tx s).2)

/-- `NewDB` of core/fx/rlsfx/rls.go, with the configuration's two fields. -/
def NewDB {S : Type} (pool : Driver S) (cfgSchema cfgField : String)
    (logger : Option (slog.Logger S)) : Option (DB S) × Option GoError :=
  if cfgSchema = "" then (none, some ErrMissingSchema)
  else (some ⟨pool, cfgSchema, cfgField, logger⟩, none)

/-- The database of a call-recording double: the pool records its calls, the
logger acts on the underlying state. -/
def DB.recording {S : Type} (db : DB S) : DB (Recorded S) where
  pool := db.pool.recording
  schema := db.schema
  field := db.field
  logger := db.logger.map (fun logger r w => ⟨logger r w.state, w.calls⟩)

/-- The database seen by a closure that owns a local variable of type `T`. -/
def DB.withLocal {S : Type} (db : DB S) (T : Type) : DB (S × T) where
  pool := db.pool.withLocal T
  schema := db.schema
  field := db.field
  logger := db.logger.map (fun logger r st => (logger r st.1, st.2))

/-! ## core/fx/rlsfx/helpers.go -/

/-- A unit of work `func(context.Context, pgx.Tx) (T, error)`. -/
abbrev WorkOf (S T : Type) := Context → Handle → S → Outcome (T × Option GoError) × S

/-- The function literal inside `Query`; the captured variable `result` is the
second component of the state. -/
def Query.closure {S T : Type} (fn : WorkOf S T) : Work (S × T) :=
  fun ctx tx st =>
    match fn ctx tx st.1 with
    | (.ret (_, some err), s) => (.ret (some err), (s, st.2))
    | (.ret (v, none), s) => (.ret none, (s, v))
    | (.panicked msg, s) => (.panicked msg, (s, st.2))

/-- `Query` of core/fx/rlsfx/helpers.go; `default` is the zero value of `T`
that `var result T` starts from. A panic of `TranslateError` is the panic of
`Query`. -/
def Query {S T : Type} [Inhabited T] (db : DB S) (ctx : Context) (fn : WorkOf S T) (s : S) :
    Outcome (T × Option GoError) × S :=
  match (db.withLocal T).Tx ctx (Query.closure fn) (s, default) with
  | (.ret (some err), (s, result)) =>
    ((psqlfx.TranslateError (some err)).map (fun translated => (result, translated)), s)
  | (.ret none, (s, result)) => (.ret (result, none), s)
  | (.panicked msg, (s, _)) => (.panicked msg, s)

/-- `Exec` of core/fx/rlsfx/helpers.go. A panic of `TranslateError` is the panic
of `Exec`. -/
def Exec {S : Type} (db : DB S) (ctx : Context) (fn : Work S) (s : S) :
    Outcome (Option GoError) × S :=
  match db.Tx ctx fn s with
  | (.ret (some err), s) => (psqlfx.TranslateError (some err), s)
  | (.ret none, s) => (.ret none, s)
  | (.panicked msg, s) => (.panicked msg, s)

/-- The unit of work that runs `g` and discards its value. -/
def discardValue {S T : Type} (g : WorkOf S T) : Work S :=
  fun ctx tx s =>
    match g ctx tx s with
    | (.ret (_, err), s) => (.ret err, s)
    | (.panicked msg, s) => (.panicked msg, s)

end rlsfx

/-! ## A model of the database session

The storage engine and the driver's handles, as far as the session variable is
concerned: one pooled connection with its settings, the open transaction and
the savepoints below it. `SET LOCAL` lasts until the end of the enclosing
transaction; releasing a savepoint keeps what was set inside it, rolling back
to a savepoint reverts it. A handle is closed once it was committed or rolled
back, and every call on a closed handle fails with `pgx.ErrTxClosed`. -/

namespace postgres

/-- One open transaction or savepoint: its handle and the settings at the time
it began. -/
structure Frame where
  handle : Handle
  saved : List (String × String)
  deriving DecidableEq, Repr

/-- The connection: current settings (the first entry of a name is its value),
the open transaction and savepoints (innermost first) and the next fresh
handle. -/
structure Session where
  settings : List (String × String)
  frames : List Frame
  next : Handle
  deriving DecidableEq, Repr

/-- Whether the handle is open. -/
def Session.isOpen (s : Session) (tx : Handle) : Bool :=
  s.frames.any (fun f => f.handle == tx)

/-- The frame of an open handle. -/
def Session.frame (s : Session) (tx : Handle) : Option Frame :=
  s.frames.find? (fun f => f.handle == tx)

/-- The frames outside the one of `tx`. -/
def Session.outer (s : Session) (tx : Handle) : List Frame :=
  (s.frames.dropWhile (fun f => f.handle != tx)).tail

/-- The current value of a setting, if it is set. -/
def Session.current (s : Session) (name : String) : Option String :=
  s.settings.lookup name

/-- Characters of a setting name such as `app.current_organization`. -/
def isNameChar (c : Char) : Bool :=
  c.isAlphanum || c == '_' || c == '.'

/-- The rest of `s` after the leading `p`, if `s` starts with `p`. -/
def stripLeading : List Char → List Char → Option (List Char)
  | [], s => some s
  | _ :: _, [] => none
  | a :: p, b :: s => if a = b then stripLeading p s else none

/-- Reads the body of a string literal up to its closing quote, which must end
the input: two quotes stand for one quote and, when `escapes` is set
(the `E` form), two backslashes stand for one backslash. -/
def decodeBody (escapes : Bool) : List Char → Option (List Char)
  | [] => none
  | [c] => if c = quoteChar then some [] else none
  | c :: d :: rest =>
    if c = quoteChar then
      if d = quoteChar then (decodeBody escapes rest).map (quoteChar :: ·) else none
    else if escapes && c == backslashChar then
      if d = backslashChar then (decodeBody escapes rest).map (backslashChar :: ·) else none
    else (decodeBody escapes (d :: rest)).map (c :: ·)

/-- Reads one string literal, of the form with plain quotes or of the `E` form. -/
def decodeLiteral : List Char → Option (List Char)
  | [] => none
  | c :: rest =>
    if c = quoteChar then decodeBody false rest
    else if c = 'E' then
      match rest with
      | [] => none
      | d :: body => if d = quoteChar then decodeBody true body else none
    else none

/-- Reads the statement `SET LOCAL name = literal`: the name and the value. -/
def parseSetLocal (sql : String) : Option (String × String) :=
  match stripLeading "SET LOCAL ".data sql.data with
  | none => none
  | some rest =>
    if rest.takeWhile isNameChar = [] then none
    else
      match stripLeading " = ".data (rest.dropWhile isNameChar) with
      | none => none
      | some lit =>
        match decodeLiteral (lit.dropWhile (· == ' ')) with
        | none => none
        | some v => some (String.mk (rest.takeWhile isNameChar), String.mk v)

/-- The error of a statement the model does not understand. -/
def syntaxError : GoError := .pgError ⟨"42601", "syntax error"⟩

/-- The error of scanning SQL NULL into a Go string. -/
def scanNullError : GoError := .errorString "cannot scan NULL into *string"

/-- The error of acquiring the connection while it is in use. -/
def busyError : GoError := .errorString "context deadline exceeded"

/-- `pool.Begin`: starts a transaction when the connection is free. -/
def poolBegin (s : Session) : Except GoError Handle × Session :=
  if s.frames = [] then
    (.ok s.next, { s with frames := [⟨s.next, s.settings⟩], next := s.next + 1 })
  else (.error busyError, s)

/-- `tx.Begin`: a savepoint inside the innermost open scope. -/
def begin (tx : Handle) (s : Session) : Except GoError Handle × Session :=
  if s.isOpen tx then
    (.ok s.next, { s with frames := ⟨s.next, s.settings⟩ :: s.frames, next := s.next + 1 })
  else (.error pgx.ErrTxClosed, s)

/-- `tx.QueryRow(...).Scan(&dst)`: the model answers
`SELECT current_setting($1, true)`, whose result is NULL for a name that is
not set. -/
def queryRowScan (tx : Handle) (sql : String) (args : List String) (s : Session) :
    Except GoError String × Session :=
  if s.isOpen tx then
    if sql = "SELECT current_setting($1, true)" then
      match args with
      | [name] =>
        match s.current name with
        | some v => (.ok v, s)
        | none => (.error scanNullError, s)
      | _ => (.error syntaxError, s)
    else (.error syntaxError, s)
  else (.error pgx.ErrTxClosed, s)

/-- `tx.Exec`: the model executes `SET LOCAL name = literal`. -/
def exec (tx : Handle) (sql : String) (s : Session) : Option GoError × Session :=
  if s.isOpen tx then
    match parseSetLocal sql with
    | some (name, v) => (none, { s with settings := (name, v) :: s.settings })
    | none => (some syntaxError, s)
  else (some pgx.ErrTxClosed, s)

/-- `tx.Commit`: releasing a savepoint keeps the settings; committing the
transaction ends it, and with it what `SET LOCAL` had set. The scopes opened
inside `tx` end with it. -/
def commit (tx : Handle) (s : Session) : Option GoError × Session :=
  match s.frame tx with
  | none => (some pgx.ErrTxClosed, s)
  | some f =>
    if s.outer tx = [] then (none, { s with settings := f.saved, frames := [] })
    else (none, { s with frames := s.outer tx })

/-- `tx.Rollback`: the settings are again those from when `tx` began. -/
def rollback (tx : Handle) (s : Session) : Option GoError × Session :=
  match s.frame tx with
  | none => (some pgx.ErrTxClosed, s)
  | some f => (none, { s with settings := f.saved, frames := s.outer tx })

/-- The driver of the modelled session. -/
def driver : pgx.Driver Session where
  PoolBegin := poolBegin
  Begin := begin
  QueryRowScan := queryRowScan
  Exec := exec
  Commit := commit
  Rollback := rollback

/-- A fresh connection: nothing set, no transaction open. -/
def idle : Session := ⟨[], [], 1⟩

/-- What a statement on the handle `tx` observes as the value of the setting. -/
def observe (tx : Handle) (name : String) (s : Session) : Except GoError String :=
  (queryRowScan tx "SELECT current_setting($1, true)" [name] s).1

end postgres

/-- The database of core/fx/rlsfx on the modelled session. -/
def rlsfx.onSession (schema field : String) (logger : Option (slog.Logger postgres.Session)) :
    rlsfx.DB postgres.Session :=
  ⟨postgres.driver, schema, field, logger⟩

/-! ## Sample values -/

namespace sample

/-- The UUID whose 16 bytes are all `b`. -/
def uuidOf (b : Fin 256) : uuid.UUID := ⟨List.replicate 16 b, by simp⟩

def orgA : domain.Organization := ⟨uuidOf 0xab, "org-a"⟩

def orgB : domain.Organization := ⟨uuidOf 0x1c, "org-b"⟩

/-- The database of the test suite, on the modelled session, without a logger. -/
def db : rlsfx.DB postgres.Session := ⟨postgres.driver, "app", "current_organization", none⟩

/-- A context bound to `orgA`. -/
def ctxA : Context := domain.ContextWithOrganization .Background (some orgA)

/-- The call-recording double before any call. -/
def start : pgx.Recorded postgres.Session := ⟨postgres.idle, []⟩

/-- A unit of work that fails. -/
def failing (S : Type) : rlsfx.Work S :=
  fun _ _ s => (.ret (some (GoError.errorString "something went wrong")), s)

/-- A unit of work that succeeds without touching the session. -/
def succeeding (S : Type) : rlsfx.Work S :=
  fun _ _ s => (.ret none, s)

/-- A unit of work that commits the handle it was given and reports success. -/
def committing : rlsfx.Work (pgx.Recorded postgres.Session) :=
  fun _ tx w => (.ret none, (db.recording.pool.Commit tx w).2)

/-- A unit of work with a value. -/
def answering : rlsfx.WorkOf postgres.Session Nat :=
  fun _ _ s => (.ret (42, none), s)

end sample

/-! ## Identifier quoting -/

namespace strings

/-- `strings.Join(elems, sep)`: nothing for no element, else the first element
followed by the separator and the next element, for each further element. -/
def Join (elems : List String) (sep : String) : String :=
  match elems with
  | [] => ""
  | e :: rest => rest.foldl (fun acc x => acc ++ sep ++ x) e

end strings

/-- The NUL character. -/
def nulChar : Char := Char.ofNat 0

/-- The double quote character. -/
def doubleQuoteChar : Char := Char.ofNat 34

namespace pgx

/-- The method `Identifier.Sanitize` of the driver (pgx/v5, conn.go): for each
part `s := strings.ReplaceAll(ident[i], string([]byte{0}), "")`, then the part
is the double quote, `strings.ReplaceAll(s, "\"", "\"\"")` and the double quote;
the parts are joined with ".". -/
def Identifier.Sanitize (ident : List String) : String :=
  strings.Join
    (ident.map (fun part =>
      String.mk ([doubleQuoteChar]
        ++ replaceAllChar doubleQuoteChar [doubleQuoteChar, doubleQuoteChar]
            (replaceAllChar nulChar [] part.data)
        ++ [doubleQuoteChar])))
    "."

end pgx

namespace psqlfx

/-- `QuoteIdentifier` of core/fx/psqlfx/quote.go. -/
def QuoteIdentifier (ident : List String) : String :=
  pgx.Identifier.Sanitize ident

/-- One identifier part as the specification words it: wrapped in double
quotes, every embedded double quote doubled. -/
def quotePartSpec (part : String) : String :=
  String.mk (doubleQuoteChar
    :: (part.data.flatMap (fun c => if c = doubleQuoteChar then [c, c] else [c])
        ++ [doubleQuoteChar]))

/-- The quoted parts joined by ".", as the specification words it. -/
def QuoteIdentifierSpec : List String → String
  | [] => ""
  | [part] => quotePartSpec part
  | part :: next :: rest => quotePartSpec part ++ "." ++ QuoteIdentifierSpec (next :: rest)

/-- A string without its NUL characters. -/
def withoutNul (part : String) : String :=
  String.mk (part.data.filter (fun c => c != nulChar))

/-- The literal as the specification words it: without a backslash in `s`, `s`
with every quote doubled between quotes; with a backslash in `s`, the `E` form
with a leading blank, every quote and every backslash of `s` doubled. -/
def QuoteLiteralSpec (s : String) : String :=
  if backslashChar ∈ s.data then
    String.mk ([' ', 'E', quoteChar]
      ++ s.data.flatMap (fun c =>
          if c = quoteChar then [quoteChar, quoteChar]
          else if c = backslashChar then [backslashChar, backslashChar]
          else [c])
      ++ [quoteChar])
  else
    String.mk ([quoteChar]
      ++ s.data.flatMap (fun c => if c = quoteChar then [quoteChar, quoteChar] else [c])
      ++ [quoteChar])

end psqlfx

/-! ## Contexts and domain errors, continued -/

namespace context

/-- Whether `domain.ContextWithOrganization` was applied somewhere in the chain
of ancestors that built the context. -/
def Context.hasOrganization : Context → Bool
  | .Background => false
  | .WithValue _ .organizationContextKey (.organization _) => true
  | .WithValue parent _ _ => parent.hasOrganization

end context

namespace domain

/-- The call `e.Is(target)` on an error value `e`: the method of `*Error` reads
the receiver's code only. An error of another type has no such method here. -/
def Error.IsMethod (e target : GoError) : Bool :=
  match e with
  | .domainError code _ _ => Error.Is code target
  | _ => false

end domain

/-- Whether the error value is a `*domain.Error`. -/
def GoError.isDomainError : GoError → Bool
  | .domainError _ _ _ => true
  | _ => false

namespace errors

mutual
/-- `errors.As(err, &domainErr)` for `var domainErr *domain.Error`: code, message
and cause of the first error of the traversal that is a `*domain.Error`. -/
def asDomainError : GoError → Option (Code × String × Option GoError)
  | .errorString _ => none
  | .errorsNew _ _ => none
  | .pgError _ => none
  | .nilPgError => none
  | .domainError c m w => some (c, m, w)
  | .wrapError _ e => asDomainError e
  | .joinError es => asDomainErrorList es
/-- The `for _, err := range x.Unwrap()` part of `as`. -/
def asDomainErrorList : List GoError → Option (Code × String × Option GoError)
  | [] => none
  | e :: es =>
    match asDomainError e with
    | some d => some d
    | none => asDomainErrorList es
end

end errors

/-! ## core/transport/http/errors.go -/

namespace transporthttp

/-- The struct `ErrorShape`. -/
structure ErrorShape where
  Status : Nat
  Code : String
  Detail : String
  Instance : String
  RequestID : String
  Errors : List String
  deriving DecidableEq, Repr

/-- What `WriteError` reads from the request: `r.URL.Path` and
`chimw.GetReqID(r.Context())`. -/
structure Request where
  Path : String
  RequestID : String

/-- What was written to the `http.ResponseWriter`: the content type header, the
status code and the value that was encoded as the body. -/
structure Response where
  ContentType : String
  StatusCode : Nat
  Body : ErrorShape
  deriving DecidableEq, Repr

/-- The map `statusFromCode`; `none` when the code is no key of the map. -/
def statusFromCode (code : Code) : Option Nat :=
  if code = domain.CodeNotFound then some 404
  else if code = domain.CodeConflict then some 409
  else if code = domain.CodeValidation then some 400
  else if code = domain.CodeForbidden then some 403
  else if code = domain.CodeInvariant then some 422
  else none

/-- `renderProblemJSON`: header, status and body. -/
def renderProblemJSON (resp : ErrorShape) : Response :=
  ⟨"application/problem+json", resp.Status, resp⟩

/-- `WriteError` of core/transport/http/errors.go. `errorText` is the method
`Error()` of error values; the second component is what was logged. -/
def WriteError (errorText : GoError → String) (r : Request) (err : Option GoError) :
    Response × List slog.Record :=
  match err.bind errors.asDomainError with
  | some (code, message, cause) =>
    let status :=
      match statusFromCode code with
      | some status => status
      | none => 500
    let errs :=
      match cause with
      | some (.joinError es) => es.map errorText
      | _ => []
    (renderProblemJSON ⟨status, code, message, r.Path, r.RequestID, errs⟩, [])
  | none =>
    (renderProblemJSON ⟨500, "", "", r.Path, r.RequestID, []⟩,
      [⟨"ERROR", "unhandled error",
        match err with
        | some e => [.error "error" e]
        | none => [.string "error" "<nil>"]⟩])

end transporthttp

/-! ## core/datatype/enum.go -/

namespace datatype

/-- A value of type `any` (also `driver.Value`), by dynamic type; `null` is the
nil interface. -/
inductive AnyValue where
  | string (s : String)
  | bytes (b : List (Fin 256))
  | int (n : Int)
  | null
  deriving DecidableEq, Repr

/-- The verb `%v` of `fmt` on such a value. -/
def fmtV : AnyValue → String
  | .string s => s
  | .bytes b => "[" ++ " ".intercalate (b.map (fun x => toString x.val)) ++ "]"
  | .int n => toString n
  | .null => "<nil>"

/-- `FromString[E]`: an enum type `E` is given by its method `IsValid` on the
underlying string and by the name `%T` prints for it. -/
def FromString (IsValid : String → Bool) (typeName : String) (value : String) :
    String × Option GoError :=
  if IsValid value then (value, none)
  else ("", some (.errorString
    ("invalid value \x27" ++ value ++ "\x27 for StringEnum " ++ typeName)))

/-- `ValueStringEnum[E]`. -/
def ValueStringEnum (IsValid : String → Bool) (typeName : String) (e : String) :
    AnyValue × Option GoError :=
  if !IsValid e then
    (.null, some (.errorString
      ("StringEnum " ++ typeName ++ " with value \x27" ++ e ++ "\x27 is invalid")))
  else (.string e, none)

/-- `ScanStringEnum[E]`: the first component is `*ptr` after the call. -/
def ScanStringEnum (IsValid : String → Bool) (typeName : String) (ptr : String)
    (value : AnyValue) : String × Option GoError :=
  match value with
  | .string v =>
    match FromString IsValid typeName v with
    | (_, some err) => (ptr, some err)
    | (e, none) => (e, none)
  | _ =>
    (ptr, some (.errorString
      ("invalid value \x27" ++ fmtV value ++ "\x27 for StringEnum " ++ typeName)))

end datatype

/-! ## Sample values, continued -/

namespace sample

/-- The error of a connection that went away. -/
def connectionLost : GoError := .errorString "conn closed"

/-- A driver double whose connection goes away after the first statement was
executed: every later `Exec` fails, every other call succeeds. The state counts
the `Exec` calls. -/
def dropping : pgx.Driver Nat where
  PoolBegin n := (.ok 1, n)
  Begin tx n := (.ok (tx + 1), n)
  QueryRowScan _ _ _ n := (.ok "previous", n)
  Exec _ _ n := if n = 0 then (none, n + 1) else (some connectionLost, n + 1)
  Commit _ n := (none, n)
  Rollback _ n := (none, n)

/-- The enum type of core/datatype/enum_test.go: "foo" and "bar" are valid. -/
def testEnumIsValid (e : String) : Bool :=
  e == "foo" || e == "bar"

end sample

/-! ## apps/sweetshop/internal/domain/order.go -/

namespace int32

/-- The `int32` that Go keeps of the exact result `x` of an addition or a
multiplication of two `int32` values: the result wraps around in two's
complement, it is the value in `[-2^31, 2^31)` congruent to `x` modulo `2^32`. -/
def wrap (x : Int) : Int :=
  (x + 2147483648) % 4294967296 - 2147483648

end int32

namespace sweetshop

/-- `domain.OrderItem`, with the two fields that the totals read; both are
`int32` values. -/
structure OrderItem where
  Quantity : Int
  PriceCents : Int
  deriving DecidableEq, Repr

/-- `(*OrderItem).LineTotalCents`: `i.Quantity * i.PriceCents` in `int32`. -/
def OrderItem.LineTotalCents (i : OrderItem) : Int :=
  int32.wrap (i.Quantity * i.PriceCents)

/-- `domain.Order`, with the field that `TotalCents` reads. -/
structure Order where
  Items : List OrderItem
  deriving DecidableEq, Repr

/-- `(*Order).TotalCents`: the loop `total += item.LineTotalCents()` over the
items, from `total = 0`, in `int32`. -/
def Order.TotalCents (o : Order) : Int :=
  o.Items.foldl (fun total item => int32.wrap (total + item.LineTotalCents)) 0

/-- The total in the words of the specification: the sum over the items of
quantity times price, as integers. -/
def Order.TotalCentsSpec (o : Order) : Int :=
  (o.Items.map (fun i => i.Quantity * i.PriceCents)).sum

end sweetshop

/-! ## Handles stored in a context -/

namespace context

/-- Whether `psqlfx.ContextWithTx` was applied somewhere in the chain of
ancestors that built the context. -/
def Context.hasTx : Context → Bool
  | .Background => false
  | .WithValue _ .txContextKey (.tx _) => true
  | .WithValue parent _ _ => parent.hasTx

end context

/-! ## The calls of `Tx` itself -/

namespace pgx

/-- Whether a call acquires a handle: `Begin` on the pool or on a handle. -/
def Call.isBegin : Call → Bool
  | .PoolBegin => true
  | .Begin _ => true
  | _ => false

/-- Whether a call is `Commit` or `Rollback`, on any handle. -/
def Call.isEnd : Call → Bool
  | .Commit _ => true
  | .Rollback _ => true
  | _ => false

/-- The handle a call is made on; `pool.Begin` is made on no handle. -/
def Call.handle : Call → Option Handle
  | .PoolBegin => none
  | .Begin tx => some tx
  | .QueryRowScan tx _ _ => some tx
  | .Exec tx _ => some tx
  | .Commit tx => some tx
  | .Rollback tx => some tx

end pgx

namespace rlsfx

open pgx (Driver Call Recorded)

/-- The call of lines 42-47 of rls.go. -/
def beginCall (parent : Option Handle) : Call :=
  match parent with
  | some p => Call.Begin p
  | none => Call.PoolBegin

/-- The calls of lines 42-69 once the handle `tx` was acquired: the `Begin`, for
a nested call the read of the current value, and the `SET LOCAL`. -/
def DB.entryCalls {S : Type} (db : DB S) (parent : Option Handle) (tx : Handle)
    (value : String) : List Call :=
  [beginCall parent]
    ++ (match parent with
        | some _ => [Call.QueryRowScan tx "SELECT current_setting($1, true)" [db.variable]]
        | none => [])
    ++ [Call.Exec tx (db.setLocal value)]

/-- The calls of lines 73-88 and of the deferred `Rollback`, after `fn` came
back: `fnOk` says that `fn` returned nil, `commitOk` that the `Commit`
returned nil. -/
def DB.exitCalls {S : Type} (db : DB S) (parent : Option Handle) (tx : Handle)
    (savedValue : String) (fnOk commitOk : Bool) : List Call :=
  if fnOk then
    if commitOk then
      match parent with
      | some p =>
        if savedValue ≠ "" then
          [Call.Commit tx, Call.Exec p (db.setLocal savedValue), Call.Rollback tx]
        else [Call.Commit tx, Call.Rollback tx]
      | none => [Call.Commit tx, Call.Rollback tx]
    else [Call.Commit tx, Call.Rollback tx]
  else [Call.Rollback tx]

/-- Whether `fn` came back with nil. -/
def succeeded : Outcome (Option GoError) → Bool
  | .ret none => true
  | _ => false

end rlsfx

/-! ## A model of the data of the session

The same connection as far as written data is concerned. Every statement
executed on an open handle leaves its effect; rolling back a transaction or a
savepoint discards the effects made since it began, releasing a savepoint keeps
them, and committing the transaction makes them durable. Queries change
nothing; what they answer is left open. -/

namespace postgres

/-- The connection: the effects visible now (the statements executed and not
rolled back, oldest first, after the durable ones), the open transaction and
savepoints (innermost first) with the effects visible when each began, the
durable effects and the next fresh handle. -/
structure Ledger where
  rows : List String
  frames : List (Handle × List String)
  committed : List String
  next : Handle
  deriving DecidableEq, Repr

namespace Ledger

/-- Whether the handle is open. -/
def isOpen (l : Ledger) (tx : Handle) : Bool :=
  l.frames.any (fun f => f.1 == tx)

/-- The frame of an open handle. -/
def frame (l : Ledger) (tx : Handle) : Option (Handle × List String) :=
  l.frames.find? (fun f => f.1 == tx)

/-- The frames outside the one of `tx`. -/
def outer (l : Ledger) (tx : Handle) : List (Handle × List String) :=
  (l.frames.dropWhile (fun f => f.1 != tx)).tail

/-- `pool.Begin`. -/
def poolBegin (l : Ledger) : Except GoError Handle × Ledger :=
  if l.frames = [] then
    (.ok l.next, { l with frames := [(l.next, l.rows)], next := l.next + 1 })
  else (.error busyError, l)

/-- `tx.Begin`: a savepoint. -/
def begin (tx : Handle) (l : Ledger) : Except GoError Handle × Ledger :=
  if l.isOpen tx then
    (.ok l.next, { l with frames := (l.next, l.rows) :: l.frames, next := l.next + 1 })
  else (.error pgx.ErrTxClosed, l)

/-- `tx.QueryRow(...).Scan(&dst)`: the answer is that of `answer`, the data is
untouched. -/
def queryRowScan (answer : String → List String → Ledger → Except GoError String)
    (tx : Handle) (sql : String) (args : List String) (l : Ledger) :
    Except GoError String × Ledger :=
  if l.isOpen tx then (answer sql args l, l) else (.error pgx.ErrTxClosed, l)

/-- `tx.Exec`: the statement leaves its effect. -/
def exec (tx : Handle) (sql : String) (l : Ledger) : Option GoError × Ledger :=
  if l.isOpen tx then (none, { l with rows := l.rows ++ [sql] })
  else (some pgx.ErrTxClosed, l)

/-- `tx.Commit`: releasing a savepoint keeps the effects, committing the
transaction makes them durable. The scopes opened inside `tx` end with it. -/
def commit (tx : Handle) (l : Ledger) : Option GoError × Ledger :=
  match l.frame tx with
  | none => (some pgx.ErrTxClosed, l)
  | some _ =>
    if l.outer tx = [] then (none, { l with frames := [], committed := l.rows })
    else (none, { l with frames := l.outer tx })

/-- `tx.Rollback`: the effects are again those from when `tx` began. -/
def rollback (tx : Handle) (l : Ledger) : Option GoError × Ledger :=
  match l.frame tx with
  | none => (some pgx.ErrTxClosed, l)
  | some f => (none, { l with rows := f.2, frames := l.outer tx })

/-- The driver of the modelled data. -/
def driver (answer : String → List String → Ledger → Except GoError String) :
    pgx.Driver Ledger where
  PoolBegin := poolBegin
  Begin := begin
  QueryRowScan := queryRowScan answer
  Exec := exec
  Commit := commit
  Rollback := rollback

/-- A free connection over the durable effects `rows`. -/
def idle (rows : List String) : Ledger := ⟨rows, [], rows, 1⟩

end Ledger

end postgres

/-! ## Sample values for nested calls -/

namespace sample

/-- A context inside a scope of `orgA` on handle 1 that was bound to `orgB` for a
nested call. -/
def ctxNested : Context :=
  domain.ContextWithOrganization (psqlfx.ContextWithTx ctxA (some 1)) (some orgB)

/-- The session inside a scope of `orgA` on handle 1. -/
def inScopeA : postgres.Session :=
  ⟨[("app.current_organization", orgA.ID.String)], [⟨1, []⟩], 2⟩

/-- The session inside a transaction on handle 1 in which the variable was
never set. -/
def inScopeUnset : postgres.Session := ⟨[], [⟨1, []⟩], 2⟩

/-- Executes the statements on the handle, one after the other. -/
def writing {S : Type} (d : pgx.Driver S) (tx : Handle) (stmts : List String) (s : S) : S :=
  stmts.foldl (fun s sql => (d.Exec tx sql s).2) s

/-- The nested unit of work of `nestedRollback`: it writes `mid` and fails. -/
def failingAfter {S : Type} (db : rlsfx.DB S) (mid : List String) (e : GoError) :
    rlsfx.Work S :=
  fun _ innerTx s => (.ret (some e), writing db.pool innerTx mid s)

/-- The unit of work of `TestTx_NestedRollback` with writes added: it writes
`pre`, runs a nested `Tx` bound to `inner` whose unit of work writes `mid` and
fails with `e`, then writes `post` and succeeds. -/
def nestedRollback {S : Type} (db : rlsfx.DB S) (inner : domain.Organization)
    (pre mid post : List String) (e : GoError) : rlsfx.Work S :=
  fun ctx tx s =>
    (.ret none,
      writing db.pool tx post
        (db.Tx (domain.ContextWithOrganization ctx (some inner)) (failingAfter db mid e)
          (writing db.pool tx pre s)).2)

/-- The call-recording double inside a scope of `orgA` on handle 1. -/
def nestedStart : pgx.Recorded postgres.Session := ⟨inScopeA, []⟩

/-- The call-recording double inside a transaction on handle 1 in which the
variable was never set. -/
def unsetStart : pgx.Recorded postgres.Session := ⟨inScopeUnset, []⟩

/-- The database on the driver double `dropping`, without a logger. -/
def droppingDB : rlsfx.DB Nat := ⟨dropping, "app", "current_organization", none⟩

/-- A unit of work with a value that fails, returning a non-zero value next to
its error. -/
def refusing : rlsfx.WorkOf postgres.Session Nat :=
  fun _ _ s => (.ret (7, some (GoError.errorString "something went wrong")), s)

/-- The nested unit of work of `nestedRelease`: it writes `mid`, commits the
handle it was given, which releases the savepoint, and fails. -/
def failingAfterRelease {S : Type} (db : rlsfx.DB S) (mid : List String) (e : GoError) :
    rlsfx.Work S :=
  fun _ innerTx s => (.ret (some e), (db.pool.Commit innerTx (writing db.pool innerTx mid s)).2)

/-- The unit of work of `nestedRollback` with a nested unit of work that releases
its savepoint before it fails. -/
def nestedRelease {S : Type} (db : rlsfx.DB S) (inner : domain.Organization)
    (pre mid post : List String) (e : GoError) : rlsfx.Work S :=
  fun ctx tx s =>
    (.ret none,
      writing db.pool tx post
        (db.Tx (domain.ContextWithOrganization ctx (some inner)) (failingAfterRelease db mid e)
          (writing db.pool tx pre s)).2)

/-- A unit of work that commits the handle it was given, which for a nested call
releases the savepoint, and reports success. -/
def releasing : rlsfx.Work postgres.Session :=
  fun _ tx s => (.ret none, (postgres.driver.Commit tx s).2)

/-- A unit of work that commits the handle it was given and then fails. -/
def releasingThenFailing : rlsfx.Work postgres.Session :=
  fun _ tx s =>
    (.ret (some (GoError.errorString "something went wrong")), (postgres.driver.Commit tx s).2)

/-- A unit of work with a value that commits the handle it was given before it
reports success. -/
def answeringCommitted : rlsfx.WorkOf postgres.Session Nat :=
  fun _ tx s => (.ret (42, none), (postgres.driver.Commit tx s).2)

end sample
/-! # Theorems -/

/-! ## Error chains -/

namespace errors

mutual
theorem isLoop_noRows_iff_mem : ∀ e : GoError,
    isLoop pgx.ErrNoRows e = true ↔ pgx.ErrNoRows ∈ chain e
  | .errorString t => by
    simp [isLoop, chain, eq_comm]
  | .errorsNew i t => by
    simp [isLoop, chain, pgx.ErrNoRows]
  | .pgError p => by
    simp [isLoop, chain, pgx.ErrNoRows]
  | .nilPgError => by
    simp [isLoop, chain, pgx.ErrNoRows]
  | .domainError c m none => by
    simp [isLoop, chain, pgx.ErrNoRows, domain.Error.Is]
  | .domainError c m (some e) => by
    have ih := isLoop_noRows_iff_mem e
    simp [isLoop, chain, domain.Error.Is, ih]
    simp [pgx.ErrNoRows]
  | .wrapError t e => by
    have ih := isLoop_noRows_iff_mem e
    simp [isLoop, chain, ih]
    simp [pgx.ErrNoRows]
  | .joinError es => by
    have ih := isLoopList_noRows_iff_mem es
    simp [isLoop, chain, ih]
    simp [pgx.ErrNoRows]
theorem isLoopList_noRows_iff_mem : ∀ es : List GoError,
    isLoopList pgx.ErrNoRows es = true ↔ pgx.ErrNoRows ∈ chainList es
  | [] => by simp [isLoopList, chainList]
  | e :: es => by
    have ih1 := isLoop_noRows_iff_mem e
    have ih2 := isLoopList_noRows_iff_mem es
    simp [isLoopList, chainList, ih1, ih2]
end

mutual
theorem asPgError_eq_first : ∀ e : GoError, asPgError e = firstPgError (chain e)
  | .errorString t => by simp [asPgError, chain, firstPgError]
  | .errorsNew i t => by simp [asPgError, chain, firstPgError]
  | .pgError p => by simp [asPgError, chain, firstPgError]
  | .nilPgError => by simp [asPgError, chain, firstPgError]
  | .domainError c m none => by simp [asPgError, chain, firstPgError]
  | .domainError c m (some e) => by
    have ih := asPgError_eq_first e
    simp [asPgError, chain, firstPgError, ih]
  | .wrapError t e => by
    have ih := asPgError_eq_first e
    simp [asPgError, chain, firstPgError, ih]
  | .joinError es => by
    have ih := asPgErrorList_eq_first es
    simp [asPgError, chain, firstPgError, ih]
theorem asPgErrorList_eq_first : ∀ es : List GoError,
    asPgErrorList es = firstPgError (chainList es)
  | [] => by simp [asPgErrorList, chainList, firstPgError]
  | e :: es => by
    have ih1 := asPgError_eq_first e
    have ih2 := asPgErrorList_eq_first es
    simp only [asPgErrorList, chainList, firstPgError, List.findSome?_append] at *
    rw [ih1, ih2]
    cases List.findSome? _ (chain e) <;> rfl
end

theorem firstPgError_mem (l : List GoError) (p : PgError)
    (h : firstPgError l = some (some p)) : GoError.pgError p ∈ l := by
  unfold firstPgError at h
  obtain ⟨x, hx, hp⟩ := List.exists_of_findSome?_eq_some h
  cases x <;> simp at hp
  subst hp
  exact hx

end errors

/-! ## TranslateError -/

namespace psqlfx

/-- C5: for every error `e` whose chain contains `pgx.ErrNoRows` (equivalently,
`errors.Is(e, pgx.ErrNoRows)` holds), `TranslateError(e)` returns the domain
error with code `NOT_FOUND`, message "not found" and no wrapped cause, and
what it returns matches the sentinel `domain.ErrNotFound` under `errors.Is`. -/
theorem TranslateError_no_rows (e : GoError)
    (h : pgx.ErrNoRows ∈ errors.chain e ∨ errors.Is (some e) (some pgx.ErrNoRows) = true) :
    TranslateError (some e) = .ret (some (GoError.domainError "NOT_FOUND" "not found" none))
    ∧ (TranslateError (some e)).map (fun r => errors.Is r (some domain.ErrNotFound))
        = .ret true := by
  have hIs : errors.Is (some e) (some pgx.ErrNoRows) = true := by
    rcases h with h | h
    · exact (errors.isLoop_noRows_iff_mem e).2 h
    · exact h
  have hT : TranslateError (some e)
      = .ret (some (GoError.domainError "NOT_FOUND" "not found" none)) := by
    simp [TranslateError, hIs, domain.NewError, domain.CodeNotFound]
  refine ⟨hT, ?_⟩
  rw [hT]
  decide

theorem TranslateError_no_rows_witness :
    (pgx.ErrNoRows ∈ errors.chain (GoError.wrapError "get order" pgx.ErrNoRows)
      ∨ errors.Is (some (GoError.wrapError "get order" pgx.ErrNoRows)) (some pgx.ErrNoRows) = true)
    ∧ TranslateError (some (GoError.wrapError "get order" pgx.ErrNoRows))
        = .ret (some (GoError.domainError "NOT_FOUND" "not found" none)) :=
  ⟨Or.inr (by decide),
   (TranslateError_no_rows (GoError.wrapError "get order" pgx.ErrNoRows) (Or.inr (by decide))).1⟩

/-- C6, as stated, fails: the joined error below does not match `pgx.ErrNoRows`
and its chain contains a `*pgconn.PgError` with code "23505", yet `errors.As`
reports the first `*pgconn.PgError` of the chain, whose code is "42P01", and
`TranslateError` returns the error unchanged. -/
theorem TranslateError_unique_violation_counterexample :
    errors.Is (some (GoError.joinError [.pgError ⟨"42P01", "relation does not exist"⟩,
        .pgError ⟨"23505", "duplicate key"⟩])) (some pgx.ErrNoRows) = false
    ∧ GoError.pgError ⟨"23505", "duplicate key"⟩
        ∈ errors.chain (GoError.joinError [.pgError ⟨"42P01", "relation does not exist"⟩,
            .pgError ⟨"23505", "duplicate key"⟩])
    ∧ TranslateError (some (GoError.joinError [.pgError ⟨"42P01", "relation does not exist"⟩,
        .pgError ⟨"23505", "duplicate key"⟩]))
        = .ret (some (GoError.joinError [.pgError ⟨"42P01", "relation does not exist"⟩,
            .pgError ⟨"23505", "duplicate key"⟩]))
    ∧ (TranslateError (some (GoError.joinError
        [.pgError ⟨"42P01", "relation does not exist"⟩,
          .pgError ⟨"23505", "duplicate key"⟩]))).map
        (fun r => errors.Is r (some domain.ErrConflict)) = .ret false := by
  refine ⟨by decide, by decide, by decide, by decide⟩

/-- C6 (amended): for every error `e` that does not match `pgx.ErrNoRows` and in
whose chain the first `*pgconn.PgError` (the one `errors.As` reports) has code
"23505", `TranslateError(e)` returns the domain error with code `CONFLICT` and
message "already exists", which matches the sentinel `domain.ErrConflict`
under `errors.Is`. -/
theorem TranslateError_unique_violation (e : GoError) (p : PgError)
    (hrows : errors.Is (some e) (some pgx.ErrNoRows) = false)
    (hfirst : errors.firstPgError (errors.chain e) = some (some p))
    (hcode : p.Code = "23505") :
    TranslateError (some e) = .ret (some (GoError.domainError "CONFLICT" "already exists" none))
    ∧ (TranslateError (some e)).map (fun r => errors.Is r (some domain.ErrConflict))
        = .ret true := by
  have hAs : errors.asPgError e = some (some p) := by
    rw [errors.asPgError_eq_first]; exact hfirst
  have hT : TranslateError (some e)
      = .ret (some (GoError.domainError "CONFLICT" "already exists" none)) := by
    simp [TranslateError, hrows, hAs, hcode, pgUniqueViolation, domain.NewError,
      domain.CodeConflict]
  refine ⟨hT, ?_⟩
  rw [hT]
  decide

theorem TranslateError_unique_violation_witness :
    errors.Is (some (GoError.wrapError "insert product" (.pgError ⟨"23505", "duplicate key"⟩)))
        (some pgx.ErrNoRows) = false
    ∧ TranslateError (some (GoError.wrapError "insert product"
        (.pgError ⟨"23505", "duplicate key"⟩)))
        = .ret (some (GoError.domainError "CONFLICT" "already exists" none)) :=
  ⟨by decide,
   (TranslateError_unique_violation
      (GoError.wrapError "insert product" (.pgError ⟨"23505", "duplicate key"⟩))
      ⟨"23505", "duplicate key"⟩ (by decide) (by decide) rfl).1⟩

/-- When `TranslateError` returns and when it panics. -/
theorem TranslateError_returns_iff (x : GoError) :
    (∃ r, TranslateError (some x) = .ret r)
      ↔ (errors.Is (some x) (some pgx.ErrNoRows) = true
          ∨ errors.firstPgError (errors.chain x) ≠ some none) := by
  unfold TranslateError
  rw [← errors.asPgError_eq_first]
  by_cases hrows : errors.Is (some x) (some pgx.ErrNoRows) = true
  · simp [hrows]
  · simp only [hrows, Bool.false_eq_true, if_false, false_or]
    cases hAs : errors.asPgError x with
    | none => simp
    | some found =>
      cases found with
      | none => simp
      | some p =>
        by_cases hc : (p.Code == pgUniqueViolation) = true
        · simp [hc]
        · simp [hc]

theorem TranslateError_nil_pointer (x : GoError)
    (hrows : errors.Is (some x) (some pgx.ErrNoRows) = false)
    (hnil : errors.firstPgError (errors.chain x) = some none) :
    TranslateError (some x) = .panicked nilDereference := by
  rw [← errors.asPgError_eq_first] at hnil
  simp [TranslateError, hrows, hnil]

/-- C7, as stated, fails: `TranslateError` is not total. The nil pointer of type
`*pgconn.PgError` stored in an error, alone or wrapped, does not match
`pgx.ErrNoRows` and has no `*pgconn.PgError` with code "23505" in its chain,
yet `TranslateError` panics on it: `errors.As` sets `pgErr` to the nil pointer
and `pgErr.Code` is read. -/
theorem TranslateError_nil_pointer_counterexample :
    errors.Is (some GoError.nilPgError) (some pgx.ErrNoRows) = false
    ∧ (∀ p : PgError, GoError.pgError p ∉ errors.chain GoError.nilPgError)
    ∧ TranslateError (some GoError.nilPgError) = .panicked nilDereference
    ∧ errors.Is (some (GoError.wrapError "exec" .nilPgError)) (some pgx.ErrNoRows) = false
    ∧ (∀ p : PgError, GoError.pgError p ∉ errors.chain (GoError.wrapError "exec" .nilPgError))
    ∧ TranslateError (some (GoError.wrapError "exec" .nilPgError))
        = .panicked nilDereference := by
  refine ⟨by decide, ?_, by decide, by decide, ?_, by decide⟩
  · intro p hp
    simp [errors.chain] at hp
  · intro p hp
    simp [errors.chain] at hp

/-- C7 (amended): `TranslateError(nil)` returns nil, and for every error `e` that
does not match `pgx.ErrNoRows`, has no `*pgconn.PgError` with code "23505" in
its chain and in whose chain the first value of type `*pgconn.PgError`, if
there is one, is not the nil pointer, `TranslateError(e)` returns `e` itself;
so the result is a domain error only when `e` already was that one. In
particular a value of `errors.New` with the text of `pgx.ErrNoRows` that is not
`pgx.ErrNoRows` is returned as it is. `TranslateError` is not total: on an
error `x` it returns exactly when `x` matches `pgx.ErrNoRows` or the first
value of type `*pgconn.PgError` in the chain of `x` is not the nil pointer, and
it panics otherwise. -/
theorem TranslateError_identity (e : GoError)
    (hrows : errors.Is (some e) (some pgx.ErrNoRows) = false)
    (hpg : ∀ p : PgError, GoError.pgError p ∈ errors.chain e → p.Code ≠ "23505")
    (hnil : errors.firstPgError (errors.chain e) ≠ some none) :
    TranslateError none = .ret none
    ∧ TranslateError (some e) = .ret (some e)
    ∧ (∀ c m w, TranslateError (some e) = .ret (some (GoError.domainError c m w)) →
        e = GoError.domainError c m w)
    ∧ (∀ i : Nat, TranslateError (some (GoError.errorsNew i "no rows in result set"))
        = .ret (some (GoError.errorsNew i "no rows in result set")))
    ∧ (∀ x : GoError, (∃ r, TranslateError (some x) = .ret r)
        ↔ (errors.Is (some x) (some pgx.ErrNoRows) = true
            ∨ errors.firstPgError (errors.chain x) ≠ some none))
    ∧ (∀ x : GoError, errors.Is (some x) (some pgx.ErrNoRows) = false →
        errors.firstPgError (errors.chain x) = some none →
        TranslateError (some x) = .panicked nilDereference) := by
  have hT : TranslateError (some e) = .ret (some e) := by
    unfold TranslateError
    simp only [hrows]
    cases hAs : errors.asPgError e with
    | none => simp
    | some found =>
      cases found with
      | none =>
        exfalso
        apply hnil
        rw [← errors.asPgError_eq_first]; exact hAs
      | some p =>
        have hmem : GoError.pgError p ∈ errors.chain e := by
          apply errors.firstPgError_mem
          rw [← errors.asPgError_eq_first]; exact hAs
        have := hpg p hmem
        simp [pgUniqueViolation, this]
  refine ⟨rfl, hT, ?_, ?_, TranslateError_returns_iff, TranslateError_nil_pointer⟩
  · intro c m w h
    rw [hT] at h
    exact Option.some.inj (Outcome.ret.inj h)
  · intro i
    simp [TranslateError, errors.Is, errors.isLoop, errors.asPgError, pgx.ErrNoRows]

theorem TranslateError_identity_witness :
    errors.Is (some (GoError.pgError ⟨"42P01", "relation does not exist"⟩))
        (some pgx.ErrNoRows) = false
    ∧ TranslateError (some (GoError.pgError ⟨"42P01", "relation does not exist"⟩))
        = .ret (some (GoError.pgError ⟨"42P01", "relation does not exist"⟩)) :=
  ⟨by decide,
   (TranslateError_identity (GoError.pgError ⟨"42P01", "relation does not exist"⟩)
      (by decide) (by
        intro p hp
        simp [errors.chain] at hp
        subst hp
        decide) (by decide)).2.1⟩

end psqlfx

/-! ## The transaction manager -/

namespace rlsfx

open pgx (Driver Call Recorded)

/-! ### Calls recorded by the double -/

theorem recording_begin_calls {S : Type} (db : DB S) (parent : Option Handle) (w : Recorded S) :
    (db.recording.begin parent w).2.calls
      = w.calls ++ [match parent with
          | some p => Call.Begin p
          | none => Call.PoolBegin] := by
  cases parent <;> rfl

theorem recording_readSavedValue_calls {S : Type} (db : DB S) (parent : Option Handle)
    (tx : Handle) (w : Recorded S) :
    (db.recording.readSavedValue parent tx w).2.calls
      = w.calls ++ (match parent with
          | some _ => [Call.QueryRowScan tx "SELECT current_setting($1, true)" [db.variable]]
          | none => []) := by
  cases parent with
  | none => simp [DB.readSavedValue]
  | some p =>
    simp only [DB.readSavedValue]
    split
    · next v s heq =>
      have h := congrArg (fun r => r.2.calls) heq
      exact h.symm
    · next err s heq =>
      have h : s.calls = w.calls
          ++ [Call.QueryRowScan tx "SELECT current_setting($1, true)" [db.variable]] :=
        (congrArg (fun r => r.2.calls) heq).symm
      unfold DB.recording
      cases db.logger <;> exact h

theorem recording_logApplying_calls {S : Type} (db : DB S) (w : Recorded S) :
    (db.recording.logApplying w).calls = w.calls := by
  unfold DB.logApplying DB.recording
  cases db.logger <;> rfl

/-- The calls of `Tx` up to the invocation of `fn`: one `Begin`, on the parent or
on the pool, for a nested call the read of the current value on the new handle,
and the `SET LOCAL` on the new handle. -/
theorem recording_entry_calls {S : Type} (db : DB S) (parent : Option Handle) (tx : Handle)
    (value savedValue : String) (w w1 w2 w3 : Recorded S) (r : Option GoError)
    (hbegin : db.recording.begin parent w = (.ok tx, w1))
    (hread : db.recording.readSavedValue parent tx w1 = (savedValue, w2))
    (hset : db.recording.pool.Exec tx (db.recording.setLocal value)
      (db.recording.logApplying w2) = (r, w3)) :
    w3.calls = w.calls
        ++ [match parent with
            | some p => Call.Begin p
            | none => Call.PoolBegin]
        ++ (match parent with
            | some _ => [Call.QueryRowScan tx "SELECT current_setting($1, true)" [db.variable]]
            | none => [])
        ++ [Call.Exec tx (db.setLocal value)] := by
  have h1 := recording_begin_calls db parent w
  have h2 := recording_readSavedValue_calls db parent tx w1
  have h3 := recording_logApplying_calls db w2
  rw [hbegin] at h1
  rw [hread] at h2
  have h4 : w3.calls = (db.recording.logApplying w2).calls
      ++ [Call.Exec tx (db.setLocal value)] :=
    (congrArg (fun r => r.2.calls) hset).symm
  simp only at h1 h2
  rw [h4, h3, h2, h1]

/-! ### Claims about `Tx` -/

/-- C1: for every context in which no organization is bound (the innermost value
under the organization key is absent or a nil pointer), `DB.Tx` on a
call-recording double returns `domain.ErrMissingOrganization` and leaves the
state as it was, for every `fn` (so `fn`, which could change the state, was not
invoked), and the recorded calls are the same as before: no `Begin` on the pool
and none on a parent handle. -/
theorem Tx_missing_organization {S : Type} (db : DB S) (ctx : Context)
    (fn : Work (Recorded S)) (w : Recorded S)
    (h : ∀ org, ctx.Value .organizationContextKey ≠ some (.organization (some org))) :
    db.recording.Tx ctx fn w = (.ret (some domain.ErrMissingOrganization), w)
    ∧ (db.recording.Tx ctx fn w).2.calls = w.calls := by
  have horg : domain.OrganizationFromContext ctx
      = (none, some domain.ErrMissingOrganization) := by
    unfold domain.OrganizationFromContext
    split
    · next org heq => exact absurd heq (h org)
    · rfl
  have hT : db.recording.Tx ctx fn w = (.ret (some domain.ErrMissingOrganization), w) := by
    simp [DB.Tx, horg]
  exact ⟨hT, by rw [hT]⟩

theorem Tx_missing_organization_witness :
    (∀ org, Context.Background.Value .organizationContextKey
      ≠ some (.organization (some org)))
    ∧ sample.db.recording.Tx .Background (sample.succeeding _) sample.start
      = (.ret (some domain.ErrMissingOrganization), sample.start) :=
  ⟨(fun _ h => by cases h),
   (Tx_missing_organization sample.db .Background (sample.succeeding _) sample.start
      (fun _ h => by cases h)).1⟩

/-- C4: when `fn` is invoked and returns the error `e`, `DB.Tx` returns exactly
`e`, and on the call-recording double the only call after `fn` returned is one
`Rollback` on the handle, while the calls before `fn` were the `Begin`, the read
of the current value (nested calls only) and the `SET LOCAL`; so `Commit` is
never called on the handle and the handle is rolled back. -/
theorem Tx_fn_error {S : Type} (db : DB S) (ctx : Context) (fn : Work (Recorded S))
    (org : domain.Organization) (tx : Handle) (savedValue : String)
    (w w1 w2 w3 w4 : Recorded S) (e : GoError)
    (horg : domain.OrganizationFromContext ctx = (some org, none))
    (hbegin : db.recording.begin (psqlfx.TxFromContext ctx) w = (.ok tx, w1))
    (hread : db.recording.readSavedValue (psqlfx.TxFromContext ctx) tx w1 = (savedValue, w2))
    (hset : db.recording.pool.Exec tx (db.recording.setLocal org.ID.String)
      (db.recording.logApplying w2) = (none, w3))
    (hfn : fn (psqlfx.ContextWithTx ctx (some tx)) tx w3 = (.ret (some e), w4)) :
    db.recording.Tx ctx fn w = (.ret (some e), (db.recording.pool.Rollback tx w4).2)
    ∧ (db.recording.Tx ctx fn w).2.calls = w4.calls ++ [Call.Rollback tx]
    ∧ w3.calls = w.calls
        ++ [match psqlfx.TxFromContext ctx with
            | some p => Call.Begin p
            | none => Call.PoolBegin]
        ++ (match psqlfx.TxFromContext ctx with
            | some _ => [Call.QueryRowScan tx "SELECT current_setting($1, true)" [db.variable]]
            | none => [])
        ++ [Call.Exec tx (db.setLocal org.ID.String)] := by
  have hT : db.recording.Tx ctx fn w
      = (.ret (some e), (db.recording.pool.Rollback tx w4).2) := by
    simp only [DB.Tx, horg, hbegin, DB.scoped, hread, hset, hfn]
  refine ⟨hT, ?_, ?_⟩
  · rw [hT]; rfl
  · exact recording_entry_calls db _ tx _ savedValue w w1 w2 w3 none hbegin hread hset

theorem Tx_fn_error_witness :
    (sample.db.recording.Tx sample.ctxA (sample.failing _) sample.start).1
      = .ret (some (GoError.errorString "something went wrong"))
    ∧ (sample.db.recording.Tx sample.ctxA (sample.failing _) sample.start).2.calls
      = [Call.PoolBegin,
         Call.Exec 1 "SET LOCAL app.current_organization = \x27abababab-abab-abab-abab-abababababab\x27",
         Call.Rollback 1] := by
  have h := Tx_fn_error sample.db sample.ctxA (sample.failing _) sample.orgA 1 "" sample.start
    (sample.db.recording.begin none sample.start).2
    (sample.db.recording.begin none sample.start).2
    (sample.db.recording.pool.Exec 1 (sample.db.recording.setLocal sample.orgA.ID.String)
      (sample.db.recording.begin none sample.start).2).2
    (sample.db.recording.pool.Exec 1 (sample.db.recording.setLocal sample.orgA.ID.String)
      (sample.db.recording.begin none sample.start).2).2
    (GoError.errorString "something went wrong") rfl rfl rfl (by decide) rfl
  refine ⟨by rw [h.1], ?_⟩
  rw [h.2.1]
  decide

/-- C10: when `fn` succeeded and `Commit` on the handle then fails with the error
`c`, `DB.Tx` returns exactly `c`, whatever the deferred `Rollback` returns, and
on the call-recording double the calls after `fn` returned are that `Commit`
and one `Rollback` on the handle: no restore statement is issued on the parent.
The calls before `fn` were the `Begin`, the read of the current value (nested
calls only) and the `SET LOCAL`, so `Rollback` is invoked exactly once. -/
theorem Tx_commit_error {S : Type} (db : DB S) (ctx : Context) (fn : Work (Recorded S))
    (org : domain.Organization) (tx : Handle) (savedValue : String)
    (w w1 w2 w3 w4 w5 : Recorded S) (c : GoError)
    (horg : domain.OrganizationFromContext ctx = (some org, none))
    (hbegin : db.recording.begin (psqlfx.TxFromContext ctx) w = (.ok tx, w1))
    (hread : db.recording.readSavedValue (psqlfx.TxFromContext ctx) tx w1 = (savedValue, w2))
    (hset : db.recording.pool.Exec tx (db.recording.setLocal org.ID.String)
      (db.recording.logApplying w2) = (none, w3))
    (hfn : fn (psqlfx.ContextWithTx ctx (some tx)) tx w3 = (.ret none, w4))
    (hcommit : db.recording.pool.Commit tx w4 = (some c, w5)) :
    db.recording.Tx ctx fn w = (.ret (some c), (db.recording.pool.Rollback tx w5).2)
    ∧ (db.recording.Tx ctx fn w).2.calls = w4.calls ++ [Call.Commit tx, Call.Rollback tx]
    ∧ w3.calls = w.calls
        ++ [match psqlfx.TxFromContext ctx with
            | some p => Call.Begin p
            | none => Call.PoolBegin]
        ++ (match psqlfx.TxFromContext ctx with
            | some _ => [Call.QueryRowScan tx "SELECT current_setting($1, true)" [db.variable]]
            | none => [])
        ++ [Call.Exec tx (db.setLocal org.ID.String)] := by
  have hT : db.recording.Tx ctx fn w
      = (.ret (some c), (db.recording.pool.Rollback tx w5).2) := by
    simp only [DB.Tx, horg, hbegin, DB.scoped, hread, hset, hfn, DB.commitAndRestore, hcommit]
  refine ⟨hT, ?_, ?_⟩
  · rw [hT]
    have h5 : w5.calls = w4.calls ++ [Call.Commit tx] :=
      (congrArg (fun r => r.2.calls) hcommit).symm
    show w5.calls ++ [Call.Rollback tx] = _
    rw [h5]; simp
  · exact recording_entry_calls db _ tx _ savedValue w w1 w2 w3 none hbegin hread hset

theorem Tx_commit_error_witness :
    (sample.db.recording.Tx sample.ctxA sample.committing sample.start).1
      = .ret (some pgx.ErrTxClosed)
    ∧ (sample.db.recording.Tx sample.ctxA sample.committing sample.start).2.calls
      = [Call.PoolBegin,
         Call.Exec 1 "SET LOCAL app.current_organization = \x27abababab-abab-abab-abab-abababababab\x27",
         Call.Commit 1, Call.Commit 1, Call.Rollback 1] := by
  have h := Tx_commit_error sample.db sample.ctxA sample.committing sample.orgA 1 "" sample.start
    (sample.db.recording.begin none sample.start).2
    (sample.db.recording.begin none sample.start).2
    (sample.db.recording.pool.Exec 1 (sample.db.recording.setLocal sample.orgA.ID.String)
      (sample.db.recording.begin none sample.start).2).2
    (sample.committing .Background 1
      (sample.db.recording.pool.Exec 1 (sample.db.recording.setLocal sample.orgA.ID.String)
        (sample.db.recording.begin none sample.start).2).2).2
    (sample.db.recording.pool.Commit 1 (sample.committing .Background 1
      (sample.db.recording.pool.Exec 1 (sample.db.recording.setLocal sample.orgA.ID.String)
        (sample.db.recording.begin none sample.start).2).2).2).2
    pgx.ErrTxClosed rfl rfl rfl (by decide) rfl (by decide)
  refine ⟨by rw [h.1], ?_⟩
  rw [h.2.1]
  decide

end rlsfx

/-! ## The typed helpers -/

namespace rlsfx

open pgx (Driver Call Recorded)

/-! ### A closure with a captured variable -/

theorem withLocal_begin {S T : Type} (db : DB S) (parent : Option Handle) (s : S) (r : T) :
    (db.withLocal T).begin parent (s, r) = ((db.begin parent s).1, ((db.begin parent s).2, r)) := by
  cases parent <;> rfl

theorem withLocal_readSavedValue {S T : Type} (db : DB S) (parent : Option Handle) (tx : Handle)
    (s : S) (r : T) :
    (db.withLocal T).readSavedValue parent tx (s, r)
      = ((db.readSavedValue parent tx s).1, ((db.readSavedValue parent tx s).2, r)) := by
  cases parent with
  | none => rfl
  | some p =>
    simp only [DB.readSavedValue]
    have hq : (db.withLocal T).pool.QueryRowScan tx "SELECT current_setting($1, true)"
        [(db.withLocal T).variable] (s, r)
        = ((db.pool.QueryRowScan tx "SELECT current_setting($1, true)" [db.variable] s).1,
           ((db.pool.QueryRowScan tx "SELECT current_setting($1, true)" [db.variable] s).2, r)) :=
      rfl
    rw [hq]
    rcases hres : db.pool.QueryRowScan tx "SELECT current_setting($1, true)" [db.variable] s
      with ⟨res, s1⟩
    cases res with
    | ok v => rfl
    | error err =>
      simp only [DB.withLocal]
      cases db.logger <;> rfl

theorem withLocal_logApplying {S T : Type} (db : DB S) (s : S) (r : T) :
    (db.withLocal T).logApplying (s, r) = (db.logApplying s, r) := by
  unfold DB.logApplying DB.withLocal
  cases db.logger <;> rfl

theorem withLocal_commitAndRestore {S T : Type} (db : DB S) (parent : Option Handle)
    (tx : Handle) (savedValue : String) (s : S) (r : T) :
    (db.withLocal T).commitAndRestore parent tx savedValue (s, r)
      = ((db.commitAndRestore parent tx savedValue s).1,
         ((db.commitAndRestore parent tx savedValue s).2, r)) := by
  simp only [DB.commitAndRestore]
  have hc : (db.withLocal T).pool.Commit tx (s, r)
      = ((db.pool.Commit tx s).1, ((db.pool.Commit tx s).2, r)) := rfl
  rw [hc]
  rcases hres : db.pool.Commit tx s with ⟨res, s1⟩
  cases res with
  | some err => rfl
  | none =>
    cases parent with
    | none => rfl
    | some p =>
      simp only
      by_cases hsv : savedValue = ""
      · simp [hsv]
      · simp only [hsv, ne_eq, not_false_eq_true, if_true]
        have he : (db.withLocal T).pool.Exec p ((db.withLocal T).setLocal savedValue) (s1, r)
            = ((db.pool.Exec p (db.setLocal savedValue) s1).1,
               ((db.pool.Exec p (db.setLocal savedValue) s1).2, r)) := rfl
        rw [he]
        rcases hres2 : db.pool.Exec p (db.setLocal savedValue) s1 with ⟨res2, s2⟩
        cases res2 <;> rfl


/-- The closure of `Query` run next to the same unit of work with its value
discarded: same outcome, same session state. -/
theorem withLocal_scoped {S T : Type} (db : DB S) (ctx : Context) (g : WorkOf S T)
    (org : Option domain.Organization) (parent : Option Handle) (tx : Handle) (s : S) (r : T) :
    ((db.withLocal T).scoped ctx (Query.closure g) org parent tx (s, r)).1
      = (db.scoped ctx (discardValue g) org parent tx s).1
    ∧ ((db.withLocal T).scoped ctx (Query.closure g) org parent tx (s, r)).2.1
      = (db.scoped ctx (discardValue g) org parent tx s).2 := by
  simp only [DB.scoped, withLocal_readSavedValue, withLocal_logApplying]
  cases org with
  | none => exact ⟨rfl, rfl⟩
  | some org =>
    simp only
    have he : (db.withLocal T).pool.Exec tx ((db.withLocal T).setLocal org.ID.String)
        (db.logApplying (db.readSavedValue parent tx s).2, r)
        = ((db.pool.Exec tx (db.setLocal org.ID.String)
            (db.logApplying (db.readSavedValue parent tx s).2)).1,
           ((db.pool.Exec tx (db.setLocal org.ID.String)
            (db.logApplying (db.readSavedValue parent tx s).2)).2, r)) := rfl
    rw [he]
    rcases db.pool.Exec tx (db.setLocal org.ID.String)
      (db.logApplying (db.readSavedValue parent tx s).2) with ⟨res, s1⟩
    cases res with
    | some err => exact ⟨rfl, rfl⟩
    | none =>
      simp only [Query.closure, discardValue]
      rcases g (psqlfx.ContextWithTx ctx (some tx)) tx s1 with ⟨out, s2⟩
      cases out with
      | panicked msg => exact ⟨rfl, rfl⟩
      | ret p =>
        rcases p with ⟨v, err⟩
        cases err with
        | some err => exact ⟨rfl, rfl⟩
        | none =>
          simp [withLocal_commitAndRestore]

theorem withLocal_Tx {S T : Type} (db : DB S) (ctx : Context) (g : WorkOf S T) (s : S) (r : T) :
    ((db.withLocal T).Tx ctx (Query.closure g) (s, r)).1 = (db.Tx ctx (discardValue g) s).1
    ∧ ((db.withLocal T).Tx ctx (Query.closure g) (s, r)).2.1
      = (db.Tx ctx (discardValue g) s).2 := by
  simp only [DB.Tx]
  rcases domain.OrganizationFromContext ctx with ⟨org, err⟩
  cases err with
  | some err => exact ⟨rfl, rfl⟩
  | none =>
    simp only [withLocal_begin]
    rcases db.begin (psqlfx.TxFromContext ctx) s with ⟨res, s1⟩
    cases res with
    | error err => exact ⟨rfl, rfl⟩
    | ok tx =>
      simp only
      have h := withLocal_scoped db ctx g org (psqlfx.TxFromContext ctx) tx s1 r
      refine ⟨h.1, ?_⟩
      show ((db.pool.Rollback tx _).2 = _)
      rw [h.2]


/-! ### Claims about `Query` and `Exec` -/

/-- C8: for every type `T`, value `v` and unit of work `fn`: when the tenant is
bound, the handle is acquired, the variable is set, `fn` returns `(v, nil)` and
the commit (with the restore of a nested call) succeeds, `Query(db, ctx, fn)`
returns exactly `(v, nil)`. -/
theorem Query_returns_value {S T : Type} [Inhabited T] (db : DB S) (ctx : Context)
    (fn : WorkOf S T) (org : domain.Organization) (tx : Handle) (savedValue : String)
    (s s1 s2 s3 s4 s5 : S) (v : T)
    (horg : domain.OrganizationFromContext ctx = (some org, none))
    (hbegin : db.begin (psqlfx.TxFromContext ctx) s = (.ok tx, s1))
    (hread : db.readSavedValue (psqlfx.TxFromContext ctx) tx s1 = (savedValue, s2))
    (hset : db.pool.Exec tx (db.setLocal org.ID.String) (db.logApplying s2) = (none, s3))
    (hfn : fn (psqlfx.ContextWithTx ctx (some tx)) tx s3 = (.ret (v, none), s4))
    (hcommit : db.commitAndRestore (psqlfx.TxFromContext ctx) tx savedValue s4
      = (.ret none, s5)) :
    Query db ctx fn s = (.ret (v, none), (db.pool.Rollback tx s5).2) := by
  have hexec : (db.withLocal T).pool.Exec tx ((db.withLocal T).setLocal org.ID.String)
      (db.logApplying s2, (default : T)) = (none, (s3, default)) := by
    show ((db.pool.Exec tx (db.setLocal org.ID.String) (db.logApplying s2)).1,
      ((db.pool.Exec tx (db.setLocal org.ID.String) (db.logApplying s2)).2, (default : T)))
      = _
    rw [hset]
  have hclosure : Query.closure fn (psqlfx.ContextWithTx ctx (some tx)) tx (s3, (default : T))
      = (.ret none, (s4, v)) := by
    simp only [Query.closure, hfn]
  have hTx : (db.withLocal T).Tx ctx (Query.closure fn) (s, default)
      = (.ret none, ((db.pool.Rollback tx s5).2, v)) := by
    simp only [DB.Tx, horg, withLocal_begin, hbegin, DB.scoped, withLocal_readSavedValue, hread,
      withLocal_logApplying, hexec, hclosure, withLocal_commitAndRestore, hcommit]
    rfl
  simp only [Query, hTx]

theorem Query_returns_value_witness :
    Query sample.db sample.ctxA sample.answering postgres.idle
      = (.ret (42, none), ⟨[], [], 2⟩) :=
  Query_returns_value sample.db sample.ctxA sample.answering sample.orgA 1 ""
    postgres.idle (sample.db.begin none postgres.idle).2 (sample.db.begin none postgres.idle).2
    (sample.db.pool.Exec 1 (sample.db.setLocal sample.orgA.ID.String)
      (sample.db.begin none postgres.idle).2).2
    (sample.db.pool.Exec 1 (sample.db.setLocal sample.orgA.ID.String)
      (sample.db.begin none postgres.idle).2).2
    ⟨[], [], 2⟩ 42 rfl rfl rfl (by decide) rfl (by decide)

/-- C9: for every `db`, `ctx` and `fn`, `Exec(db, ctx, fn)` is
`TranslateError` applied to the result of `db.Tx(ctx, fn)` (a panic of
`db.Tx` or of `TranslateError` is the panic of `Exec`), and for every unit of
work `g` with a value, the error and the final state of `Query(db, ctx, g)`
are those of `Exec` on the unit of work that runs `g` and discards its value:
`Exec` is `Query` with the value dropped, and each translates the error of
`Tx` once. -/
theorem Exec_and_Query_translate_once {S T : Type} [Inhabited T] (db : DB S) (ctx : Context)
    (fn : Work S) (g : WorkOf S T) (s : S) :
    Exec db ctx fn s = ((db.Tx ctx fn s).1.bind psqlfx.TranslateError, (db.Tx ctx fn s).2)
    ∧ (Query db ctx g s).1.map Prod.snd = (Exec db ctx (discardValue g) s).1
    ∧ (Query db ctx g s).2 = (Exec db ctx (discardValue g) s).2 := by
  have hExec : ∀ f : Work S,
      Exec db ctx f s = ((db.Tx ctx f s).1.bind psqlfx.TranslateError, (db.Tx ctx f s).2) := by
    intro f
    unfold Exec
    rcases db.Tx ctx f s with ⟨out, s1⟩
    cases out with
    | panicked msg => rfl
    | ret err => cases err <;> rfl
  refine ⟨hExec fn, ?_⟩
  rw [hExec (discardValue g)]
  have h := withLocal_Tx db ctx g s (default : T)
  unfold Query
  rcases hq : (db.withLocal T).Tx ctx (Query.closure g) (s, default) with ⟨out, s1, r⟩
  rw [hq] at h
  simp only at h
  rw [← h.1, ← h.2]
  cases out with
  | panicked msg => exact ⟨rfl, rfl⟩
  | ret err =>
    cases err with
    | none => exact ⟨rfl, rfl⟩
    | some e =>
      refine ⟨?_, rfl⟩
      show ((psqlfx.TranslateError (some e)).map (fun translated => (r, translated))).map Prod.snd
        = psqlfx.TranslateError (some e)
      cases psqlfx.TranslateError (some e) <;> rfl

end rlsfx

/-! ## The session variable -/

/-! ### Quoting of plain values -/

theorem replaceAllChar_of_not_mem (old : Char) (new s : List Char) (h : old ∉ s) :
    replaceAllChar old new s = s := by
  induction s with
  | nil => rfl
  | cons c s ih =>
    have hc : c ≠ old := fun heq => h (by simp [heq])
    have hs : old ∉ s := fun hm => h (by simp [hm])
    simp [replaceAllChar, hc] at ih ⊢
    exact ih hs

/-- A value without quote and backslash is quoted by wrapping it in quotes. -/
theorem QuoteLiteral_plain (value : String) (hq : quoteChar ∉ value.data)
    (hb : backslashChar ∉ value.data) :
    (psqlfx.QuoteLiteral value).data = [quoteChar] ++ value.data ++ [quoteChar] := by
  simp [psqlfx.QuoteLiteral, replaceAllChar_of_not_mem _ _ _ hq, hb]

namespace uuid

theorem hexDigit_plain : ∀ n, n < 16 → hexDigit n ≠ quoteChar ∧ hexDigit n ≠ backslashChar := by
  decide

theorem hexEncode_plain (bs : List (Fin 256)) :
    ∀ c ∈ hexEncode bs, c ≠ quoteChar ∧ c ≠ backslashChar := by
  intro c hc
  simp only [hexEncode, List.mem_flatMap] at hc
  obtain ⟨b, _, hcb⟩ := hc
  have h1 : b.val / 16 < 16 := by omega
  have h2 : b.val % 16 < 16 := by omega
  simp at hcb
  rcases hcb with h | h
  · rw [h]; exact hexDigit_plain _ h1
  · rw [h]; exact hexDigit_plain _ h2

theorem String_plain (u : UUID) : ∀ c ∈ u.String.data, c ≠ quoteChar ∧ c ≠ backslashChar := by
  intro c hc
  have hd : ('-' : Char) ≠ quoteChar ∧ ('-' : Char) ≠ backslashChar := by decide
  simp only [UUID.String, List.mem_append, List.mem_cons] at hc
  rcases hc with (((h | h | h) | h | h) | h | h) | h | h <;>
    first
    | exact hexEncode_plain _ c h
    | (rw [h]; exact hd)

theorem String_ne_empty (u : UUID) : u.String ≠ "" := by
  intro h
  have := congrArg String.data h
  simp [UUID.String] at this

end uuid

namespace postgres

open rlsfx (onSession)

/-! ### Reading the statement text -/

theorem stripLeading_append (p rest : List Char) : stripLeading p (p ++ rest) = some rest := by
  induction p with
  | nil => cases rest <;> rfl
  | cons a p ih => simp [stripLeading, ih]

theorem takeWhile_append_stop (p : Char → Bool) (v x : List Char) (c : Char) (hc : p c = false) :
    (v ++ c :: x).takeWhile p = v.takeWhile p
    ∧ (v ++ c :: x).dropWhile p = v.dropWhile p ++ c :: x := by
  induction v with
  | nil => simp [List.takeWhile, List.dropWhile, hc]
  | cons a v ih =>
    cases ha : p a <;> simp [List.takeWhile, List.dropWhile, ha, ih]

theorem decodeBody_plain (u : List Char) (hq : quoteChar ∉ u) :
    decodeBody false (u ++ [quoteChar]) = some u := by
  induction u with
  | nil => simp [decodeBody]
  | cons c u ih =>
    have hc : c ≠ quoteChar := fun heq => hq (by simp [heq])
    have hu : quoteChar ∉ u := fun hm => hq (by simp [hm])
    have ih := ih hu
    cases u with
    | nil => simp [decodeBody, hc] at ih ⊢
    | cons d u => simp [decodeBody, hc] at ih ⊢; simp [ih]

theorem decodeBody_step (escapes : Bool) (c d : Char) (rest : List Char) :
    decodeBody escapes (c :: d :: rest)
      = if c = quoteChar then
          if d = quoteChar then (decodeBody escapes rest).map (quoteChar :: ·) else none
        else if escapes && c == backslashChar then
          if d = backslashChar then (decodeBody escapes rest).map (backslashChar :: ·) else none
        else (decodeBody escapes (d :: rest)).map (c :: ·) := by
  rw [decodeBody]

/-- A quote that follows a blank and is followed by another character ends the
literal too early, whatever comes before the blank. -/
theorem decodeBody_early_quote (escapes : Bool) (c : Char) (rest : List Char)
    (hc : c ≠ quoteChar) :
    ∀ (n : Nat) (xs : List Char), xs.length ≤ n →
      decodeBody escapes (xs ++ ' ' :: quoteChar :: c :: rest) = none := by
  have hsq : (' ' : Char) ≠ quoteChar := by decide
  have hsb : (' ' : Char) ≠ backslashChar := by decide
  have hqb : quoteChar ≠ backslashChar := by decide
  have hq0 : decodeBody escapes (quoteChar :: c :: rest) = none := by
    rw [decodeBody_step]; simp [hc]
  have h0 : decodeBody escapes (' ' :: quoteChar :: c :: rest) = none := by
    rw [decodeBody_step, hq0]; simp [hsq, hsb]
  intro n
  induction n with
  | zero =>
    intro xs hxs
    have : xs = [] := List.length_eq_zero.mp (Nat.le_zero.mp hxs)
    subst this
    exact h0
  | succ n ih =>
    intro xs hxs
    match xs, hxs with
    | [], _ => exact h0
    | [x], _ =>
      show decodeBody escapes (x :: ' ' :: quoteChar :: c :: rest) = none
      rw [decodeBody_step, h0]
      by_cases hx : x = quoteChar
      · simp [hx, hsq]
      · by_cases hxb : x = backslashChar
        · cases escapes <;> simp [hxb, hsb, hqb.symm]
        · simp [hx, hxb]
    | x :: y :: xs, hlen =>
      have h1 := ih (y :: xs) (by simp at hlen ⊢; omega)
      have h2 := ih xs (by simp at hlen ⊢; omega)
      simp only [List.cons_append] at h1 ⊢
      rw [decodeBody_step, h1, h2]
      by_cases hx : x = quoteChar
      · by_cases hy : y = quoteChar <;> simp [hx, hy]
      · by_cases hxb : x = backslashChar
        · cases escapes
          · simp [hxb, hqb.symm]
          · by_cases hy : y = backslashChar <;> simp [hxb, hqb.symm, hy]
        · simp [hx, hxb]


theorem decodeLiteral_early_quote (c : Char) (rest : List Char) (hc : c ≠ quoteChar)
    (zs : List Char) :
    decodeLiteral (zs ++ '=' :: ' ' :: quoteChar :: c :: rest) = none := by
  have heq : ('=' : Char) ≠ quoteChar := by decide
  have heE : ('=' : Char) ≠ 'E' := by decide
  have happ : ∀ l : List Char, l ++ '=' :: ' ' :: quoteChar :: c :: rest
      = (l ++ ['=']) ++ ' ' :: quoteChar :: c :: rest := by intro l; simp
  cases zs with
  | nil => simp [decodeLiteral, heq, heE]
  | cons z zs =>
    simp only [List.cons_append, decodeLiteral]
    split
    · rw [happ]; exact decodeBody_early_quote false c rest hc _ _ (le_refl _)
    · split
      · cases zs with
        | nil => simp [heq]
        | cons d zs =>
          simp only [List.cons_append]
          split
          · rw [happ]; exact decodeBody_early_quote true c rest hc _ _ (le_refl _)
          · rfl
      · rfl

theorem dropWhile_blank_before_eq (ys t : List Char) :
    ∃ zs, (ys ++ '=' :: t).dropWhile (· == ' ') = zs ++ '=' :: t := by
  induction ys with
  | nil => exact ⟨[], by simp [List.dropWhile]⟩
  | cons y ys ih =>
    by_cases hy : (y == ' ') = true
    · obtain ⟨zs, hzs⟩ := ih
      exact ⟨zs, by simp only [List.cons_append, List.dropWhile, hy]; exact hzs⟩
    · exact ⟨y :: ys, by simp only [List.cons_append, List.dropWhile, hy]; rfl⟩

/-- What the model reads from the text that `Tx` builds for a value free of
quotes and backslashes: the name and the value when the name is made of name
characters, and nothing otherwise. -/
theorem parseSetLocal_plain (name value : String) (hne : value.data ≠ [])
    (hq : quoteChar ∉ value.data) (hb : backslashChar ∉ value.data) :
    parseSetLocal ("SET LOCAL " ++ name ++ " = " ++ psqlfx.QuoteLiteral value)
      = if name.data ≠ [] ∧ name.data.dropWhile isNameChar = [] then some (name, value)
        else none := by
  have hsp : isNameChar ' ' = false := by decide
  have hqs : (quoteChar == ' ') = false := by decide
  have hes : (('=' : Char) == ' ') = false := by decide
  obtain ⟨u0, u, hu⟩ : ∃ u0 u, value.data = u0 :: u := by
    cases hv : value.data with
    | nil => exact absurd hv hne
    | cons u0 u => exact ⟨u0, u, rfl⟩
  have hu0 : u0 ≠ quoteChar := fun h => hq (by rw [hu, h]; simp)
  have hdata : ("SET LOCAL " ++ name ++ " = " ++ psqlfx.QuoteLiteral value).data
      = "SET LOCAL ".data ++ (name.data ++ ' ' :: '=' :: ' ' :: quoteChar
          :: (value.data ++ [quoteChar])) := by
    simp only [String.data_append, QuoteLiteral_plain value hq hb, List.append_assoc]
    rfl
  unfold parseSetLocal
  rw [hdata, stripLeading_append]
  simp only
  obtain ⟨htake, hdrop⟩ := takeWhile_append_stop isNameChar name.data
    ('=' :: ' ' :: quoteChar :: (value.data ++ [quoteChar])) ' ' hsp
  rw [htake, hdrop]
  cases hD : name.data.dropWhile isNameChar with
  | nil =>
    have hall : name.data.takeWhile isNameChar = name.data := by
      have := List.takeWhile_append_dropWhile isNameChar name.data
      rw [hD, List.append_nil] at this
      exact this
    rw [hall]
    by_cases hn : name.data = []
    · simp [hn]
    · have hlit : decodeLiteral (quoteChar :: (value.data ++ [quoteChar])) = some value.data := by
        simp [decodeLiteral, decodeBody_plain value.data hq]
      simp [hn, stripLeading, List.dropWhile, hqs, hlit]
  | cons c post =>
    have hfalse : ¬ (name.data ≠ [] ∧ (c :: post : List Char) = []) := by simp
    rw [if_neg hfalse]
    split
    · rfl
    · -- the text after the name must start with " = "
      cases post with
      | nil =>
        by_cases hc : ' ' = c <;> simp [stripLeading, hc]
      | cons d post =>
        cases post with
        | nil =>
          by_cases hc : ' ' = c
          · by_cases hd : '=' = d
            · subst hc hd
              have heq : ('=' : Char) ≠ quoteChar := by decide
              simp [stripLeading, List.dropWhile, hes, decodeLiteral, heq]
            · simp [stripLeading, hc, hd]
          · simp [stripLeading, hc]
        | cons e post =>
          by_cases hc : ' ' = c
          · by_cases hd : '=' = d
            · by_cases he : ' ' = e
              · subst hc hd he
                have hs : stripLeading [' ', '=', ' ']
                    (' ' :: '=' :: ' ' :: post ++ ' ' :: '=' :: ' ' :: quoteChar
                      :: (value.data ++ [quoteChar]))
                    = some (post ++ ' ' :: '=' :: ' ' :: quoteChar
                      :: (value.data ++ [quoteChar])) := by
                  simp [stripLeading]
                rw [hs]
                simp only
                obtain ⟨zs, hzs⟩ := dropWhile_blank_before_eq (post ++ [' '])
                  (' ' :: quoteChar :: (value.data ++ [quoteChar]))
                have hre : post ++ ' ' :: '=' :: ' ' :: quoteChar :: (value.data ++ [quoteChar])
                    = (post ++ [' ']) ++ '=' :: ' ' :: quoteChar
                      :: (value.data ++ [quoteChar]) := by simp
                rw [hre, hzs, hu]
                simp only [List.cons_append]
                rw [decodeLiteral_early_quote u0 (u ++ [quoteChar]) hu0 zs]
              · simp [stripLeading, hc, hd, he]
            · simp [stripLeading, hc, hd]
          · simp [stripLeading, hc]

/-! ### The modelled session -/

/-- The `SET LOCAL` of `Tx` for a tenant succeeds on the model exactly when the
handle is open and the variable name is made of name characters, and then it
sets that variable to the tenant identifier. -/
theorem exec_setLocal_uuid (schema field : String) (logger : Option (slog.Logger Session))
    (id : uuid.UUID) (tx : Handle) (s s3 : Session) (r : Option GoError)
    (h : exec tx ((onSession schema field logger).setLocal id.String) s = (r, s3)) :
    (r = none ↔ s.isOpen tx = true ∧ (onSession schema field logger).variable.data ≠ []
      ∧ (onSession schema field logger).variable.data.dropWhile isNameChar = [])
    ∧ (r = none → s3 = { s with settings :=
        ((onSession schema field logger).variable, id.String) :: s.settings }) := by
  have hplain := uuid.String_plain id
  have hparse := parseSetLocal_plain (onSession schema field logger).variable id.String
    (by
      intro hd
      apply uuid.String_ne_empty id
      have : id.String = ⟨id.String.data⟩ := rfl
      rw [this, hd])
    (fun hm => (hplain _ hm).1 rfl) (fun hm => (hplain _ hm).2 rfl)
  unfold exec at h
  rw [show (onSession schema field logger).setLocal id.String
      = "SET LOCAL " ++ (onSession schema field logger).variable ++ " = "
        ++ psqlfx.QuoteLiteral id.String from rfl, hparse] at h
  by_cases hopen : s.isOpen tx = true
  · by_cases hv : (onSession schema field logger).variable.data ≠ []
        ∧ (onSession schema field logger).variable.data.dropWhile isNameChar = []
    · simp only [hopen, if_true, hv, and_self, ne_eq, not_false_eq_true] at h
      obtain ⟨rfl, rfl⟩ := Prod.mk.inj h
      exact ⟨⟨fun _ => ⟨hopen, hv⟩, fun _ => rfl⟩, fun _ => rfl⟩
    · simp only [hopen, if_true, hv, if_false] at h
      obtain ⟨rfl, rfl⟩ := Prod.mk.inj h
      exact ⟨⟨(fun hr => by cases hr), fun hh => absurd hh.2 hv⟩, fun hr => by cases hr⟩
  · simp only [hopen] at h
    obtain ⟨rfl, rfl⟩ := Prod.mk.inj h
    exact ⟨⟨(fun hr => by cases hr), fun hh => absurd hh.1 hopen⟩, fun hr => by cases hr⟩

theorem observe_of_current (tx : Handle) (name v : String) (s : Session)
    (hopen : s.isOpen tx = true) (hcur : s.current name = some v) :
    observe tx name s = .ok v := by
  simp [observe, queryRowScan, hopen, hcur]

theorem queryRowScan_state (tx : Handle) (sql : String) (args : List String) (s : Session) :
    (queryRowScan tx sql args s).2 = s := by
  unfold queryRowScan
  split
  · split
    · split
      · split <;> rfl
      · rfl
    · rfl
  · rfl

theorem current_cons (name v : String) (s : Session) :
    Session.current { s with settings := (name, v) :: s.settings } name = some v := by
  simp [Session.current, List.lookup]

end postgres

/-! ## Tenant scope on the modelled session -/

namespace rlsfx

open postgres

/-- `Tx` invokes `fn` once the variable is set and then completes. -/
theorem Tx_eq_complete {S : Type} (db : DB S) (ctx : Context) (fn : Work S)
    (org : domain.Organization) (tx : Handle) (savedValue : String) (s s1 s2 s3 : S)
    (horg : domain.OrganizationFromContext ctx = (some org, none))
    (hbegin : db.begin (psqlfx.TxFromContext ctx) s = (.ok tx, s1))
    (hread : db.readSavedValue (psqlfx.TxFromContext ctx) tx s1 = (savedValue, s2))
    (hset : db.pool.Exec tx (db.setLocal org.ID.String) (db.logApplying s2) = (none, s3)) :
    db.Tx ctx fn s = db.complete (psqlfx.TxFromContext ctx) tx savedValue
      (fn (psqlfx.ContextWithTx ctx (some tx)) tx s3) := by
  simp only [DB.Tx, horg, hbegin, DB.scoped, hread, hset, DB.complete]

/-- C2: for every tenant `T`, in a call of `DB.Tx` (top-level or nested) on a
context bound to `T` in which the handle `tx` is acquired and the `SET LOCAL`
succeeds, `fn` is invoked with `tx` in the state `s3` that the `SET LOCAL`
left, and a statement on `tx` observes the variable `schema.field` equal to
`T.ID.String()` there and in every later state in which the handle is open
and the variable has the same value; queries do not change the state. -/
theorem Tx_sets_variable (schema field : String) (logger : Option (slog.Logger Session))
    (T : domain.Organization) (ctx : Context) (tx : Handle) (savedValue : String)
    (s s1 s2 s3 : Session)
    (horg : domain.OrganizationFromContext ctx = (some T, none))
    (hbegin : (onSession schema field logger).begin (psqlfx.TxFromContext ctx) s = (.ok tx, s1))
    (hread : (onSession schema field logger).readSavedValue (psqlfx.TxFromContext ctx) tx s1
      = (savedValue, s2))
    (hset : (onSession schema field logger).pool.Exec tx
      ((onSession schema field logger).setLocal T.ID.String)
      ((onSession schema field logger).logApplying s2) = (none, s3)) :
    (∀ fn : Work Session, (onSession schema field logger).Tx ctx fn s
      = (onSession schema field logger).complete (psqlfx.TxFromContext ctx) tx savedValue
          (fn (psqlfx.ContextWithTx ctx (some tx)) tx s3))
    ∧ observe tx (schema ++ "." ++ field) s3 = .ok T.ID.String
    ∧ (∀ s' : Session, s'.isOpen tx = true →
        s'.current (schema ++ "." ++ field) = s3.current (schema ++ "." ++ field) →
        observe tx (schema ++ "." ++ field) s' = .ok T.ID.String)
    ∧ (∀ (s' : Session) (h : Handle) (sql : String) (args : List String),
        (postgres.driver.QueryRowScan h sql args s').2 = s') := by
  have hx := exec_setLocal_uuid schema field logger T.ID tx _ s3 none hset
  have hopen := (hx.1.1 rfl).1
  have hs3 := hx.2 rfl
  have hopen3 : s3.isOpen tx = true := by rw [hs3]; exact hopen
  have hcur3 : s3.current (schema ++ "." ++ field) = some T.ID.String := by
    rw [hs3]; exact current_cons _ _ _
  refine ⟨fun fn => Tx_eq_complete _ ctx fn T tx savedValue s s1 s2 s3 horg hbegin hread hset,
    observe_of_current _ _ _ _ hopen3 hcur3, ?_, ?_⟩
  · intro s' ho hc
    exact observe_of_current _ _ _ _ ho (hc.trans hcur3)
  · intro s' h sql args
    exact queryRowScan_state h sql args s'


theorem TxFromContext_ContextWithOrganization (ctx : Context)
    (org : Option domain.Organization) :
    psqlfx.TxFromContext (domain.ContextWithOrganization ctx org) = psqlfx.TxFromContext ctx := by
  simp [psqlfx.TxFromContext, domain.ContextWithOrganization, context.Context.Value]

theorem OrganizationFromContext_ContextWithOrganization (ctx : Context)
    (org : domain.Organization) :
    domain.OrganizationFromContext (domain.ContextWithOrganization ctx (some org))
      = (some org, none) := by
  simp [domain.OrganizationFromContext, domain.ContextWithOrganization, context.Context.Value]

theorem logApplying_quiet (schema field : String) (logger : Option (slog.Logger Session))
    (hquiet : ∀ l, logger = some l → ∀ r s', l r s' = s') (s : Session) :
    (onSession schema field logger).logApplying s = s := by
  unfold DB.logApplying onSession
  cases logger with
  | none => rfl
  | some l => exact hquiet l rfl _ _

theorem isOpen_frames_ne_nil (s : Session) (tx : Handle) (h : s.isOpen tx = true) :
    s.frames ≠ [] := by
  intro hn
  simp [Session.isOpen, hn] at h

theorem rollback_innermost (tx : Handle) (saved : List (String × String)) (fr : List Frame)
    (s : Session) (h : s.frames = ⟨tx, saved⟩ :: fr) :
    postgres.rollback tx s = (none, { s with settings := saved, frames := fr }) := by
  simp [postgres.rollback, Session.frame, Session.outer, h, List.dropWhile]

theorem commit_innermost (tx : Handle) (saved : List (String × String)) (fr : List Frame)
    (s : Session) (h : s.frames = ⟨tx, saved⟩ :: fr) (hfr : fr ≠ []) :
    postgres.commit tx s = (none, { s with frames := fr }) := by
  simp [postgres.commit, Session.frame, Session.outer, h, List.dropWhile, hfr]

theorem rollback_closed (tx : Handle) (s : Session) (h : s.isOpen tx = false) :
    postgres.rollback tx s = (some pgx.ErrTxClosed, s) := by
  have hf : s.frame tx = none := by
    simp only [Session.frame, List.find?_eq_none]
    intro f hfm
    simp only [Session.isOpen, List.any_eq_false] at h
    exact h f hfm
  simp [postgres.rollback, hf]

/-- C3 (amended): nesting round trip on the modelled session. Inside the `fn` of a
`DB.Tx` for tenant `A` (its `SET LOCAL` succeeded, its handle `txA` is in the
context and open, the variable is as that call set it), a `DB.Tx` for tenant
`B` invokes its unit of work on a new handle in a state where the variable is
`B.ID.String()`; when the unit of work `g` leaves the stack of open scopes as
it found it (it does not itself commit or roll back the handle it was given),
the nested call returns what `g` returned, and right after it, whether `g`
succeeded, failed or panicked, a statement on `txA` observes `A.ID.String()`
again. The logger is assumed not to touch the session and the next handle of
the session to be fresh. -/
theorem Tx_nested_round_trip (schema field : String) (logger : Option (slog.Logger Session))
    (A B : domain.Organization) (ctx : Context) (txA : Handle) (s0 sA s : Session)
    (g : Work Session)
    (hquiet : ∀ l, logger = some l → ∀ r s', l r s' = s')
    (hsetA : postgres.driver.Exec txA ((onSession schema field logger).setLocal A.ID.String) s0
      = (none, sA))
    (hctx : psqlfx.TxFromContext ctx = some txA)
    (hopen : s.isOpen txA = true)
    (hsame : s.current (schema ++ "." ++ field) = sA.current (schema ++ "." ++ field))
    (hfresh : s.isOpen s.next = false)
    (hg : (g (psqlfx.ContextWithTx (domain.ContextWithOrganization ctx (some B)) (some s.next))
        s.next
        ⟨(schema ++ "." ++ field, B.ID.String) :: s.settings,
          ⟨s.next, s.settings⟩ :: s.frames, s.next + 1⟩).2.frames
      = ⟨s.next, s.settings⟩ :: s.frames) :
    (∀ fn : Work Session,
      (onSession schema field logger).Tx (domain.ContextWithOrganization ctx (some B)) fn s
        = (onSession schema field logger).complete (some txA) s.next A.ID.String
            (fn (psqlfx.ContextWithTx (domain.ContextWithOrganization ctx (some B)) (some s.next))
              s.next
              ⟨(schema ++ "." ++ field, B.ID.String) :: s.settings,
                ⟨s.next, s.settings⟩ :: s.frames, s.next + 1⟩))
    ∧ observe s.next (schema ++ "." ++ field)
        ⟨(schema ++ "." ++ field, B.ID.String) :: s.settings,
          ⟨s.next, s.settings⟩ :: s.frames, s.next + 1⟩ = .ok B.ID.String
    ∧ ((onSession schema field logger).Tx (domain.ContextWithOrganization ctx (some B)) g s).1
        = (g (psqlfx.ContextWithTx (domain.ContextWithOrganization ctx (some B)) (some s.next))
            s.next
            ⟨(schema ++ "." ++ field, B.ID.String) :: s.settings,
              ⟨s.next, s.settings⟩ :: s.frames, s.next + 1⟩).1
    ∧ observe txA (schema ++ "." ++ field)
        ((onSession schema field logger).Tx (domain.ContextWithOrganization ctx (some B)) g s).2
        = .ok A.ID.String := by
  -- what the outer call established
  have hA := exec_setLocal_uuid schema field logger A.ID txA s0 sA none hsetA
  have hvalid := (hA.1.1 rfl).2
  have hcurA : sA.current (schema ++ "." ++ field) = some A.ID.String := by
    rw [hA.2 rfl]; exact current_cons _ _ _
  have hcur : s.current (schema ++ "." ++ field) = some A.ID.String := hsame.trans hcurA
  -- the nested call up to the invocation of its unit of work
  have horg := OrganizationFromContext_ContextWithOrganization ctx B
  have hparent : psqlfx.TxFromContext (domain.ContextWithOrganization ctx (some B)) = some txA := by
    rw [TxFromContext_ContextWithOrganization, hctx]
  have hbegin : (onSession schema field logger).begin (some txA) s
      = (.ok s.next, ⟨s.settings, ⟨s.next, s.settings⟩ :: s.frames, s.next + 1⟩) := by
    show postgres.begin txA s = _
    simp [postgres.begin, hopen]
  have hopen1 : Session.isOpen ⟨s.settings, ⟨s.next, s.settings⟩ :: s.frames, s.next + 1⟩ s.next
      = true := by
    simp [Session.isOpen]
  have hread : (onSession schema field logger).readSavedValue (some txA) s.next
      ⟨s.settings, ⟨s.next, s.settings⟩ :: s.frames, s.next + 1⟩
      = (A.ID.String, ⟨s.settings, ⟨s.next, s.settings⟩ :: s.frames, s.next + 1⟩) := by
    have hq : postgres.queryRowScan s.next "SELECT current_setting($1, true)"
        [schema ++ "." ++ field] ⟨s.settings, ⟨s.next, s.settings⟩ :: s.frames, s.next + 1⟩
        = (.ok A.ID.String, ⟨s.settings, ⟨s.next, s.settings⟩ :: s.frames, s.next + 1⟩) := by
      have hc : Session.current ⟨s.settings, ⟨s.next, s.settings⟩ :: s.frames, s.next + 1⟩
          (schema ++ "." ++ field) = some A.ID.String := hcur
      simp [postgres.queryRowScan, hopen1, hc]
    have hq2 : (onSession schema field logger).pool.QueryRowScan s.next
        "SELECT current_setting($1, true)" [(onSession schema field logger).variable]
        ⟨s.settings, ⟨s.next, s.settings⟩ :: s.frames, s.next + 1⟩
        = (.ok A.ID.String, ⟨s.settings, ⟨s.next, s.settings⟩ :: s.frames, s.next + 1⟩) := hq
    simp only [DB.readSavedValue, hq2]
  have hset : (onSession schema field logger).pool.Exec s.next
      ((onSession schema field logger).setLocal B.ID.String)
      ((onSession schema field logger).logApplying
        ⟨s.settings, ⟨s.next, s.settings⟩ :: s.frames, s.next + 1⟩)
      = (none, ⟨(schema ++ "." ++ field, B.ID.String) :: s.settings,
          ⟨s.next, s.settings⟩ :: s.frames, s.next + 1⟩) := by
    rw [logApplying_quiet schema field logger hquiet]
    rcases hres : postgres.exec s.next ((onSession schema field logger).setLocal B.ID.String)
      ⟨s.settings, ⟨s.next, s.settings⟩ :: s.frames, s.next + 1⟩ with ⟨r, s3⟩
    have hB := exec_setLocal_uuid schema field logger B.ID s.next _ s3 r hres
    have hr : r = none := hB.1.2 ⟨hopen1, hvalid⟩
    show postgres.exec s.next _ _ = _
    rw [hres, hr, hB.2 hr]
    rfl
  have hdecomp : ∀ fn : Work Session,
      (onSession schema field logger).Tx (domain.ContextWithOrganization ctx (some B)) fn s
        = (onSession schema field logger).complete (some txA) s.next A.ID.String
            (fn (psqlfx.ContextWithTx (domain.ContextWithOrganization ctx (some B)) (some s.next))
              s.next
              ⟨(schema ++ "." ++ field, B.ID.String) :: s.settings,
                ⟨s.next, s.settings⟩ :: s.frames, s.next + 1⟩) := by
    intro fn
    have h := Tx_eq_complete (onSession schema field logger)
      (domain.ContextWithOrganization ctx (some B)) fn B s.next A.ID.String s _ _ _ horg
      (by rw [hparent]; exact hbegin) (by rw [hparent]; exact hread) hset
    rw [hparent] at h
    exact h
  have hobsB : observe s.next (schema ++ "." ++ field)
      ⟨(schema ++ "." ++ field, B.ID.String) :: s.settings,
        ⟨s.next, s.settings⟩ :: s.frames, s.next + 1⟩ = .ok B.ID.String :=
    observe_of_current _ _ _ _ (by simp [Session.isOpen]) (by simp [Session.current, List.lookup])
  -- the nested call from the return of its unit of work on
  have hne : A.ID.String ≠ "" := uuid.String_ne_empty A.ID
  have hfin : ((onSession schema field logger).Tx
        (domain.ContextWithOrganization ctx (some B)) g s).1
      = (g (psqlfx.ContextWithTx (domain.ContextWithOrganization ctx (some B)) (some s.next))
          s.next
          ⟨(schema ++ "." ++ field, B.ID.String) :: s.settings,
            ⟨s.next, s.settings⟩ :: s.frames, s.next + 1⟩).1
      ∧ observe txA (schema ++ "." ++ field)
          ((onSession schema field logger).Tx
            (domain.ContextWithOrganization ctx (some B)) g s).2 = .ok A.ID.String := by
    rw [hdecomp g]
    have hfr := hg
    rcases hgr : g (psqlfx.ContextWithTx (domain.ContextWithOrganization ctx (some B))
      (some s.next)) s.next ⟨(schema ++ "." ++ field, B.ID.String) :: s.settings,
        ⟨s.next, s.settings⟩ :: s.frames, s.next + 1⟩ with ⟨out, s4⟩
    rw [hgr] at hfr
    simp only at hfr
    have hrb : (onSession schema field logger).pool.Rollback s.next s4
        = (none, { s4 with settings := s.settings, frames := s.frames }) :=
      rollback_innermost s.next s.settings s.frames s4 hfr
    have hback : observe txA (schema ++ "." ++ field)
        { s4 with settings := s.settings, frames := s.frames } = .ok A.ID.String :=
      observe_of_current _ _ _ _ hopen hcur
    cases out with
    | panicked msg =>
      simp only [DB.complete, hrb]
      exact ⟨trivial, hback⟩
    | ret err =>
      cases err with
      | some err =>
        simp only [DB.complete, hrb]
        exact ⟨trivial, hback⟩
      | none =>
        have hcm : (onSession schema field logger).pool.Commit s.next s4
            = (none, { s4 with frames := s.frames }) :=
          commit_innermost s.next s.settings s.frames s4 hfr (isOpen_frames_ne_nil s txA hopen)
        rcases hres : postgres.exec txA ((onSession schema field logger).setLocal A.ID.String)
          { s4 with frames := s.frames } with ⟨r, s6⟩
        have hR := exec_setLocal_uuid schema field logger A.ID txA _ s6 r hres
        have hr : r = none := hR.1.2 ⟨hopen, hvalid⟩
        have hs6 := hR.2 hr
        subst hr
        have hex : (onSession schema field logger).pool.Exec txA
            ((onSession schema field logger).setLocal A.ID.String)
            { s4 with frames := s.frames } = (none, s6) := hres
        have hclosed : s6.isOpen s.next = false := by rw [hs6]; exact hfresh
        have hrb2 : (onSession schema field logger).pool.Rollback s.next s6
            = (some pgx.ErrTxClosed, s6) := rollback_closed s.next s6 hclosed
        simp only [DB.complete, DB.commitAndRestore, hcm, hne, ne_eq, not_false_eq_true,
          if_true, hex, hrb2]
        refine ⟨trivial, ?_⟩
        rw [hs6]
        exact observe_of_current _ _ _ _ hopen (current_cons _ _ _)
  exact ⟨hdecomp, hobsB, hfin.1, hfin.2⟩


/-- C3, as stated, fails: inside a scope of `orgA` on handle 1, a nested `DB.Tx`
for `orgB` whose unit of work commits the handle it was given, which releases
the savepoint, finds its own `Commit` refused with `ErrTxClosed`, returns
before the restore statement, and its deferred `Rollback` does nothing on the
closed handle: right after the nested call a statement on handle 1 observes
the identifier of `orgB`, not that of `orgA`, whether the unit of work
reported success or failed. -/
theorem Tx_nested_round_trip_counterexample :
    observe 1 "app.current_organization" sample.inScopeA = .ok sample.orgA.ID.String
    ∧ ((onSession "app" "current_organization" none).Tx sample.ctxNested sample.releasing
        sample.inScopeA).1 = .ret (some pgx.ErrTxClosed)
    ∧ observe 1 "app.current_organization"
        ((onSession "app" "current_organization" none).Tx sample.ctxNested sample.releasing
          sample.inScopeA).2 = .ok sample.orgB.ID.String
    ∧ ((onSession "app" "current_organization" none).Tx sample.ctxNested
        sample.releasingThenFailing sample.inScopeA).1
        = .ret (some (GoError.errorString "something went wrong"))
    ∧ observe 1 "app.current_organization"
        ((onSession "app" "current_organization" none).Tx sample.ctxNested
          sample.releasingThenFailing sample.inScopeA).2 = .ok sample.orgB.ID.String
    ∧ sample.orgB.ID.String ≠ sample.orgA.ID.String := by
  refine ⟨rfl, by decide, rfl, by decide, rfl, by decide⟩

theorem Tx_sets_variable_witness :
    observe 1 "app.current_organization"
      ⟨[("app.current_organization", sample.orgA.ID.String)], [⟨1, []⟩], 2⟩
      = .ok sample.orgA.ID.String :=
  (Tx_sets_variable "app" "current_organization" none sample.orgA sample.ctxA 1 ""
    postgres.idle ⟨[], [⟨1, []⟩], 2⟩ ⟨[], [⟨1, []⟩], 2⟩
    ⟨[("app.current_organization", sample.orgA.ID.String)], [⟨1, []⟩], 2⟩
    rfl rfl rfl (by decide)).2.1

theorem Tx_nested_round_trip_witness :
    observe 1 "app.current_organization"
      ((onSession "app" "current_organization" none).Tx
        (domain.ContextWithOrganization (psqlfx.ContextWithTx sample.ctxA (some 1))
          (some sample.orgB))
        (sample.failing _)
        ⟨[("app.current_organization", sample.orgA.ID.String)], [⟨1, []⟩], 2⟩).2
      = .ok sample.orgA.ID.String :=
  (Tx_nested_round_trip "app" "current_organization" none sample.orgA sample.orgB
    (psqlfx.ContextWithTx sample.ctxA (some 1)) 1 ⟨[], [⟨1, []⟩], 2⟩
    ⟨[("app.current_organization", sample.orgA.ID.String)], [⟨1, []⟩], 2⟩
    ⟨[("app.current_organization", sample.orgA.ID.String)], [⟨1, []⟩], 2⟩
    (sample.failing _) (fun _ h => by cases h) (by decide) rfl (by decide) rfl (by decide)
    rfl).2.2.2

end rlsfx

/-! ## Quoting -/

theorem foldl_join_append (sep : String) (rest : List String) :
    ∀ a b : String, rest.foldl (fun acc x => acc ++ sep ++ x) (a ++ b)
      = a ++ rest.foldl (fun acc x => acc ++ sep ++ x) b := by
  induction rest with
  | nil => intro a b; rfl
  | cons x rest ih =>
    intro a b
    simp only [List.foldl_cons]
    rw [String.append_assoc, String.append_assoc, ih, String.append_assoc]

theorem Join_cons_cons (sep p q : String) (rest : List String) :
    strings.Join (p :: q :: rest) sep = p ++ sep ++ strings.Join (q :: rest) sep := by
  simp only [strings.Join, List.foldl_cons]
  rw [foldl_join_append]

theorem replaceAllChar_nil_eq_filter (old : Char) (s : List Char) :
    replaceAllChar old [] s = s.filter (fun c => c != old) := by
  induction s with
  | nil => rfl
  | cons c s ih =>
    simp only [replaceAllChar, List.flatMap_cons] at ih ⊢
    by_cases hc : c = old
    · simp [hc, ih]
    · have hne : (c != old) = true := by simp [hc]
      simp [hc, ih, List.filter, hne]

namespace psqlfx

open postgres (decodeBody decodeLiteral decodeBody_step)

theorem replaceAllChar_mem_iff (old : Char) (s : List Char) (c : Char) (hc : c ≠ old) :
    c ∈ replaceAllChar old [old, old] s ↔ c ∈ s := by
  induction s with
  | nil => simp [replaceAllChar]
  | cons x s ih =>
    simp only [replaceAllChar, List.flatMap_cons, List.mem_append, List.mem_cons] at ih ⊢
    by_cases hx : x = old
    · subst hx
      simp [ih, hc]
    · simp [hx, ih]

theorem replaceAllChar_both (s : List Char) :
    replaceAllChar backslashChar [backslashChar, backslashChar]
        (replaceAllChar quoteChar [quoteChar, quoteChar] s)
      = s.flatMap (fun c =>
          if c = quoteChar then [quoteChar, quoteChar]
          else if c = backslashChar then [backslashChar, backslashChar]
          else [c]) := by
  have hqb : quoteChar ≠ backslashChar := by decide
  induction s with
  | nil => rfl
  | cons x s ih =>
    simp only [replaceAllChar, List.flatMap_cons, List.flatMap_append] at ih ⊢
    rw [ih]
    by_cases hx : x = quoteChar
    · subst hx
      simp [hqb]
    · by_cases hxb : x = backslashChar
      · subst hxb
        simp [hx]
      · simp [hx, hxb]

/-- C11: for every string `s`, `QuoteLiteral(s)` is the literal the specification
words: without a backslash in `s`, a quote, `s` with every quote doubled, a
quote; with a backslash in `s`, the `E` form with its leading blank, every
quote and every backslash of `s` doubled. In particular the empty string gives
two quotes. -/
theorem QuoteLiteral_eq_spec (s : String) :
    QuoteLiteral s = QuoteLiteralSpec s
    ∧ QuoteLiteral "" = String.mk [quoteChar, quoteChar] := by
  refine ⟨?_, by decide⟩
  have hqb : backslashChar ≠ quoteChar := by decide
  have hmem := replaceAllChar_mem_iff quoteChar s.data backslashChar hqb
  unfold QuoteLiteral QuoteLiteralSpec
  by_cases hb : backslashChar ∈ s.data
  · have hb2 : backslashChar ∈ replaceAllChar quoteChar [quoteChar, quoteChar] s.data :=
      hmem.2 hb
    simp only [hb, hb2, if_true, replaceAllChar_both]
  · have hb2 : backslashChar ∉ replaceAllChar quoteChar [quoteChar, quoteChar] s.data :=
      fun h => hb (hmem.1 h)
    simp only [hb, hb2, if_false]
    rfl

/-- A character that is no quote, and no backslash when escapes are read, stands
for itself. -/
theorem decodeBody_ordinary (escapes : Bool) (c : Char) (l : List Char) (hl : l ≠ [])
    (hc : c ≠ quoteChar) (hcb : escapes = false ∨ c ≠ backslashChar) :
    decodeBody escapes (c :: l) = (decodeBody escapes l).map (c :: ·) := by
  cases l with
  | nil => exact absurd rfl hl
  | cons d rest =>
    rw [decodeBody_step]
    rcases hcb with h | h
    · simp [hc, h]
    · simp [hc, h]

theorem decodeBody_doubled (s : List Char) :
    decodeBody false (replaceAllChar quoteChar [quoteChar, quoteChar] s ++ [quoteChar])
      = some s := by
  induction s with
  | nil => simp [replaceAllChar, decodeBody]
  | cons c s ih =>
    simp only [replaceAllChar, List.flatMap_cons] at ih ⊢
    by_cases hc : c = quoteChar
    · subst hc
      simp only [if_true, List.cons_append, List.nil_append]
      rw [decodeBody_step, ih]
      simp
    · simp only [hc, if_false, List.cons_append, List.nil_append]
      rw [decodeBody_ordinary false c _ (by simp) hc (Or.inl rfl), ih]
      rfl

theorem decodeBody_escaped (s : List Char) :
    decodeBody true
        (s.flatMap (fun c =>
          if c = quoteChar then [quoteChar, quoteChar]
          else if c = backslashChar then [backslashChar, backslashChar]
          else [c]) ++ [quoteChar])
      = some s := by
  have hqb : backslashChar ≠ quoteChar := by decide
  induction s with
  | nil => simp [decodeBody]
  | cons c s ih =>
    simp only [List.flatMap_cons] at ih ⊢
    by_cases hc : c = quoteChar
    · subst hc
      simp only [if_true, List.cons_append, List.nil_append]
      rw [decodeBody_step, ih]
      simp
    · by_cases hcb : c = backslashChar
      · subst hcb
        simp only [hqb, if_false, if_true, List.cons_append, List.nil_append]
        rw [decodeBody_step, ih]
        simp [hqb]
      · simp only [hc, hcb, if_false, List.cons_append, List.nil_append]
        rw [decodeBody_ordinary true c _ (by simp) hc (Or.inr hcb), ih]
        rfl

theorem QuoteLiteral_decodes (s : String) :
    decodeLiteral ((QuoteLiteral s).data.dropWhile (· == ' ')) = some s.data := by
  have hqs : (quoteChar == ' ') = false := by decide
  have hEs : (('E' : Char) == ' ') = false := by decide
  have hEq : ('E' : Char) ≠ quoteChar := by decide
  unfold QuoteLiteral
  by_cases hb : backslashChar ∈ replaceAllChar quoteChar [quoteChar, quoteChar] s.data
  · simp only [hb, if_true, List.cons_append, List.nil_append, List.dropWhile, hEs]
    simp only [beq_self_eq_true, decodeLiteral, hEq, if_false, if_true]
    rw [replaceAllChar_both]
    exact decodeBody_escaped s.data
  · simp only [hb, if_false, List.cons_append, List.nil_append, List.dropWhile, hqs]
    simp only [decodeLiteral, if_true]
    exact decodeBody_doubled s.data

/-- C12: for every string `s`, reading `QuoteLiteral(s)` as one string literal
(after the leading blank of the `E` form: the opening delimiter, then the body
from left to right with two quotes for one quote and, in the `E` form, two
backslashes for one backslash, up to a closing quote that ends the input)
consumes all of it and yields exactly `s`, so no quote of the body ends the
literal early; and `QuoteLiteral` is injective. -/
theorem QuoteLiteral_round_trip (s : String) :
    decodeLiteral ((QuoteLiteral s).data.dropWhile (· == ' ')) = some s.data
    ∧ Function.Injective QuoteLiteral := by
  refine ⟨QuoteLiteral_decodes s, ?_⟩
  intro a b hab
  have ha := QuoteLiteral_decodes a
  rw [hab, QuoteLiteral_decodes b] at ha
  have hd : b.data = a.data := Option.some.inj ha
  cases a; cases b
  simp only at hd
  rw [hd]

theorem sanitize_part (part : String) :
    String.mk ([doubleQuoteChar]
        ++ replaceAllChar doubleQuoteChar [doubleQuoteChar, doubleQuoteChar]
            (replaceAllChar nulChar [] part.data)
        ++ [doubleQuoteChar])
      = quotePartSpec (withoutNul part) := by
  have hfun : (fun c : Char => if c = doubleQuoteChar then [doubleQuoteChar, doubleQuoteChar]
      else [c]) = (fun c => if c = doubleQuoteChar then [c, c] else [c]) := by
    funext c
    by_cases hc : c = doubleQuoteChar <;> simp [hc]
  rw [replaceAllChar_nil_eq_filter]
  simp only [quotePartSpec, withoutNul, replaceAllChar, hfun]
  rfl

/-- C13, as stated, fails for a part with a NUL character: the driver removes
it, so the quoted part is not the part between double quotes. -/
theorem QuoteIdentifier_nul_counterexample :
    QuoteIdentifier [String.mk ['a', nulChar, 'b']] = String.mk [doubleQuoteChar, 'a', 'b', doubleQuoteChar]
    ∧ QuoteIdentifierSpec [String.mk ['a', nulChar, 'b']]
        = String.mk [doubleQuoteChar, 'a', nulChar, 'b', doubleQuoteChar]
    ∧ QuoteIdentifier [String.mk ['a', nulChar, 'b']]
        ≠ QuoteIdentifierSpec [String.mk ['a', nulChar, 'b']] := by
  decide

/-- C13 (amended): for every list of identifier parts, `QuoteIdentifier(parts)` is
the parts joined by ".", each part without its NUL characters, wrapped in
double quotes, every embedded double quote doubled; for parts without NUL
characters that is the parts themselves so quoted and joined. -/
theorem QuoteIdentifier_eq_spec (parts : List String) :
    QuoteIdentifier parts = QuoteIdentifierSpec (parts.map withoutNul)
    ∧ ((∀ part ∈ parts, nulChar ∉ part.data) → QuoteIdentifier parts = QuoteIdentifierSpec parts)
    ∧ QuoteIdentifier ["app", "users"] = "\x22app\x22.\x22users\x22"
    ∧ QuoteIdentifier ["my\x22table"] = "\x22my\x22\x22table\x22" := by
  have hmain : ∀ ps : List String, QuoteIdentifier ps = QuoteIdentifierSpec (ps.map withoutNul) := by
    intro ps
    induction ps with
    | nil => rfl
    | cons p ps ih =>
      cases ps with
      | nil =>
        simp only [QuoteIdentifier, pgx.Identifier.Sanitize, List.map, strings.Join,
          List.foldl_nil, QuoteIdentifierSpec]
        exact sanitize_part p
      | cons q ps =>
        simp only [QuoteIdentifier, pgx.Identifier.Sanitize, List.map_cons] at ih ⊢
        rw [Join_cons_cons, ih, sanitize_part]
        rfl
  refine ⟨hmain parts, ?_, by decide, by decide⟩
  intro hnul
  rw [hmain]
  congr 1
  have : ∀ ps : List String, (∀ part ∈ ps, nulChar ∉ part.data) → ps.map withoutNul = ps := by
    intro ps hps
    induction ps with
    | nil => rfl
    | cons p ps ih =>
      have hp : withoutNul p = p := by
        have h := hps p (by simp)
        cases p with
        | mk data =>
          have hf : List.filter (fun c => c != nulChar) data = data := by
            rw [List.filter_eq_self]
            intro c hc
            simp only [bne_iff_ne, ne_eq]
            intro heq
            exact h (heq ▸ hc)
          simp only [withoutNul, hf]
      simp only [List.map_cons, hp]
      rw [ih (fun part hpart => hps part (by simp [hpart]))]
  exact this parts hnul

end psqlfx

/-! ## Contexts, domain errors and construction -/

namespace domain

/-- C14: for every context and every non-nil organization,
`OrganizationFromContext(ContextWithOrganization(ctx, org))` returns that
organization with a nil error, also when an organization (or a nil pointer)
was bound in `ctx` before: the innermost binding wins. -/
theorem OrganizationFromContext_round_trip (ctx : Context) (org : Organization)
    (earlier : Option Organization) :
    OrganizationFromContext (ContextWithOrganization ctx (some org)) = (some org, none)
    ∧ OrganizationFromContext
        (ContextWithOrganization (ContextWithOrganization ctx earlier) (some org))
        = (some org, none) := by
  constructor <;>
    simp [OrganizationFromContext, ContextWithOrganization, context.Context.Value]

theorem Value_of_no_organization (ctx : Context) (h : ctx.hasOrganization = false) :
    ∀ org, ctx.Value .organizationContextKey ≠ some (.organization org) := by
  induction ctx with
  | Background => intro org hv; cases hv
  | WithValue parent key val ih =>
    intro org hv
    cases key with
    | organizationContextKey =>
      cases val with
      | organization o => simp [context.Context.hasOrganization] at h
      | tx t => simp [context.Context.Value] at hv
      | other v => simp [context.Context.Value] at hv
    | txContextKey =>
      simp only [context.Context.hasOrganization] at h
      simp only [context.Context.Value] at hv
      exact ih h org (by simpa using hv)
    | other name =>
      simp only [context.Context.hasOrganization] at h
      simp only [context.Context.Value] at hv
      exact ih h org (by simpa using hv)

/-- C15: for every context in whose chain of ancestors `ContextWithOrganization`
was never applied, `OrganizationFromContext` returns a nil organization and
`ErrMissingOrganization`. -/
theorem OrganizationFromContext_missing (ctx : Context) (h : ctx.hasOrganization = false) :
    OrganizationFromContext ctx = (none, some ErrMissingOrganization) := by
  have hv := Value_of_no_organization ctx h
  unfold OrganizationFromContext
  split
  · next org heq => exact absurd heq (hv (some org))
  · rfl

theorem OrganizationFromContext_missing_witness :
    OrganizationFromContext Context.Background = (none, some ErrMissingOrganization)
    ∧ OrganizationFromContext (psqlfx.ContextWithTx .Background (some 1))
        = (none, some ErrMissingOrganization) :=
  ⟨OrganizationFromContext_missing .Background rfl,
   OrganizationFromContext_missing (psqlfx.ContextWithTx .Background (some 1)) rfl⟩

/-- C16: for every domain error `e` (code `c`, any message, any cause) and every
target `t`, `e.Is(t)` holds exactly when `t` is a domain error with the code
`c`, whatever its message and cause; it is false for every target that is no
domain error. Hence `NewError(c, m)` matches the sentinel of each of the five
codes under `errors.Is`. -/
theorem Error_Is_by_code (c : Code) (m : String) (w : Option GoError) (t : GoError) :
    (Error.IsMethod (.domainError c m w) t = true ↔ ∃ tm tw, t = .domainError c tm tw)
    ∧ (t.isDomainError = false → Error.IsMethod (.domainError c m w) t = false)
    ∧ errors.Is (some (NewError CodeNotFound m)) (some ErrNotFound) = true
    ∧ errors.Is (some (NewError CodeConflict m)) (some ErrConflict) = true
    ∧ errors.Is (some (NewError CodeValidation m)) (some ErrValidation) = true
    ∧ errors.Is (some (NewError CodeForbidden m)) (some ErrForbidden) = true
    ∧ errors.Is (some (NewError CodeInvariant m)) (some ErrInvariant) = true := by
  have hmatch : ∀ code : Code, ∀ sentinel : GoError, sentinel = .domainError code "" none →
      errors.Is (some (NewError code m)) (some sentinel) = true := by
    intro code sentinel hs
    subst hs
    simp [errors.Is, errors.isLoop, NewError, Error.Is]
  refine ⟨?_, ?_, hmatch _ _ rfl, hmatch _ _ rfl, hmatch _ _ rfl, hmatch _ _ rfl,
    hmatch _ _ rfl⟩
  · cases t with
    | domainError tc tm tw =>
      simp only [Error.IsMethod, Error.Is, beq_iff_eq]
      constructor
      · intro h; exact ⟨tm, tw, by rw [h]⟩
      · rintro ⟨tm2, tw2, h⟩
        cases h; rfl
    | errorString s => simp [Error.IsMethod, Error.Is]
    | errorsNew i s => simp [Error.IsMethod, Error.Is]
    | pgError p => simp [Error.IsMethod, Error.Is]
    | nilPgError => simp [Error.IsMethod, Error.Is]
    | wrapError s e => simp [Error.IsMethod, Error.Is]
    | joinError es => simp [Error.IsMethod, Error.Is]
  · intro ht
    cases t <;> simp_all [Error.IsMethod, Error.Is, GoError.isDomainError]

end domain

namespace rlsfx

/-- C19: `NewDB` returns `ErrMissingSchema`, and no `DB`, exactly when the
schema of the configuration is empty; otherwise the `DB` it returns has the
schema and field of the configuration, so its variable is named schema, ".",
field, and that name is what its `SET LOCAL` statements carry. -/
theorem NewDB_schema_required {S : Type} (pool : pgx.Driver S) (cfgSchema cfgField : String)
    (logger : Option (slog.Logger S)) :
    ((NewDB pool cfgSchema cfgField logger).2 = some ErrMissingSchema ↔ cfgSchema = "")
    ∧ ((NewDB pool cfgSchema cfgField logger).1.isNone = true ↔ cfgSchema = "")
    ∧ ((NewDB pool cfgSchema cfgField logger).2 = none ↔ cfgSchema ≠ "")
    ∧ (∀ db, (NewDB pool cfgSchema cfgField logger).1 = some db →
        db.schema = cfgSchema ∧ db.field = cfgField
        ∧ db.variable = cfgSchema ++ "." ++ cfgField
        ∧ ∀ value, db.setLocal value
            = "SET LOCAL " ++ cfgSchema ++ "." ++ cfgField ++ " = " ++ psqlfx.QuoteLiteral value) := by
  unfold NewDB
  by_cases h : cfgSchema = ""
  · simp [h]
  · simp only [h, if_false]
    refine ⟨by simp, by simp, by simp [h], ?_⟩
    intro db hdb
    have : db = ⟨pool, cfgSchema, cfgField, logger⟩ := (Option.some.inj hdb).symm
    subst this
    simp [DB.variable, DB.setLocal, String.append_assoc]

end rlsfx

/-! ## Where the errors of `Tx` come from -/

namespace rlsfx

open pgx (Driver Call Recorded)

theorem OrganizationFromContext_error (ctx : Context) (org : Option domain.Organization)
    (err : GoError) (h : domain.OrganizationFromContext ctx = (org, some err)) :
    err = domain.ErrMissingOrganization := by
  unfold domain.OrganizationFromContext at h
  split at h
  · cases h
  · cases h; rfl

theorem commitAndRestore_error {S : Type} (db : DB S) (parent : Option Handle) (tx : Handle)
    (savedValue : String) (s : S) (err : GoError)
    (h : (db.commitAndRestore parent tx savedValue s).1 = .ret (some err)) :
    (db.pool.Commit tx s).1 = some err
    ∨ ∃ p s', parent = some p ∧ savedValue ≠ ""
        ∧ (db.pool.Exec p (db.setLocal savedValue) s').1 = some err := by
  unfold DB.commitAndRestore at h
  rcases hc : db.pool.Commit tx s with ⟨rc, s1⟩
  rw [hc] at h
  cases rc with
  | some e =>
    simp only at h
    left
    simp only [Outcome.ret.injEq] at h
    rw [h]
  | none =>
    right
    cases parent with
    | none => simp at h
    | some p =>
      simp only at h
      by_cases hsv : savedValue = ""
      · simp [hsv] at h
      · simp only [hsv, ne_eq, not_false_eq_true, if_true] at h
        rcases he : db.pool.Exec p (db.setLocal savedValue) s1 with ⟨re, s2⟩
        rw [he] at h
        cases re with
        | none => simp at h
        | some e =>
          simp only [Outcome.ret.injEq] at h
          exact ⟨p, s1, rfl, hsv, by rw [he, h]⟩

theorem scoped_error {S : Type} (db : DB S) (ctx : Context) (fn : Work S)
    (org : Option domain.Organization) (parent : Option Handle) (tx : Handle) (s : S)
    (err : GoError) (h : (db.scoped ctx fn org parent tx s).1 = .ret (some err)) :
    (∃ o s', org = some o ∧ (db.pool.Exec tx (db.setLocal o.ID.String) s').1 = some err)
    ∨ (∃ s', (fn (psqlfx.ContextWithTx ctx (some tx)) tx s').1 = .ret (some err))
    ∨ (∃ s', (db.pool.Commit tx s').1 = some err)
    ∨ (∃ p saved s', parent = some p ∧ saved ≠ ""
        ∧ (db.pool.Exec p (db.setLocal saved) s').1 = some err) := by
  unfold DB.scoped at h
  rcases hr : db.readSavedValue parent tx s with ⟨saved, s1⟩
  rw [hr] at h
  cases org with
  | none => simp at h
  | some o =>
    simp only at h
    rcases he : db.pool.Exec tx (db.setLocal o.ID.String) (db.logApplying s1) with ⟨re, s2⟩
    rw [he] at h
    cases re with
    | some e =>
      simp only [Outcome.ret.injEq] at h
      exact Or.inl ⟨o, _, rfl, by rw [he, h]⟩
    | none =>
      simp only at h
      rcases hf : fn (psqlfx.ContextWithTx ctx (some tx)) tx s2 with ⟨out, s3⟩
      rw [hf] at h
      cases out with
      | panicked msg => simp at h
      | ret r =>
        cases r with
        | some e =>
          simp only [Outcome.ret.injEq] at h
          exact Or.inr (Or.inl ⟨s2, by rw [hf, h]⟩)
        | none =>
          simp only at h
          rcases commitAndRestore_error db parent tx saved s3 err h with hc | ⟨p, s', hp, hsv, hx⟩
          · exact Or.inr (Or.inr (Or.inl ⟨s3, hc⟩))
          · exact Or.inr (Or.inr (Or.inr ⟨p, saved, s', hp, hsv, hx⟩))

/-- C17 (amended): an error that `DB.Tx` returns is `ErrMissingOrganization`, the
error of the `Begin`, the error of the `SET LOCAL` on the new handle, the
error that `fn` returned, the error of the `Commit`, or, in a nested call with
a non-empty saved value, the error of the restore statement on the parent,
each unchanged; an error of the deferred `Rollback` is never returned. And
when `fn` returns nil, the `Commit` succeeds and the restore statement, if one
is issued, succeeds, `DB.Tx` returns nil. -/
theorem Tx_error_sources {S : Type} (db : DB S) (ctx : Context) (fn : Work S)
    (org : domain.Organization) (tx : Handle) (savedValue : String) (s s1 s2 s3 s4 s5 : S)
    (horg : domain.OrganizationFromContext ctx = (some org, none))
    (hbegin : db.begin (psqlfx.TxFromContext ctx) s = (.ok tx, s1))
    (hread : db.readSavedValue (psqlfx.TxFromContext ctx) tx s1 = (savedValue, s2))
    (hset : db.pool.Exec tx (db.setLocal org.ID.String) (db.logApplying s2) = (none, s3))
    (hfn : fn (psqlfx.ContextWithTx ctx (some tx)) tx s3 = (.ret none, s4))
    (hcommit : db.pool.Commit tx s4 = (none, s5))
    (hrestore : ∀ p, psqlfx.TxFromContext ctx = some p → savedValue ≠ "" →
      (db.pool.Exec p (db.setLocal savedValue) s5).1 = none) :
    (db.Tx ctx fn s).1 = .ret none
    ∧ ∀ (c : Context) (work : Work S) (t : S) (err : GoError),
        (db.Tx c work t).1 = .ret (some err) →
        err = domain.ErrMissingOrganization
        ∨ (db.begin (psqlfx.TxFromContext c) t).1 = .error err
        ∨ (∃ o tx' s', (domain.OrganizationFromContext c).1 = some o
            ∧ (db.pool.Exec tx' (db.setLocal o.ID.String) s').1 = some err)
        ∨ (∃ tx' s', (work (psqlfx.ContextWithTx c (some tx')) tx' s').1 = .ret (some err))
        ∨ (∃ tx' s', (db.pool.Commit tx' s').1 = some err)
        ∨ (∃ p saved s', psqlfx.TxFromContext c = some p ∧ saved ≠ ""
            ∧ (db.pool.Exec p (db.setLocal saved) s').1 = some err) := by
  constructor
  · have hcr : (db.commitAndRestore (psqlfx.TxFromContext ctx) tx savedValue s4).1
        = .ret none := by
      unfold DB.commitAndRestore
      rw [hcommit]
      cases hp : psqlfx.TxFromContext ctx with
      | none => rfl
      | some p =>
        simp only
        by_cases hsv : savedValue = ""
        · simp [hsv]
        · have hx := hrestore p hp hsv
          simp only [hsv, ne_eq, not_false_eq_true, if_true]
          rcases he : db.pool.Exec p (db.setLocal savedValue) s5 with ⟨re, s6⟩
          rw [he] at hx
          simp only at hx
          rw [hx]
    rw [Tx_eq_complete db ctx fn org tx savedValue s s1 s2 s3 horg hbegin hread hset, hfn]
    simp only [DB.complete]
    exact hcr
  · intro c work t err h
    unfold DB.Tx at h
    rcases ho : domain.OrganizationFromContext c with ⟨o, e⟩
    rw [ho] at h
    cases e with
    | some e =>
      simp only [Outcome.ret.injEq, Option.some.injEq] at h
      left
      rw [← h]
      exact OrganizationFromContext_error c o e ho
    | none =>
      simp only at h
      rcases hb : db.begin (psqlfx.TxFromContext c) t with ⟨rb, t1⟩
      rw [hb] at h
      cases rb with
      | error e =>
        simp only [Outcome.ret.injEq, Option.some.injEq] at h
        right; left
        rw [h]
      | ok tx' =>
        simp only at h
        rcases scoped_error db c work o (psqlfx.TxFromContext c) tx' t1 err h with
          ⟨o', s', ho', hx⟩ | ⟨s', hx⟩ | ⟨s', hx⟩ | ⟨p, saved, s', hp, hsv, hx⟩
        · exact Or.inr (Or.inr (Or.inl ⟨o', tx', s', ho', hx⟩))
        · exact Or.inr (Or.inr (Or.inr (Or.inl ⟨tx', s', hx⟩)))
        · exact Or.inr (Or.inr (Or.inr (Or.inr (Or.inl ⟨tx', s', hx⟩))))
        · exact Or.inr (Or.inr (Or.inr (Or.inr (Or.inr ⟨p, saved, s', hp, hsv, hx⟩))))

/-- C17, as stated, fails: in a nested call on a driver whose connection goes
away after the commit, `fn` returns nil and the `Commit` succeeds, yet `DB.Tx`
returns the error of the restore statement on the parent. -/
theorem Tx_restore_error_counterexample :
    (∀ (c : Context) (tx : Handle) (n : Nat), (sample.succeeding Nat c tx n).1 = .ret none)
    ∧ (∀ (tx : Handle) (n : Nat), (sample.dropping.Commit tx n).1 = none)
    ∧ (DB.Tx ⟨sample.dropping, "app", "current_organization", none⟩
        (psqlfx.ContextWithTx sample.ctxA (some 1)) (sample.succeeding Nat) 0).1
        = .ret (some sample.connectionLost)
    ∧ ((DB.recording ⟨sample.dropping, "app", "current_organization", none⟩).Tx
        (psqlfx.ContextWithTx sample.ctxA (some 1)) (sample.succeeding _) ⟨0, []⟩).2.calls
        = [Call.Begin 1,
           Call.QueryRowScan 2 "SELECT current_setting($1, true)" ["app.current_organization"],
           Call.Exec 2 "SET LOCAL app.current_organization = \x27abababab-abab-abab-abab-abababababab\x27",
           Call.Commit 2,
           Call.Exec 1 "SET LOCAL app.current_organization = \x27previous\x27",
           Call.Rollback 2] := by
  refine ⟨fun _ _ _ => rfl, fun _ _ => rfl, by decide, by decide⟩

theorem Tx_error_sources_witness :
    ((rlsfx.onSession "app" "current_organization" none).Tx
      (domain.ContextWithOrganization (psqlfx.ContextWithTx sample.ctxA (some 1))
        (some sample.orgB))
      (sample.succeeding _)
      ⟨[("app.current_organization", sample.orgA.ID.String)], [⟨1, []⟩], 2⟩).1 = .ret none :=
  (Tx_error_sources (rlsfx.onSession "app" "current_organization" none)
    (domain.ContextWithOrganization (psqlfx.ContextWithTx sample.ctxA (some 1))
      (some sample.orgB))
    (sample.succeeding _) sample.orgB 2 sample.orgA.ID.String
    ⟨[("app.current_organization", sample.orgA.ID.String)], [⟨1, []⟩], 2⟩
    ⟨[("app.current_organization", sample.orgA.ID.String)],
      [⟨2, [("app.current_organization", sample.orgA.ID.String)]⟩, ⟨1, []⟩], 3⟩
    ⟨[("app.current_organization", sample.orgA.ID.String)],
      [⟨2, [("app.current_organization", sample.orgA.ID.String)]⟩, ⟨1, []⟩], 3⟩
    ⟨[("app.current_organization", sample.orgB.ID.String),
        ("app.current_organization", sample.orgA.ID.String)],
      [⟨2, [("app.current_organization", sample.orgA.ID.String)]⟩, ⟨1, []⟩], 3⟩
    ⟨[("app.current_organization", sample.orgB.ID.String),
        ("app.current_organization", sample.orgA.ID.String)],
      [⟨2, [("app.current_organization", sample.orgA.ID.String)]⟩, ⟨1, []⟩], 3⟩
    ⟨[("app.current_organization", sample.orgB.ID.String),
        ("app.current_organization", sample.orgA.ID.String)],
      [⟨1, []⟩], 3⟩
    rfl rfl (by decide) (by decide) rfl (by decide)
    (fun p hp hsv => by
      have hp1 : p = 1 := by
        have h1 : psqlfx.TxFromContext (domain.ContextWithOrganization
            (psqlfx.ContextWithTx sample.ctxA (some 1)) (some sample.orgB)) = some 1 := by
          decide
        rw [h1] at hp
        exact (Option.some.inj hp).symm
      subst hp1
      decide)).1

end rlsfx

/-! ## Error responses -/

namespace errors

mutual
theorem asDomainError_none : ∀ e : GoError,
    (∀ x ∈ chain e, x.isDomainError = false) → asDomainError e = none
  | .errorString t => fun _ => rfl
  | .errorsNew i t => fun _ => rfl
  | .pgError p => fun _ => rfl
  | .nilPgError => fun _ => rfl
  | .domainError c m none => fun h => by
    have := h (.domainError c m none) (by simp [chain])
    simp [GoError.isDomainError] at this
  | .domainError c m (some e) => fun h => by
    have := h (.domainError c m (some e)) (by simp [chain])
    simp [GoError.isDomainError] at this
  | .wrapError t e => fun h => by
    have ih := asDomainError_none e (fun x hx => h x (by simp [chain, hx]))
    simp [asDomainError, ih]
  | .joinError es => fun h => by
    have ih := asDomainErrorList_none es (fun x hx => h x (by simp [chain, hx]))
    simp [asDomainError, ih]
theorem asDomainErrorList_none : ∀ es : List GoError,
    (∀ x ∈ chainList es, x.isDomainError = false) → asDomainErrorList es = none
  | [] => fun _ => rfl
  | e :: es => fun h => by
    have ih1 := asDomainError_none e (fun x hx => h x (by simp [chainList, hx]))
    have ih2 := asDomainErrorList_none es (fun x hx => h x (by simp [chainList, hx]))
    simp [asDomainErrorList, ih1, ih2]
end

end errors

namespace transporthttp

/-- C18: for a domain error, `WriteError` answers with the status of its code
(404, 409, 400, 403 and 422 for the five codes, 500 for any other code), the
body carries that status, the code and the message of the error; for an error
without a domain error in its chain the status is 500 and the body carries no
code, no detail and no error text. -/
theorem WriteError_status (errorText : GoError → String) (r : Request) (c : Code) (m : String)
    (w : Option GoError) (e : GoError)
    (hnon : ∀ x ∈ errors.chain e, x.isDomainError = false) :
    (WriteError errorText r (some (.domainError c m w))).1.StatusCode
      = (if c = "NOT_FOUND" then 404 else if c = "CONFLICT" then 409
         else if c = "VALIDATION" then 400 else if c = "FORBIDDEN" then 403
         else if c = "INVARIANT_VIOLATED" then 422 else 500)
    ∧ (WriteError errorText r (some (.domainError c m w))).1.Body.Status
      = (WriteError errorText r (some (.domainError c m w))).1.StatusCode
    ∧ (WriteError errorText r (some (.domainError c m w))).1.Body.Code = c
    ∧ (WriteError errorText r (some (.domainError c m w))).1.Body.Detail = m
    ∧ (WriteError errorText r (some e)).1
      = ⟨"application/problem+json", 500, ⟨500, "", "", r.Path, r.RequestID, []⟩⟩ := by
  have hdom : (WriteError errorText r (some (.domainError c m w))).1
      = renderProblemJSON ⟨(match statusFromCode c with
          | some status => status
          | none => 500), c, m, r.Path, r.RequestID,
          (match w with
          | some (.joinError es) => es.map errorText
          | _ => [])⟩ := by
    cases w with
    | none => rfl
    | some w => cases w <;> rfl
  have hnone : (WriteError errorText r (some e)).1
      = ⟨"application/problem+json", 500, ⟨500, "", "", r.Path, r.RequestID, []⟩⟩ := by
    simp [WriteError, errors.asDomainError_none e hnon, renderProblemJSON]
  rw [hdom]
  refine ⟨?_, rfl, rfl, rfl, hnone⟩
  simp only [renderProblemJSON, statusFromCode, domain.CodeNotFound, domain.CodeConflict,
    domain.CodeValidation, domain.CodeForbidden, domain.CodeInvariant]
  by_cases h1 : c = "NOT_FOUND"
  · simp [h1]
  · by_cases h2 : c = "CONFLICT"
    · simp [h2]
    · by_cases h3 : c = "VALIDATION"
      · simp [h3]
      · by_cases h4 : c = "FORBIDDEN"
        · simp [h4]
        · by_cases h5 : c = "INVARIANT_VIOLATED" <;> simp [h1, h2, h3, h4, h5]

theorem WriteError_status_witness :
    (WriteError (fun _ => "") ⟨"/orders/1", ""⟩
      (some (GoError.pgError ⟨"42P01", "relation does not exist"⟩))).1
      = ⟨"application/problem+json", 500, ⟨500, "", "", "/orders/1", "", []⟩⟩ :=
  (WriteError_status (fun _ => "") ⟨"/orders/1", ""⟩ "NOT_FOUND" "not found" none
    (GoError.pgError ⟨"42P01", "relation does not exist"⟩)
    (by
      intro x hx
      simp [errors.chain] at hx
      subst hx
      rfl)).2.2.2.2

end transporthttp

/-! ## String enums -/

namespace datatype

/-- C20: for every enum value `e`: when `e` is valid, `ValueStringEnum(e)` returns
`(string(e), nil)` and `ScanStringEnum` of that value stores `e`; when `e` is
not valid, `ValueStringEnum(e)` returns nil and an error and `ScanStringEnum`
of the string `e` fails and leaves the destination as it was; and
`ScanStringEnum` of a `[]byte`, of an `int` or of nil fails and leaves the
destination as it was. -/
theorem StringEnum_round_trip (IsValid : String → Bool) (typeName : String) (e ptr : String)
    (b : List (Fin 256)) (n : Int) :
    (IsValid e = true →
      ValueStringEnum IsValid typeName e = (.string e, none)
      ∧ ScanStringEnum IsValid typeName ptr (ValueStringEnum IsValid typeName e).1 = (e, none))
    ∧ (IsValid e = false →
      (ValueStringEnum IsValid typeName e).1 = .null
      ∧ (ValueStringEnum IsValid typeName e).2 ≠ none
      ∧ (ScanStringEnum IsValid typeName ptr (.string e)).1 = ptr
      ∧ (ScanStringEnum IsValid typeName ptr (.string e)).2 ≠ none)
    ∧ (ScanStringEnum IsValid typeName ptr (.bytes b)).1 = ptr
    ∧ (ScanStringEnum IsValid typeName ptr (.bytes b)).2 ≠ none
    ∧ (ScanStringEnum IsValid typeName ptr (.int n)).1 = ptr
    ∧ (ScanStringEnum IsValid typeName ptr (.int n)).2 ≠ none
    ∧ (ScanStringEnum IsValid typeName ptr .null).1 = ptr
    ∧ (ScanStringEnum IsValid typeName ptr .null).2 ≠ none
    ∧ ScanStringEnum sample.testEnumIsValid "datatype.testEnum" ""
        (ValueStringEnum sample.testEnumIsValid "datatype.testEnum" "foo").1 = ("foo", none) := by
  refine ⟨?_, ?_, rfl, by simp [ScanStringEnum], rfl, by simp [ScanStringEnum], rfl,
    by simp [ScanStringEnum], by decide⟩
  · intro hv
    simp [ValueStringEnum, ScanStringEnum, FromString, hv]
  · intro hv
    simp [ValueStringEnum, ScanStringEnum, FromString, hv]

end datatype

/-! ## The calls that `Tx` makes on the pool and on the handles -/

namespace rlsfx

open pgx (Driver Call Recorded)

theorem recording_complete_calls {S : Type} (db : DB S) (parent : Option Handle) (tx : Handle)
    (savedValue : String) (out : Outcome (Option GoError)) (w4 : Recorded S) :
    (db.recording.complete parent tx savedValue (out, w4)).2.calls
      = w4.calls ++ db.exitCalls parent tx savedValue (succeeded out)
          (db.recording.pool.Commit tx w4).1.isNone := by
  cases out with
  | panicked msg => rfl
  | ret r =>
    cases r with
    | some e => rfl
    | none =>
      simp only [DB.complete, DB.commitAndRestore, succeeded, DB.exitCalls, if_true]
      rcases hc : db.recording.pool.Commit tx w4 with ⟨rc, w5⟩
      have h5 : w5.calls = w4.calls ++ [Call.Commit tx] :=
        (congrArg (fun r => r.2.calls) hc).symm
      cases rc with
      | some e =>
        show w5.calls ++ [Call.Rollback tx] = _
        rw [h5]; simp
      | none =>
        cases parent with
        | none =>
          show w5.calls ++ [Call.Rollback tx] = _
          rw [h5]; simp
        | some p =>
          by_cases hsv : savedValue = ""
          · simp only [hsv, ne_eq, not_true_eq_false, if_false, Option.isNone_none, if_true]
            show w5.calls ++ [Call.Rollback tx] = _
            rw [h5]; simp
          · simp only [hsv, ne_eq, not_false_eq_true, if_true, Option.isNone_none]
            rcases he : db.recording.pool.Exec p (db.recording.setLocal savedValue) w5
              with ⟨re, w6⟩
            have h6 : w6.calls = w5.calls ++ [Call.Exec p (db.setLocal savedValue)] :=
              (congrArg (fun r => r.2.calls) he).symm
            cases re with
            | some e =>
              show w6.calls ++ [Call.Rollback tx] = _
              rw [h6, h5]; simp
            | none =>
              show w6.calls ++ [Call.Rollback tx] = _
              rw [h6, h5]; simp

theorem recording_entry_eq {S : Type} (db : DB S) (parent : Option Handle) (tx : Handle)
    (value savedValue : String) (w w1 w2 w3 : Recorded S) (r : Option GoError)
    (hbegin : db.recording.begin parent w = (.ok tx, w1))
    (hread : db.recording.readSavedValue parent tx w1 = (savedValue, w2))
    (hset : db.recording.pool.Exec tx (db.recording.setLocal value)
      (db.recording.logApplying w2) = (r, w3)) :
    w3.calls = w.calls ++ db.entryCalls parent tx value := by
  rw [recording_entry_calls db parent tx value savedValue w w1 w2 w3 r hbegin hread hset]
  cases parent <;> simp [DB.entryCalls, beginCall]

/-- The calls of `Tx` around an invocation of `fn`: those before it and those
after `fn` came back. -/
theorem recording_Tx_trace {S : Type} (db : DB S) (ctx : Context) (fn : Work (Recorded S))
    (org : domain.Organization) (tx : Handle) (savedValue : String)
    (w w1 w2 w3 w4 : Recorded S) (out : Outcome (Option GoError))
    (horg : domain.OrganizationFromContext ctx = (some org, none))
    (hbegin : db.recording.begin (psqlfx.TxFromContext ctx) w = (.ok tx, w1))
    (hread : db.recording.readSavedValue (psqlfx.TxFromContext ctx) tx w1 = (savedValue, w2))
    (hset : db.recording.pool.Exec tx (db.recording.setLocal org.ID.String)
      (db.recording.logApplying w2) = (none, w3))
    (hfn : fn (psqlfx.ContextWithTx ctx (some tx)) tx w3 = (out, w4)) :
    w3.calls = w.calls ++ db.entryCalls (psqlfx.TxFromContext ctx) tx org.ID.String
    ∧ (db.recording.Tx ctx fn w).2.calls
        = w4.calls ++ db.exitCalls (psqlfx.TxFromContext ctx) tx savedValue (succeeded out)
            (db.recording.pool.Commit tx w4).1.isNone := by
  refine ⟨recording_entry_eq db _ tx _ savedValue w w1 w2 w3 none hbegin hread hset, ?_⟩
  rw [Tx_eq_complete db.recording ctx fn org tx savedValue w w1 w2 w3 horg hbegin hread hset, hfn]
  exact recording_complete_calls db _ tx savedValue out w4

/-- A call of `Tx` whose `SET LOCAL` fails. -/
theorem recording_Tx_set_error {S : Type} (db : DB S) (ctx : Context) (fn : Work (Recorded S))
    (org : domain.Organization) (tx : Handle) (savedValue : String)
    (w w1 w2 w3 : Recorded S) (e : GoError)
    (horg : domain.OrganizationFromContext ctx = (some org, none))
    (hbegin : db.recording.begin (psqlfx.TxFromContext ctx) w = (.ok tx, w1))
    (hread : db.recording.readSavedValue (psqlfx.TxFromContext ctx) tx w1 = (savedValue, w2))
    (hset : db.recording.pool.Exec tx (db.recording.setLocal org.ID.String)
      (db.recording.logApplying w2) = (some e, w3)) :
    db.recording.Tx ctx fn w = (.ret (some e), (db.recording.pool.Rollback tx w3).2)
    ∧ (db.recording.Tx ctx fn w).2.calls
        = w.calls ++ db.entryCalls (psqlfx.TxFromContext ctx) tx org.ID.String
          ++ [Call.Rollback tx] := by
  have hT : db.recording.Tx ctx fn w
      = (.ret (some e), (db.recording.pool.Rollback tx w3).2) := by
    simp only [DB.Tx, horg, hbegin, DB.scoped, hread, hset]
  refine ⟨hT, ?_⟩
  rw [hT, ← recording_entry_eq db _ tx _ savedValue w w1 w2 w3 (some e) hbegin hread hset]
  rfl

theorem recording_Tx_begin_error {S : Type} (db : DB S) (ctx : Context) (fn : Work (Recorded S))
    (org : domain.Organization) (w w1 : Recorded S) (e : GoError)
    (horg : domain.OrganizationFromContext ctx = (some org, none))
    (hbegin : db.recording.begin (psqlfx.TxFromContext ctx) w = (.error e, w1)) :
    db.recording.Tx ctx fn w = (.ret (some e), w1)
    ∧ w1.calls = w.calls ++ [beginCall (psqlfx.TxFromContext ctx)] := by
  refine ⟨by simp only [DB.Tx, horg, hbegin], ?_⟩
  have h := recording_begin_calls db (psqlfx.TxFromContext ctx) w
  rw [hbegin] at h
  rw [h]
  cases psqlfx.TxFromContext ctx <;> rfl


theorem entryCalls_begins {S : Type} (db : DB S) (parent : Option Handle) (tx : Handle)
    (value : String) :
    (db.entryCalls parent tx value).filter Call.isBegin = [beginCall parent] := by
  cases parent <;> rfl

/-- The calls after `fn` came back, one by one. -/
theorem mem_exitCalls {S : Type} (db : DB S) (parent : Option Handle) (tx : Handle)
    (savedValue : String) (fnOk commitOk : Bool) (c : Call) :
    c ∈ db.exitCalls parent tx savedValue fnOk commitOk
      ↔ c = Call.Rollback tx
        ∨ (fnOk = true ∧ c = Call.Commit tx)
        ∨ (fnOk = true ∧ commitOk = true ∧ savedValue ≠ ""
            ∧ ∃ p, parent = some p ∧ c = Call.Exec p (db.setLocal savedValue)) := by
  unfold DB.exitCalls
  by_cases hsv : savedValue = ""
  · cases fnOk <;> cases commitOk <;> cases parent <;> simp [hsv] <;> tauto
  · cases fnOk <;> cases commitOk <;> cases parent <;> simp [hsv] <;> tauto

theorem exitCalls_begins {S : Type} (db : DB S) (parent : Option Handle) (tx : Handle)
    (savedValue : String) (fnOk commitOk : Bool) :
    (db.exitCalls parent tx savedValue fnOk commitOk).filter Call.isBegin = [] := by
  rw [List.filter_eq_nil_iff]
  intro c hc
  rcases (mem_exitCalls db parent tx savedValue fnOk commitOk c).1 hc with
    h | ⟨_, h⟩ | ⟨_, _, _, p, _, h⟩ <;> rw [h] <;> simp [Call.isBegin]

theorem exitCalls_ends {S : Type} (db : DB S) (parent : Option Handle) (tx : Handle)
    (savedValue : String) (fnOk commitOk : Bool) :
    ∀ c ∈ db.exitCalls parent tx savedValue fnOk commitOk,
      c.isEnd = true → c.handle = some tx := by
  intro c hc he
  rcases (mem_exitCalls db parent tx savedValue fnOk commitOk c).1 hc with
    h | ⟨_, h⟩ | ⟨_, _, _, p, _, h⟩
  · rw [h]; rfl
  · rw [h]; rfl
  · rw [h] at he; cases he

theorem entryCalls_ends {S : Type} (db : DB S) (parent : Option Handle) (tx : Handle)
    (value : String) :
    ∀ c ∈ db.entryCalls parent tx value, c.isEnd = false := by
  intro c hc
  cases parent <;> simp [DB.entryCalls, beginCall] at hc
  · rcases hc with h | h <;> rw [h] <;> rfl
  · rcases hc with h | h | h <;> rw [h] <;> rfl

/-! ### Claims about the calls -/

/-- C23: for a context bound to a tenant, the call with which `DB.Tx` acquires
its handle is `Begin` on the pool when `TxFromContext(ctx)` is nil and `Begin`
on the handle `p` when `TxFromContext(ctx)` is `p`; on the call-recording
double it is the first call, and among the calls that `DB.Tx` itself makes,
before `fn` and after `fn` came back, whether the `SET LOCAL` fails or not, it
is the only `Begin`, on the pool or on any handle. When that `Begin` fails,
`DB.Tx` returns its error with no further call, for every `fn`, so `fn` is not
invoked. -/
theorem Tx_begin_rule {S : Type} (db : DB S) (ctx : Context) (fn : Work (Recorded S))
    (org : domain.Organization) (tx : Handle) (savedValue : String)
    (w w1 w2 w3 : Recorded S) (r : Option GoError)
    (horg : domain.OrganizationFromContext ctx = (some org, none))
    (hbegin : db.recording.begin (psqlfx.TxFromContext ctx) w = (.ok tx, w1))
    (hread : db.recording.readSavedValue (psqlfx.TxFromContext ctx) tx w1 = (savedValue, w2))
    (hset : db.recording.pool.Exec tx (db.recording.setLocal org.ID.String)
      (db.recording.logApplying w2) = (r, w3)) :
    (psqlfx.TxFromContext ctx = none → beginCall (psqlfx.TxFromContext ctx) = Call.PoolBegin)
    ∧ (∀ p, psqlfx.TxFromContext ctx = some p →
        beginCall (psqlfx.TxFromContext ctx) = Call.Begin p)
    ∧ w1.calls = w.calls ++ [beginCall (psqlfx.TxFromContext ctx)]
    ∧ w3.calls = w.calls ++ db.entryCalls (psqlfx.TxFromContext ctx) tx org.ID.String
    ∧ (db.entryCalls (psqlfx.TxFromContext ctx) tx org.ID.String).filter Call.isBegin
        = [beginCall (psqlfx.TxFromContext ctx)]
    ∧ (∀ e, r = some e →
        (db.recording.Tx ctx fn w).2.calls = w3.calls ++ [Call.Rollback tx])
    ∧ (r = none → ∀ out w4, fn (psqlfx.ContextWithTx ctx (some tx)) tx w3 = (out, w4) →
        (db.recording.Tx ctx fn w).2.calls
          = w4.calls ++ db.exitCalls (psqlfx.TxFromContext ctx) tx savedValue (succeeded out)
              (db.recording.pool.Commit tx w4).1.isNone
        ∧ (db.exitCalls (psqlfx.TxFromContext ctx) tx savedValue (succeeded out)
              (db.recording.pool.Commit tx w4).1.isNone).filter Call.isBegin = [])
    ∧ (∀ (c : Context) (work : Work (Recorded S)) (v v1 : Recorded S) (e : GoError),
        (∃ o, domain.OrganizationFromContext c = (some o, none)) →
        db.recording.begin (psqlfx.TxFromContext c) v = (.error e, v1) →
        db.recording.Tx c work v = (.ret (some e), v1)
        ∧ v1.calls = v.calls ++ [beginCall (psqlfx.TxFromContext c)]) := by
  refine ⟨fun h => by rw [h]; rfl, fun p h => by rw [h]; rfl, ?_,
    recording_entry_eq db _ tx _ savedValue w w1 w2 w3 r hbegin hread hset,
    entryCalls_begins db _ tx _, ?_, ?_, ?_⟩
  · have h := recording_begin_calls db (psqlfx.TxFromContext ctx) w
    rw [hbegin] at h
    rw [h]
    cases psqlfx.TxFromContext ctx <;> rfl
  · intro e he
    subst he
    have h := (recording_Tx_set_error db ctx fn org tx savedValue w w1 w2 w3 e
      horg hbegin hread hset).1
    rw [h]; rfl
  · intro hr out w4 hfn
    subst hr
    exact ⟨(recording_Tx_trace db ctx fn org tx savedValue w w1 w2 w3 w4 out
      horg hbegin hread hset hfn).2, exitCalls_begins db _ tx _ _ _⟩
  · intro c work v v1 e ⟨o, ho⟩ hb
    exact recording_Tx_begin_error db c work o v v1 e ho hb

theorem Tx_begin_rule_witness :
    (sample.db.recording.Tx sample.ctxNested (sample.succeeding _) sample.nestedStart).2.calls
      = [Call.Begin 1,
         Call.QueryRowScan 2 "SELECT current_setting($1, true)" ["app.current_organization"],
         Call.Exec 2 "SET LOCAL app.current_organization = \x271c1c1c1c-1c1c-1c1c-1c1c-1c1c1c1c1c1c\x27",
         Call.Commit 2,
         Call.Exec 1 "SET LOCAL app.current_organization = \x27abababab-abab-abab-abab-abababababab\x27",
         Call.Rollback 2]
    ∧ sample.db.recording.Tx sample.ctxA (sample.succeeding _) sample.nestedStart
      = (.ret (some postgres.busyError), ⟨sample.inScopeA, [Call.PoolBegin]⟩) := by
  have h := Tx_begin_rule sample.db sample.ctxNested (sample.succeeding _) sample.orgB 2
    sample.orgA.ID.String sample.nestedStart
    (sample.db.recording.begin (some 1) sample.nestedStart).2
    (sample.db.recording.readSavedValue (some 1) 2
      (sample.db.recording.begin (some 1) sample.nestedStart).2).2
    (sample.db.recording.pool.Exec 2 (sample.db.recording.setLocal sample.orgB.ID.String)
      (sample.db.recording.readSavedValue (some 1) 2
        (sample.db.recording.begin (some 1) sample.nestedStart).2).2).2
    none rfl rfl (by decide) (by decide)
  refine ⟨?_, ?_⟩
  · rw [(h.2.2.2.2.2.2.1 rfl _ _ rfl).1]
    decide
  · exact (h.2.2.2.2.2.2.2 sample.ctxA (sample.succeeding _) sample.nestedStart
      ⟨sample.inScopeA, [Call.PoolBegin]⟩ postgres.busyError ⟨sample.orgA, rfl⟩ rfl).1

/-- C25: once `fn` came back, the calls of `DB.Tx` on the call-recording double
contain a statement, on whatever handle, exactly when the call is nested, `fn`
returned nil, the `Commit` returned nil and the value read before the variable
was overwritten is not empty; the statement is then
`"SET LOCAL " + schema + "." + field + " = " + QuoteLiteral(saved)` on the
parent, and the calls are the `Commit`, that statement and the deferred
`Rollback`, in this order. So a top-level call, a `fn` that fails or panics, a
failed `Commit` or an empty saved value issue no restore statement. -/
theorem Tx_restore_rule {S : Type} (db : DB S) (ctx : Context) (fn : Work (Recorded S))
    (org : domain.Organization) (tx : Handle) (savedValue : String)
    (w w1 w2 w3 w4 : Recorded S) (out : Outcome (Option GoError))
    (horg : domain.OrganizationFromContext ctx = (some org, none))
    (hbegin : db.recording.begin (psqlfx.TxFromContext ctx) w = (.ok tx, w1))
    (hread : db.recording.readSavedValue (psqlfx.TxFromContext ctx) tx w1 = (savedValue, w2))
    (hset : db.recording.pool.Exec tx (db.recording.setLocal org.ID.String)
      (db.recording.logApplying w2) = (none, w3))
    (hfn : fn (psqlfx.ContextWithTx ctx (some tx)) tx w3 = (out, w4)) :
    ∃ exit, (db.recording.Tx ctx fn w).2.calls = w4.calls ++ exit
      ∧ (∀ (h : Handle) (sql : String), Call.Exec h sql ∈ exit ↔
          (psqlfx.TxFromContext ctx = some h ∧ out = .ret none
            ∧ (db.recording.pool.Commit tx w4).1 = none ∧ savedValue ≠ ""
            ∧ sql = "SET LOCAL " ++ (db.schema ++ "." ++ db.field) ++ " = "
                ++ psqlfx.QuoteLiteral savedValue))
      ∧ (∀ p, psqlfx.TxFromContext ctx = some p → out = .ret none →
          (db.recording.pool.Commit tx w4).1 = none → savedValue ≠ "" →
          exit = [Call.Commit tx, Call.Exec p (db.setLocal savedValue), Call.Rollback tx]) := by
  refine ⟨_, (recording_Tx_trace db ctx fn org tx savedValue w w1 w2 w3 w4 out
      horg hbegin hread hset hfn).2, ?_, ?_⟩
  · intro h sql
    rw [mem_exitCalls]
    have hs : succeeded out = true ↔ out = .ret none := by
      cases out with
      | panicked msg => simp [succeeded]
      | ret r => cases r <;> simp [succeeded]
    constructor
    · rintro (hc | ⟨_, hc⟩ | ⟨hf, hcm, hsv, p, hp, hc⟩)
      · cases hc
      · cases hc
      · injection hc with h1 h2
        subst h1
        exact ⟨hp, hs.1 hf, Option.isNone_iff_eq_none.1 hcm, hsv, h2⟩
    · rintro ⟨hp, hf, hcm, hsv, hsql⟩
      refine Or.inr (Or.inr ⟨hs.2 hf, Option.isNone_iff_eq_none.2 hcm, hsv, h, hp, ?_⟩)
      rw [hsql]; rfl
  · intro p hp hf hcm hsv
    rw [hp, hf, hcm]
    simp [DB.exitCalls, succeeded, hsv]

theorem Tx_restore_rule_witness :
    ∃ exit,
      (sample.db.recording.Tx sample.ctxNested (sample.succeeding _) sample.nestedStart).2.calls
        = [Call.Begin 1,
           Call.QueryRowScan 2 "SELECT current_setting($1, true)" ["app.current_organization"],
           Call.Exec 2 "SET LOCAL app.current_organization = \x271c1c1c1c-1c1c-1c1c-1c1c-1c1c1c1c1c1c\x27"]
          ++ exit
      ∧ exit = [Call.Commit 2,
          Call.Exec 1 "SET LOCAL app.current_organization = \x27abababab-abab-abab-abab-abababababab\x27",
          Call.Rollback 2] := by
  obtain ⟨exit, h1, _, h3⟩ := Tx_restore_rule sample.db sample.ctxNested (sample.succeeding _)
    sample.orgB 2 sample.orgA.ID.String sample.nestedStart
    (sample.db.recording.begin (some 1) sample.nestedStart).2
    (sample.db.recording.readSavedValue (some 1) 2
      (sample.db.recording.begin (some 1) sample.nestedStart).2).2
    (sample.db.recording.pool.Exec 2 (sample.db.recording.setLocal sample.orgB.ID.String)
      (sample.db.recording.readSavedValue (some 1) 2
        (sample.db.recording.begin (some 1) sample.nestedStart).2).2).2
    (sample.db.recording.pool.Exec 2 (sample.db.recording.setLocal sample.orgB.ID.String)
      (sample.db.recording.readSavedValue (some 1) 2
        (sample.db.recording.begin (some 1) sample.nestedStart).2).2).2
    (.ret none) rfl rfl (by decide) (by decide) rfl
  refine ⟨exit, ?_, ?_⟩
  · rw [h1]
    exact congrArg (· ++ exit) (by decide)
  · rw [h3 1 rfl rfl (by decide) (by decide)]
    decide

/-- C27: on every path on which `DB.Tx` acquired the handle `tx`, whatever `fn`
does (return, fail or panic), the result of `DB.Tx` is the one fixed by the
steps before the deferred `Rollback`, the state is the one that `Rollback` on
`tx` leaves, and on the call-recording double that `Rollback` is the last
call; its own result appears nowhere. When the `SET LOCAL` fails with `e`,
`DB.Tx` returns exactly `e` for every `fn` with the same calls, the `Begin`,
the read of a nested call, the `SET LOCAL` and the `Rollback`: `fn` is not
invoked and `Commit` is not called. -/
theorem Tx_always_rolls_back {S : Type} (db : DB S) (ctx : Context)
    (org : domain.Organization) (tx : Handle) (w w1 : Recorded S)
    (horg : domain.OrganizationFromContext ctx = (some org, none))
    (hbegin : db.recording.begin (psqlfx.TxFromContext ctx) w = (.ok tx, w1)) :
    (∀ fn : Work (Recorded S),
      db.recording.Tx ctx fn w
        = ((db.recording.scoped ctx fn (some org) (psqlfx.TxFromContext ctx) tx w1).1,
           (db.recording.pool.Rollback tx
             (db.recording.scoped ctx fn (some org) (psqlfx.TxFromContext ctx) tx w1).2).2)
      ∧ (db.recording.Tx ctx fn w).2.calls
        = (db.recording.scoped ctx fn (some org) (psqlfx.TxFromContext ctx) tx w1).2.calls
          ++ [Call.Rollback tx])
    ∧ (∀ (savedValue : String) (w2 w3 : Recorded S) (e : GoError),
        db.recording.readSavedValue (psqlfx.TxFromContext ctx) tx w1 = (savedValue, w2) →
        db.recording.pool.Exec tx (db.recording.setLocal org.ID.String)
          (db.recording.logApplying w2) = (some e, w3) →
        ∀ fn : Work (Recorded S),
          db.recording.Tx ctx fn w = (.ret (some e), (db.recording.pool.Rollback tx w3).2)
          ∧ (db.recording.Tx ctx fn w).2.calls
            = w.calls ++ db.entryCalls (psqlfx.TxFromContext ctx) tx org.ID.String
              ++ [Call.Rollback tx]
          ∧ Call.Commit tx ∉ db.entryCalls (psqlfx.TxFromContext ctx) tx org.ID.String
              ++ [Call.Rollback tx]) := by
  constructor
  · intro fn
    have hT : db.recording.Tx ctx fn w
        = ((db.recording.scoped ctx fn (some org) (psqlfx.TxFromContext ctx) tx w1).1,
           (db.recording.pool.Rollback tx
             (db.recording.scoped ctx fn (some org) (psqlfx.TxFromContext ctx) tx w1).2).2) := by
      simp only [DB.Tx, horg, hbegin]
    exact ⟨hT, by rw [hT]; rfl⟩
  · intro savedValue w2 w3 e hread hset fn
    have h := recording_Tx_set_error db ctx fn org tx savedValue w w1 w2 w3 e
      horg hbegin hread hset
    refine ⟨h.1, h.2, ?_⟩
    intro hm
    rw [List.mem_append] at hm
    rcases hm with hm | hm
    · have := entryCalls_ends db _ tx _ _ hm
      cases this
    · simp at hm

theorem Tx_always_rolls_back_witness :
    sample.droppingDB.recording.Tx sample.ctxA (sample.succeeding _) ⟨1, []⟩
      = (.ret (some sample.connectionLost),
          ⟨2, [Call.PoolBegin,
            Call.Exec 1 "SET LOCAL app.current_organization = \x27abababab-abab-abab-abab-abababababab\x27",
            Call.Rollback 1]⟩) := by
  have h := (Tx_always_rolls_back sample.droppingDB sample.ctxA sample.orgA 1 ⟨1, []⟩
    ⟨1, [Call.PoolBegin]⟩ rfl rfl).2 "" ⟨1, [Call.PoolBegin]⟩
    ⟨2, [Call.PoolBegin,
      Call.Exec 1 "SET LOCAL app.current_organization = \x27abababab-abab-abab-abab-abababababab\x27"]⟩
    sample.connectionLost rfl (by decide) (sample.succeeding _)
  rw [h.1]
  decide

end rlsfx

/-! ## Nested calls -/

namespace psqlfx

theorem TxFromContext_of_no_handle (ctx : Context) (h : ctx.hasTx = false) :
    TxFromContext ctx = none := by
  induction ctx with
  | Background => rfl
  | WithValue parent key val ih =>
    cases key with
    | txContextKey =>
      cases val with
      | tx t => simp [context.Context.hasTx] at h
      | organization o => simp [TxFromContext, context.Context.Value]
      | other v => simp [TxFromContext, context.Context.Value]
    | organizationContextKey =>
      simp only [context.Context.hasTx] at h
      have := ih h
      simpa [TxFromContext, context.Context.Value] using this
    | other name =>
      simp only [context.Context.hasTx] at h
      have := ih h
      simpa [TxFromContext, context.Context.Value] using this

theorem TxFromContext_ContextWithTx (ctx : Context) (tx : Option Handle) :
    TxFromContext (ContextWithTx ctx tx) = tx := by
  simp [TxFromContext, ContextWithTx, context.Context.Value]

theorem OrganizationFromContext_ContextWithTx (ctx : Context) (tx : Option Handle) :
    domain.OrganizationFromContext (ContextWithTx ctx tx) = domain.OrganizationFromContext ctx := by
  simp [domain.OrganizationFromContext, ContextWithTx, context.Context.Value]

end psqlfx

namespace rlsfx
open pgx (Driver Call Recorded)

/-- C22: in a call of `DB.Tx` on a context bound to the tenant `org` in which the
handle `tx` is acquired and the `SET LOCAL` succeeds, `fn` is invoked with the
context `ContextWithTx(ctx, tx)` and with `tx`; `TxFromContext` of that
context is `tx`, so it is not the parent `p` of a nested call whose handle
differs from `p`, and `OrganizationFromContext` of it is still `org`. On a
context in whose chain of ancestors `ContextWithTx` was never applied,
`TxFromContext` returns nil. -/
theorem Tx_context_carries_handle {S : Type} (db : DB S) (ctx : Context)
    (org : domain.Organization) (tx : Handle) (savedValue : String) (s s1 s2 s3 : S)
    (horg : domain.OrganizationFromContext ctx = (some org, none))
    (hbegin : db.begin (psqlfx.TxFromContext ctx) s = (.ok tx, s1))
    (hread : db.readSavedValue (psqlfx.TxFromContext ctx) tx s1 = (savedValue, s2))
    (hset : db.pool.Exec tx (db.setLocal org.ID.String) (db.logApplying s2) = (none, s3)) :
    (∀ fn : Work S, db.Tx ctx fn s
      = db.complete (psqlfx.TxFromContext ctx) tx savedValue
          (fn (psqlfx.ContextWithTx ctx (some tx)) tx s3))
    ∧ psqlfx.TxFromContext (psqlfx.ContextWithTx ctx (some tx)) = some tx
    ∧ (∀ p, psqlfx.TxFromContext ctx = some p → p ≠ tx →
        psqlfx.TxFromContext (psqlfx.ContextWithTx ctx (some tx)) ≠ some p)
    ∧ domain.OrganizationFromContext (psqlfx.ContextWithTx ctx (some tx)) = (some org, none)
    ∧ (∀ c : Context, c.hasTx = false → psqlfx.TxFromContext c = none) := by
  refine ⟨fun fn => Tx_eq_complete db ctx fn org tx savedValue s s1 s2 s3 horg hbegin hread hset,
    psqlfx.TxFromContext_ContextWithTx ctx _, ?_, ?_, psqlfx.TxFromContext_of_no_handle⟩
  · intro p _ hne h
    rw [psqlfx.TxFromContext_ContextWithTx] at h
    exact hne (Option.some.inj h).symm
  · rw [psqlfx.OrganizationFromContext_ContextWithTx, horg]

theorem Tx_context_carries_handle_witness :
    psqlfx.TxFromContext (psqlfx.ContextWithTx sample.ctxNested (some 2)) = some 2
    ∧ psqlfx.TxFromContext sample.ctxNested = some 1
    ∧ domain.OrganizationFromContext (psqlfx.ContextWithTx sample.ctxNested (some 2))
      = (some sample.orgB, none) :=
  have h := Tx_context_carries_handle sample.db sample.ctxNested sample.orgB 2
    sample.orgA.ID.String sample.inScopeA
    (sample.db.begin (some 1) sample.inScopeA).2
    (sample.db.begin (some 1) sample.inScopeA).2
    (sample.db.pool.Exec 2 (sample.db.setLocal sample.orgB.ID.String)
      (sample.db.begin (some 1) sample.inScopeA).2).2
    rfl rfl (by decide) (by decide)
  ⟨h.2.1, rfl, h.2.2.2.1⟩

theorem readSavedValue_of_error {S : Type} (db : DB S) (p tx : Handle) (s s2 : S)
    (savedValue : String) (e : GoError)
    (hq : (db.pool.QueryRowScan tx "SELECT current_setting($1, true)" [db.variable] s).1
      = .error e)
    (hread : db.readSavedValue (some p) tx s = (savedValue, s2)) :
    savedValue = "" := by
  unfold DB.readSavedValue at hread
  rcases hr : db.pool.QueryRowScan tx "SELECT current_setting($1, true)" [db.variable] s
    with ⟨res, s1⟩
  rw [hr] at hq hread
  simp only at hq
  subst hq
  simp only at hread
  cases hl : db.logger with
  | none => rw [hl] at hread; simp only at hread; exact (congrArg Prod.fst hread).symm
  | some l => rw [hl] at hread; simp only at hread; exact (congrArg Prod.fst hread).symm

theorem readSavedValue_of_empty {S : Type} (db : DB S) (p tx : Handle) (s s2 : S)
    (hq : db.pool.QueryRowScan tx "SELECT current_setting($1, true)" [db.variable] s
      = (.ok "", s2)) :
    db.readSavedValue (some p) tx s = ("", s2) := by
  simp only [DB.readSavedValue, hq]

/-- C26: in a nested `DB.Tx` call in which the read of the current value on the
new handle fails, with or without a logger, the saved value is the empty
string, the same as after a read that returned the empty string; the call
goes on: the `SET LOCAL` for the nested tenant is executed on the new handle
and every `fn` is invoked, and `DB.Tx` completes as it does with an empty saved
value. When `fn` returns nil and the `Commit` succeeds, `DB.Tx` returns nil
and the calls after `fn` are the `Commit` and the deferred `Rollback` only: no
restore statement is issued. -/
theorem Tx_read_best_effort {S : Type} (db : DB S) (ctx : Context) (fn : Work (Recorded S))
    (org : domain.Organization) (p tx : Handle) (savedValue : String)
    (w w1 w2 w3 w4 w5 : Recorded S) (e : GoError)
    (horg : domain.OrganizationFromContext ctx = (some org, none))
    (hparent : psqlfx.TxFromContext ctx = some p)
    (hbegin : db.recording.begin (psqlfx.TxFromContext ctx) w = (.ok tx, w1))
    (hq : (db.recording.pool.QueryRowScan tx "SELECT current_setting($1, true)"
      [db.recording.variable] w1).1 = .error e)
    (hread : db.recording.readSavedValue (psqlfx.TxFromContext ctx) tx w1 = (savedValue, w2))
    (hset : db.recording.pool.Exec tx (db.recording.setLocal org.ID.String)
      (db.recording.logApplying w2) = (none, w3))
    (hfn : fn (psqlfx.ContextWithTx ctx (some tx)) tx w3 = (.ret none, w4))
    (hcommit : db.recording.pool.Commit tx w4 = (none, w5)) :
    savedValue = ""
    ∧ db.recording.Tx ctx fn w = (.ret none, (db.recording.pool.Rollback tx w5).2)
    ∧ w3.calls = w.calls ++ [Call.Begin p,
        Call.QueryRowScan tx "SELECT current_setting($1, true)" [db.variable],
        Call.Exec tx (db.setLocal org.ID.String)]
    ∧ (db.recording.Tx ctx fn w).2.calls = w4.calls ++ [Call.Commit tx, Call.Rollback tx]
    ∧ (∀ work : Work (Recorded S), db.recording.Tx ctx work w
        = db.recording.complete (some p) tx ""
            (work (psqlfx.ContextWithTx ctx (some tx)) tx w3))
    ∧ (∀ v v2 : Recorded S,
        db.recording.pool.QueryRowScan tx "SELECT current_setting($1, true)"
          [db.recording.variable] v = (.ok "", v2) →
        db.recording.readSavedValue (some p) tx v = ("", v2)) := by
  have hsv : savedValue = "" := by
    rw [hparent] at hread
    exact readSavedValue_of_error db.recording p tx w1 w2 savedValue e hq hread
  subst hsv
  have hcr : db.recording.commitAndRestore (some p) tx "" w4 = (.ret none, w5) := by
    simp [DB.commitAndRestore, hcommit]
  have hT : ∀ work : Work (Recorded S), db.recording.Tx ctx work w
      = db.recording.complete (some p) tx ""
          (work (psqlfx.ContextWithTx ctx (some tx)) tx w3) := by
    intro work
    have h := Tx_eq_complete db.recording ctx work org tx "" w w1 w2 w3 horg hbegin hread hset
    rw [hparent] at h
    exact h
  have hfinal : db.recording.Tx ctx fn w
      = (.ret none, (db.recording.pool.Rollback tx w5).2) := by
    rw [hT fn, hfn]
    simp only [DB.complete, hcr]
  refine ⟨rfl, hfinal, ?_, ?_, hT, ?_⟩
  · have h := recording_entry_eq db _ tx _ "" w w1 w2 w3 none hbegin hread hset
    rw [h, hparent]
    simp [DB.entryCalls, beginCall]
  · rw [hfinal]
    have h5 : w5.calls = w4.calls ++ [Call.Commit tx] :=
      (congrArg (fun r => r.2.calls) hcommit).symm
    show w5.calls ++ [Call.Rollback tx] = _
    rw [h5]; simp
  · intro v v2 hv
    exact readSavedValue_of_empty db.recording p tx v v2 hv

theorem Tx_read_best_effort_witness :
    sample.db.recording.Tx sample.ctxNested (sample.succeeding _) sample.unsetStart
      = (.ret none,
          ⟨⟨[("app.current_organization", sample.orgB.ID.String)], [⟨1, []⟩], 3⟩,
            [Call.Begin 1,
             Call.QueryRowScan 2 "SELECT current_setting($1, true)"
               ["app.current_organization"],
             Call.Exec 2 "SET LOCAL app.current_organization = \x271c1c1c1c-1c1c-1c1c-1c1c-1c1c1c1c1c1c\x27",
             Call.Commit 2, Call.Rollback 2]⟩) := by
  have h := Tx_read_best_effort sample.db sample.ctxNested (sample.succeeding _) sample.orgB 1 2 ""
    sample.unsetStart
    (sample.db.recording.begin (some 1) sample.unsetStart).2
    (sample.db.recording.readSavedValue (some 1) 2
      (sample.db.recording.begin (some 1) sample.unsetStart).2).2
    (sample.db.recording.pool.Exec 2 (sample.db.recording.setLocal sample.orgB.ID.String)
      (sample.db.recording.readSavedValue (some 1) 2
        (sample.db.recording.begin (some 1) sample.unsetStart).2).2).2
    (sample.db.recording.pool.Exec 2 (sample.db.recording.setLocal sample.orgB.ID.String)
      (sample.db.recording.readSavedValue (some 1) 2
        (sample.db.recording.begin (some 1) sample.unsetStart).2).2).2
    (sample.db.recording.pool.Commit 2
      (sample.db.recording.pool.Exec 2 (sample.db.recording.setLocal sample.orgB.ID.String)
        (sample.db.recording.readSavedValue (some 1) 2
          (sample.db.recording.begin (some 1) sample.unsetStart).2).2).2).2
    postgres.scanNullError rfl rfl rfl rfl (by decide) (by decide) rfl (by decide)
  rw [h.2.1]
  decide

end rlsfx

/-! ### Savepoints and the data -/
namespace postgres
namespace Ledger
open rlsfx

theorem writing_open (answer : String → List String → Ledger → Except GoError String)
    (tx : Handle) (stmts : List String) (l : Ledger) (h : l.isOpen tx = true) :
    sample.writing (driver answer) tx stmts l = { l with rows := l.rows ++ stmts } := by
  induction stmts generalizing l with
  | nil => simp [sample.writing]
  | cons q rest ih =>
    have hstep : sample.writing (driver answer) tx (q :: rest) l
        = sample.writing (driver answer) tx rest { l with rows := l.rows ++ [q] } := by
      simp [sample.writing, driver, exec, h]
    have h2 : ({ l with rows := l.rows ++ [q] } : Ledger).isOpen tx = true := h
    rw [hstep, ih _ h2]
    simp

theorem readSavedValue_state (answer : String → List String → Ledger → Except GoError String)
    (schema field : String) (parent : Option Handle) (tx : Handle) (l : Ledger) :
    (DB.readSavedValue ⟨driver answer, schema, field, none⟩ parent tx l).2 = l := by
  cases parent with
  | none => rfl
  | some p =>
    simp only [DB.readSavedValue, driver, queryRowScan]
    by_cases ho : l.isOpen tx = true
    · simp only [ho, if_true]
      generalize answer _ _ l = a
      cases a <;> rfl
    · simp [ho]

/-- A nested call whose unit of work fails and leaves the open scopes as it
found them: the visible effects are again those from before the call. -/
theorem nested_rollback (answer : String → List String → Ledger → Except GoError String)
    (schema field : String) (inner : domain.Organization) (ctx : Context) (p : Handle)
    (l l4 : Ledger) (g : Work Ledger) (e : GoError)
    (hctx : psqlfx.TxFromContext ctx = some p)
    (hopen : l.isOpen p = true)
    (hg : g (psqlfx.ContextWithTx (domain.ContextWithOrganization ctx (some inner))
        (some l.next)) l.next
        ⟨l.rows ++ [DB.setLocal ⟨driver answer, schema, field, none⟩ inner.ID.String],
          (l.next, l.rows) :: l.frames, l.committed, l.next + 1⟩ = (.ret (some e), l4))
    (hframes : l4.frames = (l.next, l.rows) :: l.frames) :
    DB.Tx ⟨driver answer, schema, field, none⟩
        (domain.ContextWithOrganization ctx (some inner)) g l
      = (.ret (some e), { l4 with rows := l.rows, frames := l.frames }) := by
  have hrs := readSavedValue_state answer schema field (some p) l.next
    ⟨l.rows, (l.next, l.rows) :: l.frames, l.committed, l.next + 1⟩
  rcases hr : DB.readSavedValue ⟨driver answer, schema, field, none⟩ (some p) l.next
    ⟨l.rows, (l.next, l.rows) :: l.frames, l.committed, l.next + 1⟩ with ⟨saved, l2⟩
  rw [hr] at hrs
  simp only at hrs
  subst hrs
  simp only [DB.Tx, rlsfx.OrganizationFromContext_ContextWithOrganization,
    rlsfx.TxFromContext_ContextWithOrganization, hctx]
  have hb : DB.begin ⟨driver answer, schema, field, none⟩ (some p) l
      = (.ok l.next, ⟨l.rows, (l.next, l.rows) :: l.frames, l.committed, l.next + 1⟩) := by
    simp [DB.begin, driver, begin, hopen]
  rw [hb]
  simp only [DB.scoped, hr, DB.logApplying]
  have hx : (driver answer).Exec l.next
      (DB.setLocal ⟨driver answer, schema, field, none⟩ inner.ID.String)
      ⟨l.rows, (l.next, l.rows) :: l.frames, l.committed, l.next + 1⟩
      = (none, ⟨l.rows ++ [DB.setLocal ⟨driver answer, schema, field, none⟩ inner.ID.String],
          (l.next, l.rows) :: l.frames, l.committed, l.next + 1⟩) := by
    simp [driver, exec, isOpen]
  rw [hx]
  simp only [hg]
  simp [driver, rollback, frame, outer, hframes]

/-- A top-level call whose unit of work succeeds and leaves its transaction open:
what is visible when the unit of work returns becomes durable. -/
theorem outer_commit (answer : String → List String → Ledger → Except GoError String)
    (schema field : String) (org : domain.Organization) (ctx : Context)
    (l l4 : Ledger) (g : Work Ledger)
    (hctx : psqlfx.TxFromContext ctx = none)
    (hidle : l.frames = [])
    (hg : g (psqlfx.ContextWithTx (domain.ContextWithOrganization ctx (some org))
        (some l.next)) l.next
        ⟨l.rows ++ [DB.setLocal ⟨driver answer, schema, field, none⟩ org.ID.String],
          [(l.next, l.rows)], l.committed, l.next + 1⟩ = (.ret none, l4))
    (hframes : l4.frames = [(l.next, l.rows)]) :
    DB.Tx ⟨driver answer, schema, field, none⟩
        (domain.ContextWithOrganization ctx (some org)) g l
      = (.ret none, { l4 with frames := [], committed := l4.rows }) := by
  simp only [DB.Tx, rlsfx.OrganizationFromContext_ContextWithOrganization,
    rlsfx.TxFromContext_ContextWithOrganization, hctx]
  have hb : DB.begin ⟨driver answer, schema, field, none⟩ none l
      = (.ok l.next, ⟨l.rows, [(l.next, l.rows)], l.committed, l.next + 1⟩) := by
    simp [DB.begin, driver, poolBegin, hidle]
  rw [hb]
  simp only [DB.scoped, DB.readSavedValue, DB.logApplying]
  have hx : (driver answer).Exec l.next
      (DB.setLocal ⟨driver answer, schema, field, none⟩ org.ID.String)
      ⟨l.rows, [(l.next, l.rows)], l.committed, l.next + 1⟩
      = (none, ⟨l.rows ++ [DB.setLocal ⟨driver answer, schema, field, none⟩ org.ID.String],
          [(l.next, l.rows)], l.committed, l.next + 1⟩) := by
    simp [driver, exec, isOpen]
  rw [hx]
  simp only [hg]
  simp [DB.commitAndRestore, driver, commit, rollback, frame, outer, hframes]

/-- The nested call of `nestedRollback`: it returns the error of its unit of work
and leaves the visible effects as they were before it. -/
theorem nested_failure (answer : String → List String → Ledger → Except GoError String)
    (schema field : String) (inner : domain.Organization) (mid : List String) (e : GoError)
    (ctx : Context) (visible before committed : List String) :
    DB.Tx ⟨driver answer, schema, field, none⟩
        (domain.ContextWithOrganization (psqlfx.ContextWithTx ctx (some 1)) (some inner))
        (sample.failingAfter ⟨driver answer, schema, field, none⟩ mid e)
        ⟨visible, [(1, before)], committed, 2⟩
      = (.ret (some e), ⟨visible, [(1, before)], committed, 3⟩) := by
  have hrs := readSavedValue_state answer schema field (some 1) 2
    ⟨visible, [(2, visible), (1, before)], committed, 3⟩
  rcases hr : DB.readSavedValue ⟨driver answer, schema, field, none⟩ (some 1) 2
    ⟨visible, [(2, visible), (1, before)], committed, 3⟩ with ⟨saved, l2⟩
  rw [hr] at hrs
  simp only at hrs
  subst hrs
  have hw := writing_open answer 2 mid
    ⟨visible ++ [DB.setLocal ⟨driver answer, schema, field, none⟩ inner.ID.String],
      [(2, visible), (1, before)], committed, 3⟩ (by simp [isOpen])
  simp only [DB.Tx, rlsfx.OrganizationFromContext_ContextWithOrganization,
    rlsfx.TxFromContext_ContextWithOrganization]
  have htx : psqlfx.TxFromContext (psqlfx.ContextWithTx ctx (some 1)) = some 1 := by
    simp [psqlfx.TxFromContext, psqlfx.ContextWithTx, Context.Value]
  rw [htx]
  have hb : DB.begin ⟨driver answer, schema, field, none⟩ (some 1)
      ⟨visible, [(1, before)], committed, 2⟩
      = (.ok 2, ⟨visible, [(2, visible), (1, before)], committed, 3⟩) := by
    simp [DB.begin, driver, begin, isOpen]
  rw [hb]
  simp only [DB.scoped, hr, DB.logApplying]
  have hx : (driver answer).Exec 2
      (DB.setLocal ⟨driver answer, schema, field, none⟩ inner.ID.String)
      ⟨visible, [(2, visible), (1, before)], committed, 3⟩
      = (none, ⟨visible ++ [DB.setLocal ⟨driver answer, schema, field, none⟩ inner.ID.String],
          [(2, visible), (1, before)], committed, 3⟩) := by
    simp [driver, exec, isOpen]
  rw [hx]
  simp only [sample.failingAfter, hw]
  simp [driver, rollback, frame, outer]


/-- The run of `nestedRollback`: the durable effects are those of the outer scope. -/
theorem nestedRollback_committed
    (answer : String → List String → Ledger → Except GoError String)
    (schema field : String) (outerOrg inner : domain.Organization)
    (pre mid post : List String) (e : GoError) (rows : List String) :
    DB.Tx ⟨driver answer, schema, field, none⟩
        (domain.ContextWithOrganization .Background (some outerOrg))
        (sample.nestedRollback ⟨driver answer, schema, field, none⟩ inner pre mid post e)
        (idle rows)
      = (.ret none,
          ⟨rows ++ [DB.setLocal ⟨driver answer, schema, field, none⟩ outerOrg.ID.String]
              ++ pre ++ post, [],
            rows ++ [DB.setLocal ⟨driver answer, schema, field, none⟩ outerOrg.ID.String]
              ++ pre ++ post, 3⟩) := by
  have hpre := writing_open answer 1 pre
    ⟨rows ++ [DB.setLocal ⟨driver answer, schema, field, none⟩ outerOrg.ID.String],
      [(1, rows)], rows, 2⟩ (by simp [isOpen])
  have hnest := nested_failure answer schema field inner mid e
    (domain.ContextWithOrganization .Background (some outerOrg))
    (rows ++ [DB.setLocal ⟨driver answer, schema, field, none⟩ outerOrg.ID.String] ++ pre)
    rows rows
  have hpost := writing_open answer 1 post
    ⟨rows ++ [DB.setLocal ⟨driver answer, schema, field, none⟩ outerOrg.ID.String] ++ pre,
      [(1, rows)], rows, 3⟩ (by simp [isOpen])
  simp only [DB.Tx, rlsfx.OrganizationFromContext_ContextWithOrganization,
    rlsfx.TxFromContext_ContextWithOrganization]
  have htx : psqlfx.TxFromContext .Background = none := rfl
  rw [htx]
  have hb : DB.begin ⟨driver answer, schema, field, none⟩ none (idle rows)
      = (.ok 1, ⟨rows, [(1, rows)], rows, 2⟩) := by
    simp [DB.begin, driver, poolBegin, idle]
  rw [hb]
  simp only [DB.scoped, DB.readSavedValue, DB.logApplying]
  have hx : (driver answer).Exec 1
      (DB.setLocal ⟨driver answer, schema, field, none⟩ outerOrg.ID.String)
      ⟨rows, [(1, rows)], rows, 2⟩
      = (none, ⟨rows ++ [DB.setLocal ⟨driver answer, schema, field, none⟩ outerOrg.ID.String],
          [(1, rows)], rows, 2⟩) := by
    simp [driver, exec, isOpen]
  rw [hx]
  simp only [sample.nestedRollback, hpre, hnest, hpost]
  simp [DB.commitAndRestore, driver, commit, rollback, frame, outer]

end Ledger
end postgres

namespace rlsfx
open pgx (Driver Call Recorded)

/-- C24 (amended): in a nested `DB.Tx` call on the parent `p` whose new handle `tx`
is not `p`, whatever `fn` returns, none of the calls that `DB.Tx` itself makes
(before `fn` and after `fn` came back) is `Commit` or `Rollback` on `p`;
every `Commit` and `Rollback` among them is on `tx`: after a `fn` that failed
only `Rollback` on `tx`, after a `fn` that succeeded `Commit` on `tx`. On the
modelled data this gives the isolation for every unit of work that leaves the
open scopes as it found them (it does not itself commit or roll back the
handle it was given): a nested call whose unit of work returns an error
returns that error and leaves the visible data as it was before the call,
and a top-level call whose unit of work returns nil makes durable exactly
what is visible when the unit of work returns, so the writes of the outer
scope before and after a failed nested call and nothing of the nested scope.
For instance, when the outer unit of work writes `pre`, runs a nested
`DB.Tx` whose unit of work writes `mid` and fails, then writes `post` and
succeeds, the durable data are the former data, the outer `SET LOCAL`, `pre`
and `post`. -/
theorem Tx_savepoint_isolation {S : Type} (db : DB S) (ctx : Context)
    (fn : Work (Recorded S)) (org : domain.Organization) (p tx : Handle) (savedValue : String)
    (w w1 w2 w3 w4 : Recorded S) (out : Outcome (Option GoError))
    (horg : domain.OrganizationFromContext ctx = (some org, none))
    (hparent : psqlfx.TxFromContext ctx = some p)
    (hbegin : db.recording.begin (psqlfx.TxFromContext ctx) w = (.ok tx, w1))
    (hfresh : tx ≠ p)
    (hread : db.recording.readSavedValue (psqlfx.TxFromContext ctx) tx w1 = (savedValue, w2))
    (hset : db.recording.pool.Exec tx (db.recording.setLocal org.ID.String)
      (db.recording.logApplying w2) = (none, w3))
    (hfn : fn (psqlfx.ContextWithTx ctx (some tx)) tx w3 = (out, w4)) :
    w3.calls = w.calls ++ db.entryCalls (some p) tx org.ID.String
    ∧ (db.recording.Tx ctx fn w).2.calls
        = w4.calls ++ db.exitCalls (some p) tx savedValue (succeeded out)
            (db.recording.pool.Commit tx w4).1.isNone
    ∧ (∀ c ∈ db.entryCalls (some p) tx org.ID.String
          ++ db.exitCalls (some p) tx savedValue (succeeded out)
              (db.recording.pool.Commit tx w4).1.isNone,
        c ≠ Call.Commit p ∧ c ≠ Call.Rollback p ∧ (c.isEnd = true → c.handle = some tx))
    ∧ (succeeded out = false →
        db.exitCalls (some p) tx savedValue (succeeded out)
          (db.recording.pool.Commit tx w4).1.isNone = [Call.Rollback tx])
    ∧ (succeeded out = true →
        Call.Commit tx ∈ db.exitCalls (some p) tx savedValue (succeeded out)
          (db.recording.pool.Commit tx w4).1.isNone)
    ∧ (∀ (answer : String → List String → postgres.Ledger → Except GoError String)
        (schema field : String) (inner : domain.Organization) (c : Context) (q : Handle)
        (l l4 : postgres.Ledger) (g : Work postgres.Ledger) (e : GoError),
        psqlfx.TxFromContext c = some q →
        l.isOpen q = true →
        g (psqlfx.ContextWithTx (domain.ContextWithOrganization c (some inner)) (some l.next))
            l.next
            ⟨l.rows ++ ["SET LOCAL " ++ (schema ++ "." ++ field) ++ " = "
                ++ psqlfx.QuoteLiteral inner.ID.String],
              (l.next, l.rows) :: l.frames, l.committed, l.next + 1⟩ = (.ret (some e), l4) →
        l4.frames = (l.next, l.rows) :: l.frames →
        DB.Tx ⟨postgres.Ledger.driver answer, schema, field, none⟩
            (domain.ContextWithOrganization c (some inner)) g l
          = (.ret (some e), { l4 with rows := l.rows, frames := l.frames }))
    ∧ (∀ (answer : String → List String → postgres.Ledger → Except GoError String)
        (schema field : String) (outerOrg : domain.Organization) (c : Context)
        (l l4 : postgres.Ledger) (g : Work postgres.Ledger),
        psqlfx.TxFromContext c = none →
        l.frames = [] →
        g (psqlfx.ContextWithTx (domain.ContextWithOrganization c (some outerOrg))
            (some l.next)) l.next
            ⟨l.rows ++ ["SET LOCAL " ++ (schema ++ "." ++ field) ++ " = "
                ++ psqlfx.QuoteLiteral outerOrg.ID.String],
              [(l.next, l.rows)], l.committed, l.next + 1⟩ = (.ret none, l4) →
        l4.frames = [(l.next, l.rows)] →
        DB.Tx ⟨postgres.Ledger.driver answer, schema, field, none⟩
            (domain.ContextWithOrganization c (some outerOrg)) g l
          = (.ret none, { l4 with frames := [], committed := l4.rows }))
    ∧ (∀ (answer : String → List String → postgres.Ledger → Except GoError String)
        (schema field : String) (outerOrg inner : domain.Organization)
        (pre mid post : List String) (e : GoError) (rows : List String),
        DB.Tx ⟨postgres.Ledger.driver answer, schema, field, none⟩
            (domain.ContextWithOrganization .Background (some outerOrg))
            (sample.nestedRollback ⟨postgres.Ledger.driver answer, schema, field, none⟩
              inner pre mid post e)
            (postgres.Ledger.idle rows)
          = (.ret none,
              ⟨rows ++ ["SET LOCAL " ++ (schema ++ "." ++ field) ++ " = "
                    ++ psqlfx.QuoteLiteral outerOrg.ID.String] ++ pre ++ post, [],
                rows ++ ["SET LOCAL " ++ (schema ++ "." ++ field) ++ " = "
                    ++ psqlfx.QuoteLiteral outerOrg.ID.String] ++ pre ++ post, 3⟩)) := by
  have ht := recording_Tx_trace db ctx fn org tx savedValue w w1 w2 w3 w4 out
    horg hbegin hread hset hfn
  rw [hparent] at ht
  refine ⟨ht.1, ht.2, ?_, ?_, ?_, ?_, ?_, ?_⟩
  · intro c hc
    have hend : c.isEnd = true → c.handle = some tx := by
      intro he
      rcases List.mem_append.1 hc with h | h
      · rw [entryCalls_ends db _ tx _ c h] at he
        cases he
      · exact exitCalls_ends db _ tx _ _ _ c h he
    refine ⟨?_, ?_, hend⟩
    · intro h
      subst h
      exact hfresh (Option.some.inj (hend rfl)).symm
    · intro h
      subst h
      exact hfresh (Option.some.inj (hend rfl)).symm
  · intro h
    rw [h]; rfl
  · intro h
    rw [mem_exitCalls]
    exact Or.inr (Or.inl ⟨h, rfl⟩)
  · intro answer schema field inner c q l l4 g e hc ho hg hf
    exact postgres.Ledger.nested_rollback answer schema field inner c q l l4 g e hc ho hg hf
  · intro answer schema field outerOrg c l l4 g hc hi hg hf
    exact postgres.Ledger.outer_commit answer schema field outerOrg c l l4 g hc hi hg hf
  · intro answer schema field outerOrg inner pre mid post e rows
    exact postgres.Ledger.nestedRollback_committed answer schema field outerOrg inner
      pre mid post e rows

/-- C24, as stated, fails for the data: when the nested unit of work writes,
commits the handle it was given, which releases the savepoint, and then
returns an error, the nested `DB.Tx` returns that error, its deferred
`Rollback` does nothing on the closed handle, and after the outer scope
succeeded the write of the nested scope is durable. -/
theorem Tx_savepoint_isolation_counterexample :
    (DB.Tx ⟨postgres.Ledger.driver (fun _ _ _ => .ok ""), "app", "current_organization", none⟩
        sample.ctxNested
        (sample.failingAfterRelease
          ⟨postgres.Ledger.driver (fun _ _ _ => .ok ""), "app", "current_organization", none⟩
          ["INSERT 2"] (.errorString "inner failure"))
        ⟨["SET LOCAL app.current_organization = \x27abababab-abab-abab-abab-abababababab\x27",
            "INSERT 1"], [(1, [])], [], 2⟩).1
      = .ret (some (.errorString "inner failure"))
    ∧ DB.Tx ⟨postgres.Ledger.driver (fun _ _ _ => .ok ""), "app", "current_organization", none⟩
        sample.ctxA
        (sample.nestedRelease
          ⟨postgres.Ledger.driver (fun _ _ _ => .ok ""), "app", "current_organization", none⟩
          sample.orgB ["INSERT 1"] ["INSERT 2"] ["INSERT 3"] (.errorString "inner failure"))
        (postgres.Ledger.idle [])
      = (.ret none,
          ⟨["SET LOCAL app.current_organization = \x27abababab-abab-abab-abab-abababababab\x27",
             "INSERT 1",
             "SET LOCAL app.current_organization = \x271c1c1c1c-1c1c-1c1c-1c1c-1c1c1c1c1c1c\x27",
             "INSERT 2", "INSERT 3"], [],
            ["SET LOCAL app.current_organization = \x27abababab-abab-abab-abab-abababababab\x27",
             "INSERT 1",
             "SET LOCAL app.current_organization = \x271c1c1c1c-1c1c-1c1c-1c1c-1c1c1c1c1c1c\x27",
             "INSERT 2", "INSERT 3"], 3⟩) := by
  decide

theorem Tx_savepoint_isolation_witness :
    (sample.db.recording.Tx sample.ctxNested (sample.failing _) sample.nestedStart).2.calls
      = [Call.Begin 1,
         Call.QueryRowScan 2 "SELECT current_setting($1, true)" ["app.current_organization"],
         Call.Exec 2 "SET LOCAL app.current_organization = \x271c1c1c1c-1c1c-1c1c-1c1c-1c1c1c1c1c1c\x27",
         Call.Rollback 2]
    ∧ (DB.Tx ⟨postgres.Ledger.driver (fun _ _ _ => .ok ""), "app", "current_organization", none⟩
        sample.ctxA
        (sample.nestedRollback
          ⟨postgres.Ledger.driver (fun _ _ _ => .ok ""), "app", "current_organization", none⟩
          sample.orgB ["INSERT 1"] ["INSERT 2"] ["INSERT 3"] (.errorString "inner failure"))
        (postgres.Ledger.idle [])).2.committed
      = ["SET LOCAL app.current_organization = \x27abababab-abab-abab-abab-abababababab\x27",
         "INSERT 1", "INSERT 3"] := by
  have h := Tx_savepoint_isolation sample.db sample.ctxNested (sample.failing _) sample.orgB 1 2
    sample.orgA.ID.String sample.nestedStart
    (sample.db.recording.begin (some 1) sample.nestedStart).2
    (sample.db.recording.readSavedValue (some 1) 2
      (sample.db.recording.begin (some 1) sample.nestedStart).2).2
    (sample.db.recording.pool.Exec 2 (sample.db.recording.setLocal sample.orgB.ID.String)
      (sample.db.recording.readSavedValue (some 1) 2
        (sample.db.recording.begin (some 1) sample.nestedStart).2).2).2
    (sample.db.recording.pool.Exec 2 (sample.db.recording.setLocal sample.orgB.ID.String)
      (sample.db.recording.readSavedValue (some 1) 2
        (sample.db.recording.begin (some 1) sample.nestedStart).2).2).2
    (.ret (some (GoError.errorString "something went wrong")))
    rfl rfl rfl (by decide) (by decide) (by decide) rfl
  refine ⟨?_, ?_⟩
  · rw [h.2.1]
    decide
  · have h6 := h.2.2.2.2.2.2.2 (fun _ _ _ => .ok "") "app" "current_organization"
      sample.orgA sample.orgB ["INSERT 1"] ["INSERT 2"] ["INSERT 3"]
      (.errorString "inner failure") []
    have h7 := congrArg (fun r => r.2.committed) h6
    refine h7.trans ?_
    decide

end rlsfx

/-! ## Order totals -/
namespace sweetshop

/-! ### Arithmetic in `int32` -/

theorem wrap_add_wrap (a b : Int) : int32.wrap (int32.wrap a + int32.wrap b) = int32.wrap (a + b) := by
  unfold int32.wrap
  omega

theorem wrap_of_fits (x : Int) (hlo : -2147483648 ≤ x) (hhi : x < 2147483648) :
    int32.wrap x = x := by
  unfold int32.wrap
  omega

theorem foldl_total (items : List OrderItem) (a : Int) :
    items.foldl (fun total item => int32.wrap (total + item.LineTotalCents)) (int32.wrap a)
      = int32.wrap (a + (items.map (fun i => i.Quantity * i.PriceCents)).sum) := by
  induction items generalizing a with
  | nil => simp
  | cons i rest ih =>
    simp only [List.foldl_cons, List.map_cons, List.sum_cons]
    have h : int32.wrap (int32.wrap a + i.LineTotalCents)
        = int32.wrap (a + i.Quantity * i.PriceCents) := by
      unfold OrderItem.LineTotalCents
      exact wrap_add_wrap a _
    rw [h, ih, add_assoc]

/-- C21 (amended): for every order, `Order.TotalCents()` is the sum over its
items of quantity times price reduced to `int32` (the value in
`[-2^31, 2^31)` congruent to the sum modulo `2^32`); it is that sum itself
whenever the sum lies in the range of `int32`, it is 0 for an order with no
items, and the items (2 x 350) and (3 x 200) give 1300. -/
theorem TotalCents_wraps (o : Order) :
    o.TotalCents = int32.wrap o.TotalCentsSpec
    ∧ (-2147483648 ≤ o.TotalCentsSpec → o.TotalCentsSpec < 2147483648 →
        o.TotalCents = o.TotalCentsSpec)
    ∧ (o.Items = [] → o.TotalCents = 0)
    ∧ Order.TotalCents ⟨[⟨2, 350⟩, ⟨3, 200⟩]⟩ = 1300 := by
  have h : o.TotalCents = int32.wrap o.TotalCentsSpec := by
    have h0 := foldl_total o.Items 0
    have hz : int32.wrap 0 = 0 := by decide
    rw [hz, zero_add] at h0
    exact h0
  refine ⟨h, ?_, ?_, by decide⟩
  · intro hlo hhi
    rw [h, wrap_of_fits _ hlo hhi]
  · intro hnil
    simp [Order.TotalCents, hnil]

/-- C21, as stated, fails when the arithmetic overflows: for one item of
quantity 3 at 1000000000 cents, both valid positive `int32` values, the sum
of quantity times price is 3000000000 while `TotalCents()` and
`LineTotalCents()` return -1294967296. -/
theorem TotalCents_overflow_counterexample :
    (0 < (3 : Int) ∧ (3 : Int) < 2147483648)
    ∧ (0 < (1000000000 : Int) ∧ (1000000000 : Int) < 2147483648)
    ∧ Order.TotalCentsSpec ⟨[⟨3, 1000000000⟩]⟩ = 3000000000
    ∧ Order.TotalCents ⟨[⟨3, 1000000000⟩]⟩ = -1294967296
    ∧ OrderItem.LineTotalCents ⟨3, 1000000000⟩ = -1294967296 := by
  decide

end sweetshop

/-! ## Values next to errors, nil organizations and the statement text -/

namespace rlsfx
open pgx (Driver Call Recorded)

theorem map_pair_value {T : Type} (o : Outcome (Option GoError)) (d x : T)
    (err : Option GoError) (h : o.map (fun translated => (d, translated)) = .ret (x, err)) :
    x = d ∧ o = .ret err := by
  cases o with
  | panicked msg => cases h
  | ret t =>
    simp only [Outcome.map, Outcome.ret.injEq, Prod.mk.injEq] at h
    exact ⟨h.1.symm, by rw [h.2]⟩

/-- `Query` when no organization is bound. -/
theorem Query_missing_organization {S T : Type} [Inhabited T] (db : DB S) (ctx : Context)
    (fn : WorkOf S T) (s : S) (org : Option domain.Organization) (err : GoError)
    (horg : domain.OrganizationFromContext ctx = (org, some err)) :
    Query db ctx fn s
      = ((psqlfx.TranslateError (some err)).map (fun translated => (default, translated)), s) := by
  have hTx : (db.withLocal T).Tx ctx (Query.closure fn) (s, default)
      = (.ret (some err), (s, default)) := by
    simp only [DB.Tx, horg]
  simp only [Query, hTx]

/-- `Query` when the `Begin` fails. -/
theorem Query_begin_error {S T : Type} [Inhabited T] (db : DB S) (ctx : Context)
    (fn : WorkOf S T) (s s1 : S) (org : domain.Organization) (e : GoError)
    (horg : domain.OrganizationFromContext ctx = (some org, none))
    (hbegin : db.begin (psqlfx.TxFromContext ctx) s = (.error e, s1)) :
    Query db ctx fn s
      = ((psqlfx.TranslateError (some e)).map (fun translated => (default, translated)), s1) := by
  have hTx : (db.withLocal T).Tx ctx (Query.closure fn) (s, default)
      = (.ret (some e), (s1, default)) := by
    simp only [DB.Tx, horg, withLocal_begin, hbegin]
  simp only [Query, hTx]

theorem withLocal_set {S T : Type} (db : DB S) (tx : Handle) (value : String) (s s3 : S)
    (r : Option GoError) (d : T)
    (hset : db.pool.Exec tx (db.setLocal value) s = (r, s3)) :
    (db.withLocal T).pool.Exec tx ((db.withLocal T).setLocal value) (s, d) = (r, (s3, d)) := by
  show ((db.pool.Exec tx (db.setLocal value) s).1,
    ((db.pool.Exec tx (db.setLocal value) s).2, d)) = _
  rw [hset]

/-- `Query` when the `SET LOCAL` fails. -/
theorem Query_set_error {S T : Type} [Inhabited T] (db : DB S) (ctx : Context)
    (fn : WorkOf S T) (org : domain.Organization) (tx : Handle) (savedValue : String)
    (s s1 s2 s3 : S) (e : GoError)
    (horg : domain.OrganizationFromContext ctx = (some org, none))
    (hbegin : db.begin (psqlfx.TxFromContext ctx) s = (.ok tx, s1))
    (hread : db.readSavedValue (psqlfx.TxFromContext ctx) tx s1 = (savedValue, s2))
    (hset : db.pool.Exec tx (db.setLocal org.ID.String) (db.logApplying s2) = (some e, s3)) :
    Query db ctx fn s
      = ((psqlfx.TranslateError (some e)).map (fun translated => (default, translated)),
          (db.pool.Rollback tx s3).2) := by
  have hexec := withLocal_set db tx org.ID.String _ s3 (some e) (default : T) hset
  have hTx : (db.withLocal T).Tx ctx (Query.closure fn) (s, default)
      = (.ret (some e), ((db.pool.Rollback tx s3).2, default)) := by
    simp only [DB.Tx, horg, withLocal_begin, hbegin, DB.scoped, withLocal_readSavedValue,
      hread, withLocal_logApplying, hexec]
    rfl
  simp only [Query, hTx]

/-- `Query` when `fn` returns an error. -/
theorem Query_fn_error {S T : Type} [Inhabited T] (db : DB S) (ctx : Context)
    (fn : WorkOf S T) (org : domain.Organization) (tx : Handle) (savedValue : String)
    (s s1 s2 s3 s4 : S) (v : T) (e : GoError)
    (horg : domain.OrganizationFromContext ctx = (some org, none))
    (hbegin : db.begin (psqlfx.TxFromContext ctx) s = (.ok tx, s1))
    (hread : db.readSavedValue (psqlfx.TxFromContext ctx) tx s1 = (savedValue, s2))
    (hset : db.pool.Exec tx (db.setLocal org.ID.String) (db.logApplying s2) = (none, s3))
    (hfn : fn (psqlfx.ContextWithTx ctx (some tx)) tx s3 = (.ret (v, some e), s4)) :
    Query db ctx fn s
      = ((psqlfx.TranslateError (some e)).map (fun translated => (default, translated)),
          (db.pool.Rollback tx s4).2) := by
  have hexec := withLocal_set db tx org.ID.String _ s3 none (default : T) hset
  have hclosure : Query.closure fn (psqlfx.ContextWithTx ctx (some tx)) tx (s3, (default : T))
      = (.ret (some e), (s4, default)) := by
    simp only [Query.closure, hfn]
  have hTx : (db.withLocal T).Tx ctx (Query.closure fn) (s, default)
      = (.ret (some e), ((db.pool.Rollback tx s4).2, default)) := by
    simp only [DB.Tx, horg, withLocal_begin, hbegin, DB.scoped, withLocal_readSavedValue,
      hread, withLocal_logApplying, hexec, hclosure]
    rfl
  simp only [Query, hTx]

/-- `Query` when `fn` panics. -/
theorem Query_fn_panic {S T : Type} [Inhabited T] (db : DB S) (ctx : Context)
    (fn : WorkOf S T) (org : domain.Organization) (tx : Handle) (savedValue : String)
    (s s1 s2 s3 s4 : S) (msg : String)
    (horg : domain.OrganizationFromContext ctx = (some org, none))
    (hbegin : db.begin (psqlfx.TxFromContext ctx) s = (.ok tx, s1))
    (hread : db.readSavedValue (psqlfx.TxFromContext ctx) tx s1 = (savedValue, s2))
    (hset : db.pool.Exec tx (db.setLocal org.ID.String) (db.logApplying s2) = (none, s3))
    (hfn : fn (psqlfx.ContextWithTx ctx (some tx)) tx s3 = (.panicked msg, s4)) :
    Query db ctx fn s = (.panicked msg, (db.pool.Rollback tx s4).2) := by
  have hexec := withLocal_set db tx org.ID.String _ s3 none (default : T) hset
  have hclosure : Query.closure fn (psqlfx.ContextWithTx ctx (some tx)) tx (s3, (default : T))
      = (.panicked msg, (s4, default)) := by
    simp only [Query.closure, hfn]
  have hTx : (db.withLocal T).Tx ctx (Query.closure fn) (s, default)
      = (.panicked msg, ((db.pool.Rollback tx s4).2, default)) := by
    simp only [DB.Tx, horg, withLocal_begin, hbegin, DB.scoped, withLocal_readSavedValue,
      hread, withLocal_logApplying, hexec, hclosure]
    rfl
  simp only [Query, hTx]

/-- `Query` when `fn` returned a value and the rest of `Tx` came back with `r`. -/
theorem Query_fn_value {S T : Type} [Inhabited T] (db : DB S) (ctx : Context)
    (fn : WorkOf S T) (org : domain.Organization) (tx : Handle) (savedValue : String)
    (s s1 s2 s3 s4 s5 : S) (v : T) (r : Outcome (Option GoError))
    (horg : domain.OrganizationFromContext ctx = (some org, none))
    (hbegin : db.begin (psqlfx.TxFromContext ctx) s = (.ok tx, s1))
    (hread : db.readSavedValue (psqlfx.TxFromContext ctx) tx s1 = (savedValue, s2))
    (hset : db.pool.Exec tx (db.setLocal org.ID.String) (db.logApplying s2) = (none, s3))
    (hfn : fn (psqlfx.ContextWithTx ctx (some tx)) tx s3 = (.ret (v, none), s4))
    (hcr : db.commitAndRestore (psqlfx.TxFromContext ctx) tx savedValue s4 = (r, s5)) :
    Query db ctx fn s
      = ((r.bind psqlfx.TranslateError).map (fun translated => (v, translated)),
          (db.pool.Rollback tx s5).2) := by
  have hexec := withLocal_set db tx org.ID.String _ s3 none (default : T) hset
  have hclosure : Query.closure fn (psqlfx.ContextWithTx ctx (some tx)) tx (s3, (default : T))
      = (.ret none, (s4, v)) := by
    simp only [Query.closure, hfn]
  have hTx : (db.withLocal T).Tx ctx (Query.closure fn) (s, default)
      = (r, ((db.pool.Rollback tx s5).2, v)) := by
    simp only [DB.Tx, horg, withLocal_begin, hbegin, DB.scoped, withLocal_readSavedValue,
      hread, withLocal_logApplying, hexec, hclosure, withLocal_commitAndRestore, hcr]
    rfl
  simp only [Query, hTx]
  cases r with
  | panicked msg => rfl
  | ret err => cases err <;> rfl

/-- C28 (amended): on every path on which `Query` can return an error the value
next to it is given. It is the zero value of `T` when no organization is
bound, when the `Begin` fails, when the `SET LOCAL` fails (in these three `fn`
is not invoked) and when `fn` returns an error, whatever value `fn` returned
with it. When `fn` returns `(v, nil)` and the commit, or the restore of a
nested call, then fails, the value is `v`, not the zero value. In each case
the error is `TranslateError` of the error of `Tx`. Conversely, whenever
`Query` returns a non-nil error next to a value that is not the zero value,
the call is of the last kind. -/
theorem Query_error_value {S T : Type} [Inhabited T] (db : DB S) (ctx : Context)
    (fn : WorkOf S T) (s : S) :
    (∀ (org : Option domain.Organization) (err : GoError),
      domain.OrganizationFromContext ctx = (org, some err) →
      Query db ctx fn s
        = ((psqlfx.TranslateError (some err)).map (fun translated => (default, translated)), s))
    ∧ (∀ (org : domain.Organization) (e : GoError) (s1 : S),
        domain.OrganizationFromContext ctx = (some org, none) →
        db.begin (psqlfx.TxFromContext ctx) s = (.error e, s1) →
        Query db ctx fn s
          = ((psqlfx.TranslateError (some e)).map (fun translated => (default, translated)),
              s1))
    ∧ (∀ (org : domain.Organization) (tx : Handle) (savedValue : String) (s1 s2 s3 : S)
        (e : GoError),
        domain.OrganizationFromContext ctx = (some org, none) →
        db.begin (psqlfx.TxFromContext ctx) s = (.ok tx, s1) →
        db.readSavedValue (psqlfx.TxFromContext ctx) tx s1 = (savedValue, s2) →
        db.pool.Exec tx (db.setLocal org.ID.String) (db.logApplying s2) = (some e, s3) →
        Query db ctx fn s
          = ((psqlfx.TranslateError (some e)).map (fun translated => (default, translated)),
              (db.pool.Rollback tx s3).2))
    ∧ (∀ (org : domain.Organization) (tx : Handle) (savedValue : String) (s1 s2 s3 s4 : S)
        (v : T) (e : GoError),
        domain.OrganizationFromContext ctx = (some org, none) →
        db.begin (psqlfx.TxFromContext ctx) s = (.ok tx, s1) →
        db.readSavedValue (psqlfx.TxFromContext ctx) tx s1 = (savedValue, s2) →
        db.pool.Exec tx (db.setLocal org.ID.String) (db.logApplying s2) = (none, s3) →
        fn (psqlfx.ContextWithTx ctx (some tx)) tx s3 = (.ret (v, some e), s4) →
        Query db ctx fn s
          = ((psqlfx.TranslateError (some e)).map (fun translated => (default, translated)),
              (db.pool.Rollback tx s4).2))
    ∧ (∀ (org : domain.Organization) (tx : Handle) (savedValue : String) (s1 s2 s3 s4 s5 : S)
        (v : T) (e : GoError),
        domain.OrganizationFromContext ctx = (some org, none) →
        db.begin (psqlfx.TxFromContext ctx) s = (.ok tx, s1) →
        db.readSavedValue (psqlfx.TxFromContext ctx) tx s1 = (savedValue, s2) →
        db.pool.Exec tx (db.setLocal org.ID.String) (db.logApplying s2) = (none, s3) →
        fn (psqlfx.ContextWithTx ctx (some tx)) tx s3 = (.ret (v, none), s4) →
        db.commitAndRestore (psqlfx.TxFromContext ctx) tx savedValue s4
          = (.ret (some e), s5) →
        Query db ctx fn s
          = ((psqlfx.TranslateError (some e)).map (fun translated => (v, translated)),
              (db.pool.Rollback tx s5).2))
    ∧ (∀ (x : T) (err : GoError) (s' : S),
        Query db ctx fn s = (.ret (x, some err), s') →
        x = default
        ∨ ∃ (org : domain.Organization) (tx : Handle) (savedValue : String)
            (s1 s2 s3 s4 s5 : S) (e : GoError),
            domain.OrganizationFromContext ctx = (some org, none)
            ∧ db.begin (psqlfx.TxFromContext ctx) s = (.ok tx, s1)
            ∧ db.readSavedValue (psqlfx.TxFromContext ctx) tx s1 = (savedValue, s2)
            ∧ db.pool.Exec tx (db.setLocal org.ID.String) (db.logApplying s2) = (none, s3)
            ∧ fn (psqlfx.ContextWithTx ctx (some tx)) tx s3 = (.ret (x, none), s4)
            ∧ db.commitAndRestore (psqlfx.TxFromContext ctx) tx savedValue s4
                = (.ret (some e), s5)
            ∧ psqlfx.TranslateError (some e) = .ret (some err)) := by
  refine ⟨fun org err h => Query_missing_organization db ctx fn s org err h,
    fun org e s1 h1 h2 => Query_begin_error db ctx fn s s1 org e h1 h2,
    fun org tx sv s1 s2 s3 e h1 h2 h3 h4 =>
      Query_set_error db ctx fn org tx sv s s1 s2 s3 e h1 h2 h3 h4,
    fun org tx sv s1 s2 s3 s4 v e h1 h2 h3 h4 h5 =>
      Query_fn_error db ctx fn org tx sv s s1 s2 s3 s4 v e h1 h2 h3 h4 h5,
    ?_, ?_⟩
  · intro org tx sv s1 s2 s3 s4 s5 v e h1 h2 h3 h4 h5 h6
    exact Query_fn_value db ctx fn org tx sv s s1 s2 s3 s4 s5 v (.ret (some e)) h1 h2 h3 h4 h5 h6
  · intro x err s' h
    rcases horg : domain.OrganizationFromContext ctx with ⟨org, oerr⟩
    cases oerr with
    | some oe =>
      rw [Query_missing_organization db ctx fn s org oe horg] at h
      exact Or.inl (map_pair_value _ _ _ _ (congrArg Prod.fst h)).1
    | none =>
      cases org with
      | none =>
        exfalso
        unfold domain.OrganizationFromContext at horg
        split at horg <;> cases horg
      | some org =>
        rcases hbegin : db.begin (psqlfx.TxFromContext ctx) s with ⟨rb, s1⟩
        cases rb with
        | error e =>
          rw [Query_begin_error db ctx fn s s1 org e horg hbegin] at h
          exact Or.inl (map_pair_value _ _ _ _ (congrArg Prod.fst h)).1
        | ok tx =>
          rcases hread : db.readSavedValue (psqlfx.TxFromContext ctx) tx s1 with ⟨sv, s2⟩
          rcases hset : db.pool.Exec tx (db.setLocal org.ID.String) (db.logApplying s2)
            with ⟨rs, s3⟩
          cases rs with
          | some e =>
            rw [Query_set_error db ctx fn org tx sv s s1 s2 s3 e horg hbegin hread hset] at h
            exact Or.inl (map_pair_value _ _ _ _ (congrArg Prod.fst h)).1
          | none =>
            rcases hfn : fn (psqlfx.ContextWithTx ctx (some tx)) tx s3 with ⟨out, s4⟩
            cases out with
            | panicked msg =>
              rw [Query_fn_panic db ctx fn org tx sv s s1 s2 s3 s4 msg horg hbegin hread hset
                hfn] at h
              cases h
            | ret pr =>
              rcases pr with ⟨v, ferr⟩
              cases ferr with
              | some e =>
                rw [Query_fn_error db ctx fn org tx sv s s1 s2 s3 s4 v e horg hbegin hread
                  hset hfn] at h
                exact Or.inl (map_pair_value _ _ _ _ (congrArg Prod.fst h)).1
              | none =>
                rcases hcr : db.commitAndRestore (psqlfx.TxFromContext ctx) tx sv s4
                  with ⟨r, s5⟩
                rw [Query_fn_value db ctx fn org tx sv s s1 s2 s3 s4 s5 v r horg hbegin hread
                  hset hfn hcr] at h
                have hm := map_pair_value _ _ _ _ (congrArg Prod.fst h)
                cases r with
                | panicked msg => cases hm.2
                | ret re =>
                  cases re with
                  | none =>
                    have h2 : psqlfx.TranslateError none = .ret (some err) := hm.2
                    cases h2
                  | some e =>
                    right
                    refine ⟨org, tx, sv, s1, s2, s3, s4, s5, e, rfl, rfl, hread, hset, ?_, hcr,
                      hm.2⟩
                    rw [hm.1]
                    exact hfn

theorem Query_error_value_witness :
    Query sample.db sample.ctxA sample.refusing postgres.idle
      = (.ret (0, some (GoError.errorString "something went wrong")), ⟨[], [], 2⟩)
    ∧ Query sample.db .Background sample.refusing postgres.idle
      = (.ret (0, some domain.ErrMissingOrganization), postgres.idle) := by
  have h4 := (Query_error_value sample.db sample.ctxA sample.refusing postgres.idle).2.2.2.1
    sample.orgA 1 ""
    (sample.db.begin none postgres.idle).2 (sample.db.begin none postgres.idle).2
    (sample.db.pool.Exec 1 (sample.db.setLocal sample.orgA.ID.String)
      (sample.db.begin none postgres.idle).2).2
    (sample.db.pool.Exec 1 (sample.db.setLocal sample.orgA.ID.String)
      (sample.db.begin none postgres.idle).2).2
    7 (GoError.errorString "something went wrong") rfl rfl rfl (by decide) rfl
  have h1 := (Query_error_value sample.db .Background sample.refusing postgres.idle).1
    none domain.ErrMissingOrganization rfl
  refine ⟨?_, ?_⟩
  · rw [h4]
    decide
  · rw [h1]
    decide

/-- C28, as stated, fails: a unit of work that commits its handle and returns
`(42, nil)` makes the `Commit` of `Tx` fail, and `Query` returns the value 42,
which is not the zero value, together with the error. -/
theorem Query_error_value_counterexample :
    Query sample.db sample.ctxA sample.answeringCommitted postgres.idle
      = (.ret (42, some pgx.ErrTxClosed), ⟨[], [], 2⟩)
    ∧ (42 : Nat) ≠ default
    ∧ sample.answeringCommitted (psqlfx.ContextWithTx sample.ctxA (some 1)) 1
        ⟨[("app.current_organization", sample.orgA.ID.String)], [⟨1, []⟩], 2⟩
      = (.ret (42, none), ⟨[], [], 2⟩) := by
  decide

theorem commitAndRestore_returns {S : Type} (db : DB S) (parent : Option Handle) (tx : Handle)
    (savedValue : String) (s : S) (msg : String) :
    (db.commitAndRestore parent tx savedValue s).1 ≠ .panicked msg := by
  unfold DB.commitAndRestore
  repeat' split
  all_goals simp

/-- C29: for every context, `OrganizationFromContext` returns a non-nil
organization with a nil error, or a nil organization with
`ErrMissingOrganization`, never nil with nil; after
`ContextWithOrganization(ctx, nil)` it returns the latter, whatever `ctx`
carries. Hence `DB.Tx` never panics on `org.ID`: when `DB.Tx` panics, an
organization was bound and the panic is that of `fn`. -/
theorem OrganizationFromContext_never_nil_nil :
    (∀ ctx : Context,
      (∃ org, domain.OrganizationFromContext ctx = (some org, none))
      ∨ domain.OrganizationFromContext ctx = (none, some domain.ErrMissingOrganization))
    ∧ (∀ ctx : Context,
        domain.OrganizationFromContext (domain.ContextWithOrganization ctx none)
          = (none, some domain.ErrMissingOrganization))
    ∧ (∀ (S : Type) (db : DB S) (ctx : Context) (fn : Work S) (s : S) (msg : String),
        (db.Tx ctx fn s).1 = .panicked msg →
        ∃ org tx s', domain.OrganizationFromContext ctx = (some org, none)
          ∧ (fn (psqlfx.ContextWithTx ctx (some tx)) tx s').1 = .panicked msg) := by
  refine ⟨?_, ?_, ?_⟩
  · intro ctx
    unfold domain.OrganizationFromContext
    split
    · next org _ => exact Or.inl ⟨org, rfl⟩
    · exact Or.inr rfl
  · intro ctx
    simp [domain.OrganizationFromContext, domain.ContextWithOrganization, context.Context.Value]
  · intro S db ctx fn s msg h
    unfold DB.Tx at h
    rcases ho : domain.OrganizationFromContext ctx with ⟨o, err⟩
    rw [ho] at h
    cases err with
    | some err => simp at h
    | none =>
      simp only at h
      cases o with
      | none =>
        exfalso
        unfold domain.OrganizationFromContext at ho
        split at ho <;> cases ho
      | some org =>
        rcases hb : db.begin (psqlfx.TxFromContext ctx) s with ⟨rb, s1⟩
        rw [hb] at h
        cases rb with
        | error e => simp at h
        | ok tx =>
          simp only [DB.scoped] at h
          rcases hr : db.readSavedValue (psqlfx.TxFromContext ctx) tx s1 with ⟨saved, s2⟩
          rw [hr] at h
          simp only at h
          rcases hx : db.pool.Exec tx (db.setLocal org.ID.String) (db.logApplying s2)
            with ⟨rx, s3⟩
          rw [hx] at h
          cases rx with
          | some e => simp at h
          | none =>
            simp only at h
            rcases hf : fn (psqlfx.ContextWithTx ctx (some tx)) tx s3 with ⟨out, s4⟩
            rw [hf] at h
            cases out with
            | panicked m =>
              simp only [Outcome.panicked.injEq] at h
              exact ⟨org, tx, s3, rfl, by rw [hf, h]⟩
            | ret r =>
              cases r with
              | some e => simp at h
              | none =>
                simp only at h
                exact absurd h (commitAndRestore_returns db _ tx saved s4 msg)

end rlsfx

namespace uuid

theorem hexDigit_hex : ∀ n, n < 16 → hexDigit n ∈ "0123456789abcdef".data := by
  decide

theorem hexEncode_hex (bs : List (Fin 256)) :
    ∀ c ∈ hexEncode bs, c ∈ "0123456789abcdef".data := by
  intro c hc
  simp only [hexEncode, List.mem_flatMap] at hc
  obtain ⟨b, _, hcb⟩ := hc
  have h1 : b.val / 16 < 16 := by omega
  have h2 : b.val % 16 < 16 := by omega
  simp only [List.mem_cons, List.mem_singleton, List.not_mem_nil, or_false] at hcb
  rcases hcb with h | h
  · rw [h]; exact hexDigit_hex _ h1
  · rw [h]; exact hexDigit_hex _ h2

theorem String_hex (u : UUID) :
    ∀ c ∈ u.String.data, c = '-' ∨ c ∈ "0123456789abcdef".data := by
  intro c hc
  simp only [UUID.String, List.mem_append, List.mem_cons] at hc
  rcases hc with (((h | h | h) | h | h) | h | h) | h | h <;>
    first
    | exact Or.inr (hexEncode_hex _ c h)
    | exact Or.inl h

end uuid

namespace rlsfx

/-- C30: for every UUID `id`, `QuoteLiteral(id.String())` is `id.String()`
between two single quotes, since `id.String()` consists of lower-case
hexadecimal digits and hyphens only, and the statement of line 69 for it is
`"SET LOCAL " + schema + "." + field + " = '" + id.String() + "'"`, the
`SET LOCAL` among the calls of `Tx`, with schema and field as configured. -/
theorem setLocal_uuid_plain {S : Type} (db : DB S) (id : uuid.UUID) :
    psqlfx.QuoteLiteral id.String = "\x27" ++ id.String ++ "\x27"
    ∧ (∀ c ∈ id.String.data, c = '-' ∨ c ∈ "0123456789abcdef".data)
    ∧ db.setLocal id.String
        = "SET LOCAL " ++ db.schema ++ "." ++ db.field ++ " = \x27" ++ id.String ++ "\x27"
    ∧ (∀ (parent : Option Handle) (tx : Handle),
        pgx.Call.Exec tx
          ("SET LOCAL " ++ db.schema ++ "." ++ db.field ++ " = \x27" ++ id.String ++ "\x27")
          ∈ db.entryCalls parent tx id.String) := by
  have hp := uuid.String_plain id
  have hq : psqlfx.QuoteLiteral id.String = "\x27" ++ id.String ++ "\x27" := by
    apply String.ext
    rw [QuoteLiteral_plain id.String (fun h => (hp _ h).1 rfl) (fun h => (hp _ h).2 rfl)]
    simp [String.data_append]
    rfl
  have hs : db.setLocal id.String
      = "SET LOCAL " ++ db.schema ++ "." ++ db.field ++ " = \x27" ++ id.String ++ "\x27" := by
    unfold DB.setLocal DB.variable
    rw [hq]
    simp only [String.append_assoc]
    rfl
  refine ⟨hq, uuid.String_hex id, hs, ?_⟩
  intro parent tx
  rw [← hs]
  simp [DB.entryCalls]

end rlsfx

end GoEdge
